import Mathlib

/-!
# famas: quality trimming of FASTQ reads

A shallow embedding of `src/famas.c` and theorems about it.

Conventions of the embedding
* A C `char` is an `Int` (its value after integer promotion), a C `int` is an
  `Int`; record lengths are assumed to fit in an `int`, so no arithmetic of
  the embedded functions wraps.  The `unsigned long` counters of `main` are
  natural numbers.
* A `kstring_t` of `kseq.h` is its length field `l` and the memory `s` points
  to, as a list of chars.  Reading `s[i]` is `s.getD i 0`, writing it is
  `s.set i c`, and `%s` prints the chars up to the first NUL (`cstr`).
  `kstring_ok` says that `l` is the length of the C string in `s`, as
  `kseq_read` and the set up of `test()` leave it for text input.
* The input files are the lists of records `kseq_read` delivers; an output
  file is the list of texts `gzprintf` accepted.  `gzprintf` itself (zlib) is
  a parameter of `main`.
* Loops that count upwards carry a fuel argument; the callers pass fuel that
  is never used up (see the `_fuel` lemmas).
-/

namespace Famas

/-! ## Data model -/

/-- The `kstring_t` of `kseq.h`: length `l` and the buffer `s`. -/
structure kstring_t where
  l : Nat
  s : List Int
  deriving DecidableEq, Repr

/-- The record part of `kseq_t`. -/
structure kseq_t where
  name : kstring_t
  comment : kstring_t
  seq : kstring_t
  qual : kstring_t
  deriving DecidableEq, Repr

/-- Source: `trim_pos_t`, zero offset positions for trimming. -/
structure trim_pos_t where
  pos5p : Int
  pos3p : Int
  deriving DecidableEq, Repr

/-- Source: `trim_args_t`. -/
structure trim_args_t where
  min5pqual : Int
  min3pqual : Int
  minreadlen : Int
  deriving DecidableEq, Repr

/-- The buffer a C string literal `t` is copied to: the text and its
terminating NUL. -/
def kstring_of (t : List Int) : kstring_t := ⟨t.length, t ++ [0]⟩

/-! ## calc_trim_pos -/

/-- The 3p loop of `calc_trim_pos`,
`for (i=seq->qual.l-1; i >= minreadlen-1; i--)`.
The argument is `i+1`; the value is `trim_pos->pos3p` after the loop, `-1`
when the loop never assigned it.  `minreadlen` is the clamped local (`>= 1`),
so the loop is left before `i` gets negative. -/
def calc_trim_pos_loop3p (seq : kseq_t) (phredoffset min3pqual minreadlen : Int) :
    Nat → Int
  | 0 => -1
  | i + 1 =>
    if (i : Int) ≥ minreadlen - 1 then
      if seq.qual.s.getD i 0 - phredoffset ≥ min3pqual then (i : Int)
      else calc_trim_pos_loop3p seq phredoffset min3pqual minreadlen i
    else -1

/-- The 5p loop of `calc_trim_pos`,
`for (i=0; i<seq->qual.l - minreadlen + 1 && i<=trim_pos->pos3p; i++)`.
The second argument is `i`; the value is `trim_pos->pos5p` after the loop, `-1`
when the loop never assigned it. -/
def calc_trim_pos_loop5p (seq : kseq_t) (phredoffset min5pqual minreadlen pos3p : Int) :
    Nat → Nat → Int
  | 0, _ => -1
  | fuel + 1, i =>
    if (i : Int) < (seq.qual.l : Int) - minreadlen + 1 ∧ (i : Int) ≤ pos3p then
      if seq.qual.s.getD i 0 - phredoffset ≥ min5pqual then (i : Int)
      else calc_trim_pos_loop5p seq phredoffset min5pqual minreadlen pos3p fuel (i + 1)
    else -1

/-- Source: `calc_trim_pos`.  The value is the return code (`-1`: discard the
read, `0`: keep it) and the `trim_pos` the call leaves behind. -/
def calc_trim_pos (seq : kseq_t) (phredoffset : Int) (trim_args : trim_args_t) :
    Int × trim_pos_t :=
  let minreadlen : Int := if trim_args.minreadlen ≥ 1 then trim_args.minreadlen else 1
  if minreadlen > (seq.qual.l : Int) then (-1, ⟨-1, -1⟩)
  else
    let pos3p : Int :=
      if trim_args.min3pqual > 0 then
        calc_trim_pos_loop3p seq phredoffset trim_args.min3pqual minreadlen seq.qual.l
      else (seq.qual.l : Int) - 1
    if trim_args.min3pqual > 0 ∧ pos3p = -1 then (-1, ⟨-1, pos3p⟩)
    else
      let pos5p : Int :=
        if trim_args.min5pqual > 0 then
          calc_trim_pos_loop5p seq phredoffset trim_args.min5pqual minreadlen pos3p
            (seq.qual.l + 1) 0
        else 0
      if trim_args.min5pqual > 0 ∧ pos5p = -1 then (-1, ⟨pos5p, pos3p⟩)
      else if pos3p - pos5p + 1 < minreadlen then (-1, ⟨pos5p, pos3p⟩)
      else (0, ⟨pos5p, pos3p⟩)

/-- The decoded quality `seq->qual.s[i] - phredoffset`. -/
def decoded_qual (seq : kseq_t) (phredoffset : Int) (i : Nat) : Int :=
  seq.qual.s.getD i 0 - phredoffset

/-! ## qual_range_is_valid -/

/-- The loop of `qual_range_is_valid`, `for (i=0; i<seq->qual.l; i++)`.
The second argument is `i`; the value is `none` when the body returns 0 and
`some i` with the final `i` when the loop runs to its end. -/
def qual_range_is_valid_loop (seq : kseq_t) (phredoffset : Int) :
    Nat → Nat → Option Nat
  | 0, i => some i
  | fuel + 1, i =>
    if i < seq.qual.l then
      if seq.qual.s.getD i 0 - phredoffset < 0 ∨ seq.qual.s.getD i 0 - phredoffset > 93 then
        none
      else qual_range_is_valid_loop seq phredoffset fuel (i + 1)
    else some i

/-- Source: `qual_range_is_valid`; 1 if valid and 0 if invalid. -/
def qual_range_is_valid (seq : kseq_t) (phredoffset : Int) : Int :=
  match qual_range_is_valid_loop seq phredoffset (seq.qual.l + 1) 0 with
  | none => 0
  | some i => if 0 = i then 0 else 1

/-! ## sprintf_fastq and gzprintf_fastq -/

/-- The C string at `&s[start]`, as `%s` prints it: the chars from `start` up
to the first NUL. -/
def cstr (s : List Int) (start : Nat) : List Int :=
  (s.drop start).takeWhile (fun c => decide (c ≠ 0))

/-- The text `sprintf` writes in `sprintf_fastq` for the formats
`"@%s %s\n%s\n+\n%s\n"` (with comment) and `"@%s\n%s\n+\n%s\n"`, with
`seq.s` and `qual.s` printed from index `start`. -/
def sprintf_fastq_text (seq : kseq_t) (start : Nat) : List Int :=
  if seq.comment.l ≠ 0 then
    [64] ++ cstr seq.name.s 0 ++ [32] ++ cstr seq.comment.s 0 ++ [10]
      ++ cstr seq.seq.s start ++ [10, 43, 10] ++ cstr seq.qual.s start ++ [10]
  else
    [64] ++ cstr seq.name.s 0 ++ [10]
      ++ cstr seq.seq.s start ++ [10, 43, 10] ++ cstr seq.qual.s start ++ [10]

/-- What a call of `sprintf_fastq` leaves behind: the return value, the text
in `*buf` (empty when the call fails before writing it) and the record, which
the call writes to through `seq->seq.s` and `seq->qual.s`. -/
structure sprintf_fastq_t where
  ret : Int
  buf : List Int
  seq : kseq_t
  deriving DecidableEq, Repr

/-- Source: `sprintf_fastq`.  `trim_pos = none` is the NULL pointer.  With a
`trim_pos` the chars at `pos3p+1` of sequence and quality are remembered, set
to NUL for the `sprintf` and written back afterwards.  The source accesses
`s[pos3p+1]` without a test against the size of the buffer; outside the buffer
that is undefined behaviour in C, and here the read gives 0 and the write is
left out (`List.set` beyond the length).  The embedding is exact where the
access is not reached or `sprintf_fastq_in_bounds` holds. -/
def sprintf_fastq (seq : kseq_t) (trim_pos : Option trim_pos_t) : sprintf_fastq_t :=
  if seq.qual.l = 0 then ⟨-1, [], seq⟩
  else
    match trim_pos with
    | some tp =>
      if tp.pos5p < 0 ∨ tp.pos3p < 0 then ⟨-1, [], seq⟩
      else if tp.pos3p - tp.pos5p + 1 < 0 then ⟨-1, [], seq⟩
      else
        let start : Nat := tp.pos5p.toNat
        let e : Nat := (tp.pos3p + 1).toNat
        let zeroed_base : Int := seq.seq.s.getD e 0
        let zeroed_qual : Int := seq.qual.s.getD e 0
        let seq_trimmed : kseq_t :=
          { seq with seq := ⟨seq.seq.l, seq.seq.s.set e 0⟩,
                     qual := ⟨seq.qual.l, seq.qual.s.set e 0⟩ }
        let buf := sprintf_fastq_text seq_trimmed start
        let seq_reverted : kseq_t :=
          { seq_trimmed with seq := ⟨seq_trimmed.seq.l, seq_trimmed.seq.s.set e zeroed_base⟩,
                             qual := ⟨seq_trimmed.qual.l, seq_trimmed.qual.s.set e zeroed_qual⟩ }
        ⟨(buf.length : Int), buf, seq_reverted⟩
    | none =>
      let buf := sprintf_fastq_text seq 0
      ⟨(buf.length : Int), buf, seq⟩

/-- The accesses `seq->seq.s[pos3p+1]` and `seq->qual.s[pos3p+1]` of
`sprintf_fastq` are inside the two buffers. -/
def sprintf_fastq_in_bounds (seq : kseq_t) (tp : trim_pos_t) : Prop :=
  tp.pos3p + 1 < (seq.seq.s.length : Int) ∧ tp.pos3p + 1 < (seq.qual.s.length : Int)

instance (seq : kseq_t) (tp : trim_pos_t) : Decidable (sprintf_fastq_in_bounds seq tp) := by
  unfold sprintf_fastq_in_bounds; infer_instance

/-- An output `gzFile`: which of the two output files it is and the texts
written to it so far, in order. -/
structure gzFile where
  fileno : Nat
  written : List (List Int)
  deriving DecidableEq, Repr

/-- Source: `gzprintf_fastq`.  `gzprintf` is zlib's function, given as a
parameter: its return value for a file and a text.  The text is in the file
afterwards when `gzprintf` returns a positive count. -/
def gzprintf_fastq (gzprintf : gzFile → List Int → Int) (fp : gzFile) (seq : kseq_t)
    (trim_pos : Option trim_pos_t) : Int × gzFile :=
  let r := sprintf_fastq seq trim_pos
  if r.ret < 0 then (r.ret, fp)
  else
    let ret := gzprintf fp r.buf
    (ret, if 0 < ret then { fp with written := fp.written ++ [r.buf] } else fp)

/-! ## reads_are_paired -/

/-- The libc `strcmp` on two buffers, as far as the program uses it: 0 when
the two C strings are equal and a value other than 0 when they differ. -/
def strcmp (a b : List Int) : Int :=
  if cstr a 0 = cstr b 0 then 0 else 1

/-- The libc `strncmp`, as far as the program uses it: 0 when the two C strings
agree on their first `n` chars and a value other than 0 when they differ. -/
def strncmp (a b : List Int) (n : Nat) : Int :=
  if (cstr a 0).take n = (cstr b 0).take n then 0 else 1

/-- Source: `reads_are_paired`; 0 if not paired, 1 if paired and -1 if the
order could not be derived. -/
def reads_are_paired (seq1 seq2 : kseq_t) : Int :=
  if seq1.name.l ≠ seq2.name.l then -1
  else if seq1.comment.l ≠ 0 ∧ seq2.comment.l ≠ 0 then
    if 0 = strcmp seq1.name.s seq2.name.s then 1 else 0
  else
    if seq1.name.l < 3 then -1
    else if 0 = strncmp seq1.name.s seq2.name.s (seq1.name.l - 2) then 1 else 0

/-! ## main -/

/-- The fields of `args_t` the loop of `main` reads.  The two flags are the
option counts of `parse_args`, 0 when the option is absent. -/
structure args_t where
  min5pqual : Int
  min3pqual : Int
  phredoffset : Int
  minreadlen : Int
  no_order_check : Int
  no_qual_check : Int
  deriving DecidableEq, Repr

/-- The compile time constants `QUAL_CHECK_SAMPLERATE` and
`PAIRED_ORDER_SAMPLERATE`. -/
structure samplerates where
  QUAL_CHECK_SAMPLERATE : Nat
  PAIRED_ORDER_SAMPLERATE : Nat
  deriving DecidableEq, Repr

/-- The defaults of the source, both 1000. -/
def default_samplerates : samplerates := ⟨1000, 1000⟩

def EXIT_SUCCESS : Int := 0

def EXIT_FAILURE : Int := 1

/-- The variables of `main` that live across iterations of its loop.  The
counters are `unsigned long` in the source and are not wrapped here. -/
structure main_state where
  n_reads_in : Nat
  n_reads_out : Nat
  read_order_warning_issued : Int
  fp_outfq1 : gzFile
  fp_outfq2 : gzFile
  deriving DecidableEq, Repr

/-- How the body of the loop of `main` is left: `next` by `continue` or by
reaching its end, `free_and_exit` by `rc = EXIT_FAILURE; goto free_and_exit`. -/
inductive main_step where
  | next (st : main_state)
  | free_and_exit (st : main_state)
  deriving DecidableEq, Repr

/-- The `trim_args` that `main` fills from `args`. -/
def main_trim_args (args : args_t) : trim_args_t :=
  ⟨args.min5pqual, args.min3pqual, args.minreadlen⟩

/-- The two `gzprintf_fastq` calls at the end of the loop body of `main` and
the increment of `n_reads_out`.  `out2` is `none` in single end mode. -/
def main_emit (gzprintf : gzFile → List Int → Int) (seq1 : kseq_t) (trim_pos_1 : trim_pos_t)
    (out2 : Option (kseq_t × trim_pos_t)) (st : main_state) : main_step :=
  let w1 := gzprintf_fastq gzprintf st.fp_outfq1 seq1 (some trim_pos_1)
  let st1 : main_state := { st with fp_outfq1 := w1.2 }
  if 0 ≥ w1.1 then main_step.free_and_exit st1
  else
    match out2 with
    | some (seq2, trim_pos_2) =>
      let w2 := gzprintf_fastq gzprintf st1.fp_outfq2 seq2 (some trim_pos_2)
      let st2 : main_state := { st1 with fp_outfq2 := w2.2 }
      if 0 ≥ w2.1 then main_step.free_and_exit st2
      else main_step.next { st2 with n_reads_out := st2.n_reads_out + 1 }
    | none => main_step.next { st1 with n_reads_out := st1.n_reads_out + 1 }

/-- The body of the loop of `main` after the reads of `seq1` and, in paired
end mode, `seq2` (`none` in single end mode); `st.n_reads_in` is already
incremented. -/
def main_body (rates : samplerates) (gzprintf : gzFile → List Int → Int) (args : args_t)
    (seq1 : kseq_t) (seq2 : Option kseq_t) (st : main_state) : main_step :=
  if (args.no_qual_check = 0 ∧ 1 = st.n_reads_in % rates.QUAL_CHECK_SAMPLERATE) ∧
      qual_range_is_valid seq1 args.phredoffset = 0 then
    main_step.free_and_exit st
  else
    let r1 := calc_trim_pos seq1 args.phredoffset (main_trim_args args)
    if -1 = r1.1 then main_step.next st
    else
      match seq2 with
      | some seq2 =>
        if (args.no_qual_check = 0 ∧ 1 = st.n_reads_in % rates.QUAL_CHECK_SAMPLERATE) ∧
            qual_range_is_valid seq1 args.phredoffset = 0 then
          main_step.free_and_exit st
        else
          let r2 := calc_trim_pos seq2 args.phredoffset (main_trim_args args)
          if -1 = r2.1 then main_step.next st
          else
            if args.no_order_check = 0 ∧ st.read_order_warning_issued = 0 ∧
                1 = st.n_reads_in % rates.PAIRED_ORDER_SAMPLERATE then
              let rc := reads_are_paired seq1 seq2
              if 1 ≠ rc then
                if 0 = rc then main_step.free_and_exit st
                else if -1 = rc then
                  main_emit gzprintf seq1 r1.2 (some (seq2, r2.2))
                    { st with read_order_warning_issued := 1 }
                else main_emit gzprintf seq1 r1.2 (some (seq2, r2.2)) st
              else main_emit gzprintf seq1 r1.2 (some (seq2, r2.2)) st
            else main_emit gzprintf seq1 r1.2 (some (seq2, r2.2)) st
      | none => main_emit gzprintf seq1 r1.2 none st

/-- The loop of `main` and the check of the second file after it.  The first
list holds the records `kseq_read(seq1)` still delivers; the second one those of
`kseq_read(seq2)`, `none` in single end mode.  The value is `rc` and the
variables at `free_and_exit`. -/
def main_loop (rates : samplerates) (gzprintf : gzFile → List Int → Int) (args : args_t) :
    List kseq_t → Option (List kseq_t) → main_state → Int × main_state
  | [], some (_ :: _), st => (EXIT_FAILURE, st)
  | [], _, st => (EXIT_SUCCESS, st)
  | seq1 :: infq1, none, st =>
    match main_body rates gzprintf args seq1 none
        { st with n_reads_in := st.n_reads_in + 1 } with
    | main_step.next st1 => main_loop rates gzprintf args infq1 none st1
    | main_step.free_and_exit st1 => (EXIT_FAILURE, st1)
  | _ :: _, some [], st => (EXIT_FAILURE, { st with n_reads_in := st.n_reads_in + 1 })
  | seq1 :: infq1, some (seq2 :: infq2), st =>
    match main_body rates gzprintf args seq1 (some seq2)
        { st with n_reads_in := st.n_reads_in + 1 } with
    | main_step.next st1 => main_loop rates gzprintf args infq1 (some infq2) st1
    | main_step.free_and_exit st1 => (EXIT_FAILURE, st1)

/-- Source: `main` after `parse_args` and the opening of the files: the
counters start at 0, no order warning is issued and the output files are
empty.  `infq2 = none` is single end mode. -/
def main (rates : samplerates) (gzprintf : gzFile → List Int → Int) (args : args_t)
    (infq1 : List kseq_t) (infq2 : Option (List kseq_t)) : Int × main_state :=
  main_loop rates gzprintf args infq1 infq2 ⟨0, 0, 0, ⟨1, []⟩, ⟨2, []⟩⟩

/-- A `gzprintf` that never fails: it returns the number of chars of the
text. -/
def gzprintf_ok (_fp : gzFile) (buf : List Int) : Int := (buf.length : Int)

/-- A well formed `kstring_t`: the buffer holds `l` chars other than NUL and
then the terminating NUL. -/
def kstring_ok (k : kstring_t) : Prop :=
  k.l < k.s.length ∧ k.s.getD k.l 0 = 0 ∧ ∀ i : Nat, i < k.l → k.s.getD i 0 ≠ 0

instance (k : kstring_t) : Decidable (kstring_ok k) := by
  unfold kstring_ok; infer_instance

/-- The slice `[pos5p, pos3p]` (inclusive, zero based) of the text of a
`kstring_t`. -/
def kstring_slice (k : kstring_t) (trim_pos : trim_pos_t) : List Int :=
  ((k.s.take k.l).take (trim_pos.pos3p + 1).toNat).drop trim_pos.pos5p.toNat

/-- The header line `@name` or `@name comment` of a record, without its
newline. -/
def fastq_header (seq : kseq_t) : List Int :=
  if seq.comment.l ≠ 0 then [64] ++ cstr seq.name.s 0 ++ [32] ++ cstr seq.comment.s 0
  else [64] ++ cstr seq.name.s 0

/-- The variables of `main` a step of its loop leaves behind. -/
def main_step.state : main_step → main_state
  | main_step.next st => st
  | main_step.free_and_exit st => st

/-- The text `t` is what `main` hands to `gzprintf` for the record `seq`:
`calc_trim_pos` keeps the read and `t` is what `sprintf_fastq` writes for the
positions it returns. -/
def main_emits (args : args_t) (seq : kseq_t) (t : List Int) : Prop :=
  (calc_trim_pos seq args.phredoffset (main_trim_args args)).1 ≠ -1 ∧
  t = (sprintf_fastq seq
        (some (calc_trim_pos seq args.phredoffset (main_trim_args args)).2)).buf

/-- The text `t` is a FASTQ record made of the header line of `seq`, the slice
`[pos5p, pos3p]` of its sequence, the `+` line and the slice `[pos5p, pos3p]`
of its quality, and the two slices have `pos3p - pos5p + 1` chars each. -/
def trimmed_fastq (seq : kseq_t) (trim_pos : trim_pos_t) (t : List Int) : Prop :=
  t = fastq_header seq ++ [10] ++ kstring_slice seq.seq trim_pos ++ [10, 43, 10]
        ++ kstring_slice seq.qual trim_pos ++ [10] ∧
  ((kstring_slice seq.seq trim_pos).length : Int) = trim_pos.pos3p - trim_pos.pos5p + 1 ∧
  ((kstring_slice seq.qual trim_pos).length : Int) = trim_pos.pos3p - trim_pos.pos5p + 1

instance (seq : kseq_t) (trim_pos : trim_pos_t) (t : List Int) :
    Decidable (trimmed_fastq seq trim_pos t) := by
  unfold trimmed_fastq; infer_instance

/-- A record whose sequence and quality are well formed strings of the same
length, `len(sequence) = len(quality)`. -/
def kseq_ok (seq : kseq_t) : Prop :=
  seq.seq.l = seq.qual.l ∧ kstring_ok seq.seq ∧ kstring_ok seq.qual

instance (seq : kseq_t) : Decidable (kseq_ok seq) := by
  unfold kseq_ok; infer_instance

/-- The text of a `kstring_t`: its first `l` chars. -/
def kstring_text (k : kstring_t) : List Int := k.s.take k.l

/-- The pair order check in the words of the specification: Indeterminate
(-1) if the two names differ in length; otherwise, if both records have a
non-empty comment, Paired (1) when the names are equal and NotPaired (0) when
they are not; otherwise Indeterminate if the name length is `< 3`, else Paired
when the names agree on all but their last two characters and NotPaired when
they do not. -/
def reads_are_paired_spec (A B : kseq_t) : Int :=
  if A.name.l ≠ B.name.l then -1
  else if A.comment.l ≠ 0 ∧ B.comment.l ≠ 0 then
    if kstring_text A.name = kstring_text B.name then 1 else 0
  else if A.name.l < 3 then -1
  else if (kstring_text A.name).take (A.name.l - 2)
      = (kstring_text B.name).take (B.name.l - 2) then 1
  else 0

/-- A record with the given name and comment and the read `ACGT` with
qualities `5678`. -/
def named_read (name comment : List Int) : kseq_t where
  name := kstring_of name
  comment := if comment = [] then ⟨0, []⟩ else kstring_of comment
  seq := kstring_of [65, 67, 71, 84]
  qual := kstring_of [53, 54, 55, 56]

/-- The four line FASTQ text in the words of the specification: `@` and the
name, a blank and the comment if the comment is non-empty, newline, the
sequence, the `+` line and the quality, each with its newline. -/
def fastq_text (name comment sequence quality : List Int) : List Int :=
  [64] ++ name ++ (if comment ≠ [] then [32] ++ comment else []) ++ [10]
    ++ sequence ++ [10, 43, 10] ++ quality ++ [10]

/-- A record with a comment, the two mates of the source's example
`@HWI-ST740:1:C0JMGACXX:1:1101:1452:2203 1:N:0:ATCACG` shortened to the name
`HWI` and the comment `1:N`. -/
def test_read_comment : kseq_t where
  name := kstring_of [72, 87, 73]
  comment := kstring_of [49, 58, 78]
  seq := kstring_of [65, 67, 71, 84]
  qual := kstring_of [53, 54, 55, 56]

/-- The read `seq` is one for which `calc_trim_pos` returns an interval
(return value 0) under the arguments of the run. -/
def main_keeps (args : args_t) (seq : kseq_t) : Bool :=
  decide ((calc_trim_pos seq args.phredoffset (main_trim_args args)).1 = 0)

/-- The text of `sprintf_fastq(record, interval)` for the interval that
`calc_trim_pos` returns for the record under the arguments of the run. -/
def main_text (args : args_t) (seq : kseq_t) : List Int :=
  (sprintf_fastq seq
    (some (calc_trim_pos seq args.phredoffset (main_trim_args args)).2)).buf

/-- A sink that never fails: `gzprintf` returns a positive count for every
text that is not empty. -/
def gzprintf_never_fails (gzprintf : gzFile → List Int → Int) : Prop :=
  ∀ (fp : gzFile) (buf : List Int), buf ≠ [] → 0 < gzprintf fp buf

/-- The variables of `main` after the text `t` is written to output 1. -/
def main_state.write1 (st : main_state) (t : List Int) : main_state :=
  { st with fp_outfq1 := { st.fp_outfq1 with written := st.fp_outfq1.written ++ [t] } }

/-- The variables of `main` after the text `t` is written to output 2. -/
def main_state.write2 (st : main_state) (t : List Int) : main_state :=
  { st with fp_outfq2 := { st.fp_outfq2 with written := st.fp_outfq2.written ++ [t] } }

/-- The variables of `main` after `n_reads_out+=1`. -/
def main_state.count_out (st : main_state) : main_state :=
  { st with n_reads_out := st.n_reads_out + 1 }

/-- The variables of `main` after `n_reads_in+=1`. -/
def main_state.count_in (st : main_state) : main_state :=
  { st with n_reads_in := st.n_reads_in + 1 }

/-- The quality check of `main` aborts the run at this record: the check is
enabled, the record is at a sampled position and `qual_range_is_valid` rejects
it. -/
def main_qual_abort (rates : samplerates) (args : args_t) (seq1 : kseq_t) (n_reads_in : Nat) :
    Prop :=
  (args.no_qual_check = 0 ∧ 1 = n_reads_in % rates.QUAL_CHECK_SAMPLERATE) ∧
    qual_range_is_valid seq1 args.phredoffset = 0

instance (rates : samplerates) (args : args_t) (seq1 : kseq_t) (n_reads_in : Nat) :
    Decidable (main_qual_abort rates args seq1 n_reads_in) := by
  unfold main_qual_abort; infer_instance

/-- The input pairs of a paired run, in input order, for which `calc_trim_pos`
returns an interval for both mates. -/
def main_kept_pairs (args : args_t) (infq1 infq2 : List kseq_t) : List (kseq_t × kseq_t) :=
  (List.zip infq1 infq2).filter (fun p => main_keeps args p.1 && main_keeps args p.2)

/-- The arguments of a run with the order check switched off
(`--no-order-check`), all else the same. -/
def args_t.without_order_check (args : args_t) : args_t :=
  { args with no_order_check := 1 }

/-- The variables of `main` after `read_order_warning_issued = 1`. -/
def main_state.warn (st : main_state) : main_state :=
  { st with read_order_warning_issued := 1 }

/-- Two mates whose names `abc/1` and `xyz/2` do not belong together. -/
def mismatched_mate_1 : kseq_t := named_read [97, 98, 99, 47, 49] []

/-- The second mate of `mismatched_mate_1`, with name `xyz/2`. -/
def mismatched_mate_2 : kseq_t := named_read [120, 121, 122, 47, 50] []

/-- Two mates with names of different length, `abc/1` and `abcd/2`, from which
no read order can be derived. -/
def unclear_mate_1 : kseq_t := named_read [97, 98, 99, 47, 49] []

/-- The second mate of `unclear_mate_1`, with name `abcd/2`. -/
def unclear_mate_2 : kseq_t := named_read [97, 98, 99, 100, 47, 50] []

/-- A read with the qualities `hhhh` of a Phred+64 file (quality 40 each). -/
def test_read_phred64 : kseq_t where
  name := kstring_of [114]
  comment := ⟨0, []⟩
  seq := kstring_of [65, 67, 71, 84]
  qual := kstring_of [104, 104, 104, 104]

/-- The part of `calc_trim_pos` before its final test
`trim_pos->pos3p - trim_pos->pos5p + 1 < minreadlen`: the positions the 3p
step and the 5p step have produced, `none` when the function has returned -1
before it gets there. -/
def calc_trim_pos_scans (seq : kseq_t) (phredoffset : Int) (trim_args : trim_args_t) :
    Option trim_pos_t :=
  let minreadlen : Int := if trim_args.minreadlen ≥ 1 then trim_args.minreadlen else 1
  if minreadlen > (seq.qual.l : Int) then none
  else
    let pos3p : Int :=
      if trim_args.min3pqual > 0 then
        calc_trim_pos_loop3p seq phredoffset trim_args.min3pqual minreadlen seq.qual.l
      else (seq.qual.l : Int) - 1
    if trim_args.min3pqual > 0 ∧ pos3p = -1 then none
    else
      let pos5p : Int :=
        if trim_args.min5pqual > 0 then
          calc_trim_pos_loop5p seq phredoffset trim_args.min5pqual minreadlen pos3p
            (seq.qual.l + 1) 0
        else 0
      if trim_args.min5pqual > 0 ∧ pos5p = -1 then none
      else some ⟨pos5p, pos3p⟩

/-- The smallest index below `n` at which `p` holds, by plain search over all
indices (specification side, used for the naive definition of the trim
positions). -/
def first_index (p : Nat → Bool) : Nat → Option Nat
  | 0 => none
  | n + 1 =>
    match first_index p n with
    | some a => some a
    | none => if p n then some n else none

/-- The largest index below `n` at which `p` holds, by plain search over all
indices (specification side). -/
def last_index (p : Nat → Bool) : Nat → Option Nat
  | 0 => none
  | n + 1 => if p n then some n else last_index p n

/-- In the words of the specification: `L`, the smallest index whose decoded
quality is `>= min5pQual`, and `0` when `min5pQual = 0`. -/
def naive_pos5p (seq : kseq_t) (phredoffset : Int) (trim_args : trim_args_t) : Option Int :=
  if trim_args.min5pqual = 0 then some 0
  else
    (first_index (fun i => decide (decoded_qual seq phredoffset i ≥ trim_args.min5pqual))
      seq.qual.l).map Int.ofNat

/-- In the words of the specification: `R`, the largest index whose decoded
quality is `>= min3pQual`, and `len - 1` when `min3pQual = 0`. -/
def naive_pos3p (seq : kseq_t) (phredoffset : Int) (trim_args : trim_args_t) : Option Int :=
  if trim_args.min3pqual = 0 then some ((seq.qual.l : Int) - 1)
  else
    (last_index (fun i => decide (decoded_qual seq phredoffset i ≥ trim_args.min3pqual))
      seq.qual.l).map Int.ofNat

/-- In the words of the specification: the naive unbounded definition of the
trim positions.  The interval `[L, R]` if `L` and `R` both exist and
`R - L + 1 >= max(minReadLen, 1)`, and discard (`none`) otherwise. -/
def calc_trim_pos_naive (seq : kseq_t) (phredoffset : Int) (trim_args : trim_args_t) :
    Option trim_pos_t :=
  match naive_pos5p seq phredoffset trim_args, naive_pos3p seq phredoffset trim_args with
  | some L, some R => if R - L + 1 ≥ max trim_args.minreadlen 1 then some ⟨L, R⟩ else none
  | _, _ => none

/-- A record named `r` whose quality bytes are below both offsets (blanks,
byte 32): `qual_range_is_valid` rejects it for the offsets 33 and 64. -/
def test_read_bad_qual : kseq_t where
  name := kstring_of [114]
  comment := ⟨0, []⟩
  seq := kstring_of [65, 67, 71, 84]
  qual := kstring_of [32, 32, 32, 32]

/-- An admissible interval `[a,b]`, in the words of the specification: inside
the quality string, at least `max(minReadLen,1)` long, and each end either
unconstrained (threshold `0`) or reaching its threshold. -/
def admissible (seq : kseq_t) (phredoffset : Int) (trim_args : trim_args_t) (a b : Int) :
    Prop :=
  0 ≤ a ∧ a ≤ b ∧ b < (seq.qual.l : Int) ∧ b - a + 1 ≥ max trim_args.minreadlen 1 ∧
  (trim_args.min5pqual = 0 ∨ decoded_qual seq phredoffset a.toNat ≥ trim_args.min5pqual) ∧
  (trim_args.min3pqual = 0 ∨ decoded_qual seq phredoffset b.toNat ≥ trim_args.min3pqual)

instance (seq : kseq_t) (phredoffset : Int) (trim_args : trim_args_t) (a b : Int) :
    Decidable (admissible seq phredoffset trim_args a b) := by
  unfold admissible; infer_instance

/-! ## Records of the self test `test()` -/

/-- The name `test()` gives its record,
`@HWI-ST740:1:C0JMGACXX:1:1101:2161:2062 2:N:0:ATCACG`. -/
def test_name : List Int :=
  [64, 72, 87, 73, 45, 83, 84, 55, 52, 48, 58, 49, 58, 67, 48, 74, 77, 71, 65, 67, 88, 88, 58,
   49, 58, 49, 49, 48, 49, 58, 50, 49, 54, 49, 58, 50, 48, 54, 50, 32, 50, 58, 78, 58, 48, 58,
   65, 84, 67, 65, 67, 71]

/-- The 52 base read of `test()`. -/
def test_read_52 : kseq_t where
  name := kstring_of test_name
  comment := ⟨0, []⟩
  seq := kstring_of
    [65, 65, 65, 67, 67, 67, 71, 71, 71, 84, 84, 84, 65, 67, 71, 84, 65, 65, 65, 67, 67, 67,
     71, 71, 71, 84, 84, 84, 65, 67, 71, 84, 65, 65, 65, 67, 67, 67, 71, 71, 71, 84, 84, 84,
     65, 67, 71, 84, 65, 65, 65, 67]
  qual := kstring_of
    [63, 64, 65, 65, 65, 66, 66, 66, 67, 67, 67, 68, 68, 68, 69, 69, 69, 70, 70, 70, 71, 71,
     71, 72, 63, 63, 63, 63, 72, 71, 71, 71, 70, 70, 70, 69, 69, 69, 68, 68, 68, 67, 67, 67,
     66, 66, 66, 65, 65, 65, 64, 63]

/-- The read `ACGT` with qualities `5678` of `test()`. -/
def test_read_acgt : kseq_t where
  name := kstring_of test_name
  comment := ⟨0, []⟩
  seq := kstring_of [65, 67, 71, 84]
  qual := kstring_of [53, 54, 55, 56]

/-- A record without quality string, as `kseq_read` gives for a FASTA entry. -/
def read_no_qual : kseq_t where
  name := kstring_of [114]
  comment := ⟨0, []⟩
  seq := kstring_of [65]
  qual := ⟨0, [0]⟩

/-! ## Lemmas on the loops of calc_trim_pos -/

theorem calc_trim_pos_loop3p_spec (seq : kseq_t) (off min3 m : Int) (n : Nat) :
    (calc_trim_pos_loop3p seq off min3 m n = -1 ∧
        ∀ j : Nat, m - 1 ≤ (j : Int) → j < n → decoded_qual seq off j < min3) ∨
    (∃ k : Nat, calc_trim_pos_loop3p seq off min3 m n = (k : Int) ∧ m - 1 ≤ (k : Int) ∧
        k < n ∧ min3 ≤ decoded_qual seq off k ∧
        ∀ j : Nat, k < j → j < n → decoded_qual seq off j < min3) := by
  induction n with
  | zero => left; exact ⟨rfl, fun j _ hj => absurd hj (Nat.not_lt_zero j)⟩
  | succ i ih =>
    unfold calc_trim_pos_loop3p
    by_cases hlo : (i : Int) ≥ m - 1
    · by_cases hq : seq.qual.s.getD i 0 - off ≥ min3
      · right
        refine ⟨i, ?_, hlo, Nat.lt_succ_self i, hq, ?_⟩
        · simp only [hlo, hq, if_true]
        · intro j h1 h2; omega
      · simp only [hlo, hq, if_true, if_false]
        have hq2 : decoded_qual seq off i < min3 := by
          unfold decoded_qual; omega
        rcases ih with ⟨h1, h2⟩ | ⟨k, h1, h2, h3, h4, h5⟩
        · left
          refine ⟨h1, fun j hj1 hj2 => ?_⟩
          rcases Nat.lt_succ_iff_lt_or_eq.mp hj2 with hlt | heq
          · exact h2 j hj1 hlt
          · rw [heq]; exact hq2
        · right
          refine ⟨k, h1, h2, Nat.lt_succ_of_lt h3, h4, fun j hj1 hj2 => ?_⟩
          rcases Nat.lt_succ_iff_lt_or_eq.mp hj2 with hlt | heq
          · exact h5 j hj1 hlt
          · rw [heq]; exact hq2
    · left
      refine ⟨by simp only [hlo, if_false], fun j hj1 hj2 => ?_⟩
      omega

theorem calc_trim_pos_loop5p_spec (seq : kseq_t) (off min5 m pos3p : Int) (hm : 1 ≤ m)
    (fuel : Nat) : ∀ i : Nat, seq.qual.l + 1 ≤ fuel + i →
    (calc_trim_pos_loop5p seq off min5 m pos3p fuel i = -1 ∧
        ∀ j : Nat, i ≤ j → (j : Int) < (seq.qual.l : Int) - m + 1 → (j : Int) ≤ pos3p →
          decoded_qual seq off j < min5) ∨
    (∃ k : Nat, calc_trim_pos_loop5p seq off min5 m pos3p fuel i = (k : Int) ∧ i ≤ k ∧
        (k : Int) < (seq.qual.l : Int) - m + 1 ∧ (k : Int) ≤ pos3p ∧
        min5 ≤ decoded_qual seq off k ∧
        ∀ j : Nat, i ≤ j → j < k → decoded_qual seq off j < min5) := by
  induction fuel with
  | zero =>
    intro i hi
    left
    refine ⟨rfl, fun j hj1 hj2 _ => ?_⟩
    omega
  | succ f ih =>
    intro i hi
    unfold calc_trim_pos_loop5p
    by_cases hc : (i : Int) < (seq.qual.l : Int) - m + 1 ∧ (i : Int) ≤ pos3p
    · by_cases hq : seq.qual.s.getD i 0 - off ≥ min5
      · right
        refine ⟨i, by simp only [hc, hq, and_self, if_true], le_refl i, hc.1, hc.2, hq, ?_⟩
        intro j h1 h2; omega
      · simp only [hc, hq, and_self, if_true, if_false]
        have hq2 : decoded_qual seq off i < min5 := by
          unfold decoded_qual; omega
        rcases ih (i + 1) (by omega) with ⟨h1, h2⟩ | ⟨k, h1, h2, h3, h4, h5, h6⟩
        · left
          refine ⟨h1, fun j hj1 hj2 hj3 => ?_⟩
          rcases Nat.eq_or_lt_of_le hj1 with heq | hlt
          · rw [← heq]; exact hq2
          · exact h2 j hlt hj2 hj3
        · right
          refine ⟨k, h1, by omega, h3, h4, h5, fun j hj1 hj2 => ?_⟩
          rcases Nat.eq_or_lt_of_le hj1 with heq | hlt
          · rw [← heq]; exact hq2
          · exact h6 j hlt hj2
    · left
      refine ⟨by simp only [hc, if_false], fun j hj1 hj2 hj3 => ?_⟩
      rcases not_and_or.mp hc with h | h
      · omega
      · omega

/-- The fuel `calc_trim_pos` passes to its 5p loop is never used up: more fuel
gives the same value. -/
theorem calc_trim_pos_loop5p_fuel (seq : kseq_t) (off min5 m pos3p : Int) (hm : 1 ≤ m)
    (fuel : Nat) : ∀ (i extra : Nat), seq.qual.l + 1 ≤ fuel + i →
    calc_trim_pos_loop5p seq off min5 m pos3p (fuel + extra) i =
      calc_trim_pos_loop5p seq off min5 m pos3p fuel i := by
  induction fuel with
  | zero =>
    intro i extra hi
    cases extra with
    | zero => rfl
    | succ e =>
      have hc : ¬ ((i : Int) < (seq.qual.l : Int) - m + 1 ∧ (i : Int) ≤ pos3p) := by
        intro h; omega
      show calc_trim_pos_loop5p seq off min5 m pos3p (0 + e + 1) i = _
      unfold calc_trim_pos_loop5p
      simp only [hc, if_false]
  | succ f ih =>
    intro i extra hi
    have h1 : f + 1 + extra = (f + extra) + 1 := by omega
    rw [h1]
    unfold calc_trim_pos_loop5p
    rw [ih (i + 1) extra (by omega)]

/-! ## What calc_trim_pos computes -/

theorem calc_trim_pos_clamp (x : Int) : (if x ≥ 1 then x else 1) = max x 1 := by
  by_cases h : x ≥ 1
  · rw [if_pos h, max_eq_left h]
  · rw [if_neg h, max_eq_right (by omega)]

theorem calc_trim_pos_rc (seq : kseq_t) (off : Int) (args : trim_args_t) :
    (calc_trim_pos seq off args).1 = 0 ∨ (calc_trim_pos seq off args).1 = -1 := by
  unfold calc_trim_pos
  simp only []
  split_ifs <;> simp

/-- A kept read: the positions are indices `a <= b` of the quality string, at
least `max minreadlen 1` apart, and each is the outermost index that reaches
its threshold (the end itself for a threshold that is not positive). -/
theorem calc_trim_pos_keep (seq : kseq_t) (off : Int) (args : trim_args_t)
    (h : (calc_trim_pos seq off args).1 = 0) :
    ∃ a b : Nat, (calc_trim_pos seq off args).2 = ⟨(a : Int), (b : Int)⟩ ∧
      a ≤ b ∧ b < seq.qual.l ∧ max args.minreadlen 1 ≤ (b : Int) - (a : Int) + 1 ∧
      (0 < args.min5pqual → args.min5pqual ≤ decoded_qual seq off a ∧
        ∀ j : Nat, j < a → decoded_qual seq off j < args.min5pqual) ∧
      (args.min5pqual ≤ 0 → a = 0) ∧
      (0 < args.min3pqual → args.min3pqual ≤ decoded_qual seq off b ∧
        ∀ j : Nat, b < j → j < seq.qual.l → decoded_qual seq off j < args.min3pqual) ∧
      (args.min3pqual ≤ 0 → b + 1 = seq.qual.l) := by
  have hm1 : (1 : Int) ≤ max args.minreadlen 1 := le_max_right _ _
  unfold calc_trim_pos at h ⊢
  simp only [calc_trim_pos_clamp] at h ⊢
  generalize max args.minreadlen 1 = m at h hm1 ⊢
  by_cases hlen : m > (seq.qual.l : Int)
  · simp [hlen] at h
  · simp only [hlen, if_false] at h ⊢
    by_cases h3 : args.min3pqual > 0
    · simp only [h3, if_true, true_and] at h ⊢
      rcases calc_trim_pos_loop3p_spec seq off args.min3pqual m seq.qual.l with
        ⟨e3, _⟩ | ⟨b, e3, hb1, hb2, hb3, hb4⟩
      · simp [e3] at h
      · have hb0 : ¬ ((b : Int) = -1) := by omega
        simp only [e3, hb0, if_false] at h ⊢
        by_cases h5 : args.min5pqual > 0
        · simp only [h5, if_true, true_and] at h ⊢
          rcases calc_trim_pos_loop5p_spec seq off args.min5pqual m (b : Int) hm1
              (seq.qual.l + 1) 0 (by omega) with ⟨e5, _⟩ | ⟨a, e5, _, ha2, ha3, ha4, ha5⟩
          · simp [e5] at h
          · have ha0 : ¬ ((a : Int) = -1) := by omega
            simp only [e5, ha0, if_false] at h ⊢
            by_cases hg : (b : Int) - (a : Int) + 1 < m
            · simp [hg] at h
            · simp only [hg, if_false]
              refine ⟨a, b, rfl, by omega, hb2, by omega, fun _ => ⟨ha4, fun j hj => ?_⟩,
                fun hc => by omega, fun _ => ⟨hb3, hb4⟩, fun hc => by omega⟩
              exact ha5 j (Nat.zero_le j) hj
        · have h5f : ¬ (0 < args.min5pqual) := h5
          simp only [h5, if_false, false_and, sub_zero] at h ⊢
          by_cases hg : (b : Int) + 1 < m
          · simp [hg] at h
          · simp only [hg, if_false]
            refine ⟨0, b, rfl, Nat.zero_le b, hb2, by push_cast; omega, fun hc => hc.elim,
              fun _ => rfl, fun _ => ⟨hb3, hb4⟩, fun hc => by omega⟩
    · have h3f : ¬ (0 < args.min3pqual) := h3
      simp only [h3, if_false, false_and] at h ⊢
      have hl : ∃ b : Nat, b + 1 = seq.qual.l := ⟨seq.qual.l - 1, by omega⟩
      obtain ⟨b, hb⟩ := hl
      have hbe : (seq.qual.l : Int) - 1 = (b : Int) := by omega
      rw [hbe] at h ⊢
      by_cases h5 : args.min5pqual > 0
      · simp only [h5, if_true, true_and] at h ⊢
        rcases calc_trim_pos_loop5p_spec seq off args.min5pqual m (b : Int) hm1
            (seq.qual.l + 1) 0 (by omega) with ⟨e5, _⟩ | ⟨a, e5, _, ha2, ha3, ha4, ha5⟩
        · simp [e5] at h
        · have ha0 : ¬ ((a : Int) = -1) := by omega
          simp only [e5, ha0, if_false] at h ⊢
          by_cases hg : (b : Int) - (a : Int) + 1 < m
          · simp [hg] at h
          · simp only [hg, if_false]
            refine ⟨a, b, rfl, by omega, by omega, by omega, fun _ => ⟨ha4, fun j hj => ?_⟩,
              fun hc => by omega, fun hc => hc.elim, fun _ => hb⟩
            exact ha5 j (Nat.zero_le j) hj
      · have h5f : ¬ (0 < args.min5pqual) := h5
        simp only [h5, if_false, false_and, sub_zero] at h ⊢
        by_cases hg : (b : Int) + 1 < m
        · simp [hg] at h
        · simp only [hg, if_false]
          refine ⟨0, b, rfl, Nat.zero_le b, by omega, by push_cast; omega,
            fun hc => hc.elim, fun _ => rfl, fun hc => hc.elim, fun _ => hb⟩

/-- Any interval that is long enough and whose ends reach the positive
thresholds makes `calc_trim_pos` keep the read, and lies inside the positions
it returns. -/
theorem calc_trim_pos_of_interval (seq : kseq_t) (off : Int) (args : trim_args_t)
    (a b : Nat) (hab : a ≤ b) (hb : b < seq.qual.l)
    (hlen : max args.minreadlen 1 ≤ (b : Int) - (a : Int) + 1)
    (h5 : 0 < args.min5pqual → args.min5pqual ≤ decoded_qual seq off a)
    (h3 : 0 < args.min3pqual → args.min3pqual ≤ decoded_qual seq off b) :
    (calc_trim_pos seq off args).1 = 0 ∧
      (calc_trim_pos seq off args).2.pos5p ≤ (a : Int) ∧
      (b : Int) ≤ (calc_trim_pos seq off args).2.pos3p := by
  have hm1 : (1 : Int) ≤ max args.minreadlen 1 := le_max_right _ _
  unfold calc_trim_pos
  simp only [calc_trim_pos_clamp]
  generalize max args.minreadlen 1 = m at hlen hm1 ⊢
  have hlen2 : ¬ (m > (seq.qual.l : Int)) := by omega
  simp only [hlen2, if_false]
  -- the 3p position
  have key3 : ∃ b2 : Nat, (if args.min3pqual > 0 then
        calc_trim_pos_loop3p seq off args.min3pqual m seq.qual.l
      else (seq.qual.l : Int) - 1) = (b2 : Int) ∧ b ≤ b2 ∧ b2 < seq.qual.l := by
    by_cases c3 : args.min3pqual > 0
    · rw [if_pos c3]
      rcases calc_trim_pos_loop3p_spec seq off args.min3pqual m seq.qual.l with
        ⟨_, e⟩ | ⟨k, e, _, hk2, _, hk4⟩
      · have := e b (by omega) hb
        have := h3 c3
        omega
      · refine ⟨k, e, ?_, hk2⟩
        by_contra hlt
        have := hk4 b (by omega) hb
        have := h3 c3
        omega
    · rw [if_neg c3]
      exact ⟨seq.qual.l - 1, by omega, by omega, by omega⟩
  obtain ⟨b2, e3, hb2, hb2l⟩ := key3
  rw [e3]
  have hb2n : ¬ (args.min3pqual > 0 ∧ (b2 : Int) = -1) := by
    intro hc; omega
  simp only [hb2n, if_false]
  -- the 5p position
  have key5 : ∃ a2 : Nat, (if args.min5pqual > 0 then
        calc_trim_pos_loop5p seq off args.min5pqual m (b2 : Int) (seq.qual.l + 1) 0
      else 0) = (a2 : Int) ∧ a2 ≤ a := by
    by_cases c5 : args.min5pqual > 0
    · rw [if_pos c5]
      rcases calc_trim_pos_loop5p_spec seq off args.min5pqual m (b2 : Int) hm1
          (seq.qual.l + 1) 0 (by omega) with ⟨_, e⟩ | ⟨k, e, _, _, _, _, hk5⟩
      · have := e a (Nat.zero_le a) (by omega) (by omega)
        have := h5 c5
        omega
      · refine ⟨k, e, ?_⟩
        by_contra hlt
        have := hk5 a (Nat.zero_le a) (by omega)
        have := h5 c5
        omega
    · rw [if_neg c5]
      exact ⟨0, rfl, Nat.zero_le a⟩
  obtain ⟨a2, e5, ha2⟩ := key5
  rw [e5]
  have ha2n : ¬ (args.min5pqual > 0 ∧ (a2 : Int) = -1) := by
    intro hc; omega
  have hg : ¬ ((b2 : Int) - (a2 : Int) + 1 < m) := by omega
  simp only [ha2n, hg, if_false]
  exact ⟨trivial, by omega, by omega⟩

/-! ## Theorems on calc_trim_pos -/

/-- C1: whenever `calc_trim_pos` returns an interval (return value 0), it
satisfies `0 <= pos5p <= pos3p < len(quality)` and
`pos3p - pos5p + 1 >= max(minReadLen, 1)`. -/
theorem calc_trim_pos_interval_in_range (seq : kseq_t) (off : Int) (args : trim_args_t)
    (h : (calc_trim_pos seq off args).1 = 0) :
    0 ≤ (calc_trim_pos seq off args).2.pos5p ∧
    (calc_trim_pos seq off args).2.pos5p ≤ (calc_trim_pos seq off args).2.pos3p ∧
    (calc_trim_pos seq off args).2.pos3p < (seq.qual.l : Int) ∧
    (calc_trim_pos seq off args).2.pos3p - (calc_trim_pos seq off args).2.pos5p + 1
      ≥ max args.minreadlen 1 := by
  obtain ⟨a, b, e, hab, hb, hlen, _⟩ := calc_trim_pos_keep seq off args h
  rw [e]
  exact ⟨by simp, by simp [hab], by simp [hb], hlen⟩

theorem calc_trim_pos_interval_in_range_witness :
    (calc_trim_pos test_read_acgt 33 ⟨23, 23, -1⟩).1 = 0 ∧
    (0 ≤ (calc_trim_pos test_read_acgt 33 ⟨23, 23, -1⟩).2.pos5p ∧
     (calc_trim_pos test_read_acgt 33 ⟨23, 23, -1⟩).2.pos5p
       ≤ (calc_trim_pos test_read_acgt 33 ⟨23, 23, -1⟩).2.pos3p ∧
     (calc_trim_pos test_read_acgt 33 ⟨23, 23, -1⟩).2.pos3p
       < (test_read_acgt.qual.l : Int) ∧
     (calc_trim_pos test_read_acgt 33 ⟨23, 23, -1⟩).2.pos3p
       - (calc_trim_pos test_read_acgt 33 ⟨23, 23, -1⟩).2.pos5p + 1 ≥ max (-1 : Int) 1) :=
  ⟨by decide, calc_trim_pos_interval_in_range test_read_acgt 33 ⟨23, 23, -1⟩ (by decide)⟩

/-- C2: for thresholds `>= 0` (the trim policy's type), `calc_trim_pos`
discards if and only if no admissible interval exists, and otherwise the
returned interval is admissible and contains every admissible interval. -/
theorem calc_trim_pos_widest_admissible (seq : kseq_t) (off : Int) (args : trim_args_t)
    (h5 : 0 ≤ args.min5pqual) (h3 : 0 ≤ args.min3pqual) :
    ((calc_trim_pos seq off args).1 = -1 ↔ ¬ ∃ a b : Int, admissible seq off args a b) ∧
    ((calc_trim_pos seq off args).1 ≠ -1 →
      admissible seq off args (calc_trim_pos seq off args).2.pos5p
        (calc_trim_pos seq off args).2.pos3p ∧
      ∀ a b : Int, admissible seq off args a b →
        (calc_trim_pos seq off args).2.pos5p ≤ a ∧ b ≤ (calc_trim_pos seq off args).2.pos3p) := by
  -- an admissible interval, read with natural number ends
  have adm : ∀ a b : Int, admissible seq off args a b →
      (calc_trim_pos seq off args).1 = 0 ∧ (calc_trim_pos seq off args).2.pos5p ≤ a ∧
        b ≤ (calc_trim_pos seq off args).2.pos3p := by
    intro a b ⟨ha, hab, hb, hlen, hq5, hq3⟩
    have hb0 : 0 ≤ b := le_trans ha hab
    obtain ⟨an, rfl⟩ := Int.eq_ofNat_of_zero_le ha
    obtain ⟨bn, rfl⟩ := Int.eq_ofNat_of_zero_le hb0
    simp only [Int.toNat_ofNat] at hq5 hq3
    refine calc_trim_pos_of_interval seq off args an bn (by omega) (by omega) hlen ?_ ?_
    · intro hpos
      rcases hq5 with h0 | hq
      · omega
      · exact hq
    · intro hpos
      rcases hq3 with h0 | hq
      · omega
      · exact hq
  -- a kept read has an admissible interval
  have keep : (calc_trim_pos seq off args).1 = 0 →
      admissible seq off args (calc_trim_pos seq off args).2.pos5p
        (calc_trim_pos seq off args).2.pos3p := by
    intro h
    obtain ⟨a, b, e, hab, hb, hlen, k5, z5, k3, z3⟩ := calc_trim_pos_keep seq off args h
    rw [e]
    refine ⟨by simp, by simp [hab], by simp [hb], hlen, ?_, ?_⟩
    · rcases (lt_or_eq_of_le h5) with hpos | hz
      · right; simpa using (k5 hpos).1
      · left; exact hz.symm
    · rcases (lt_or_eq_of_le h3) with hpos | hz
      · right; simpa using (k3 hpos).1
      · left; exact hz.symm
  refine ⟨⟨fun hd ⟨a, b, hadm⟩ => ?_, fun hno => ?_⟩, fun hne => ?_⟩
  · have := (adm a b hadm).1
    omega
  · rcases calc_trim_pos_rc seq off args with h0 | h1
    · exact absurd ⟨_, _, keep h0⟩ hno
    · exact h1
  · rcases calc_trim_pos_rc seq off args with h0 | h1
    · exact ⟨keep h0, fun a b hadm => (adm a b hadm).2⟩
    · exact absurd h1 hne

theorem calc_trim_pos_widest_admissible_witness :
    (0 : Int) ≤ 39 ∧
    calc_trim_pos test_read_52 33 ⟨39, 39, 6⟩ = (0, ⟨23, 28⟩) ∧
    admissible test_read_52 33 ⟨39, 39, 6⟩ 23 28 ∧
    (((calc_trim_pos test_read_52 33 ⟨39, 39, 6⟩).1 = -1 ↔
        ¬ ∃ a b : Int, admissible test_read_52 33 ⟨39, 39, 6⟩ a b) ∧
     ((calc_trim_pos test_read_52 33 ⟨39, 39, 6⟩).1 ≠ -1 →
        admissible test_read_52 33 ⟨39, 39, 6⟩
          (calc_trim_pos test_read_52 33 ⟨39, 39, 6⟩).2.pos5p
          (calc_trim_pos test_read_52 33 ⟨39, 39, 6⟩).2.pos3p ∧
        ∀ a b : Int, admissible test_read_52 33 ⟨39, 39, 6⟩ a b →
          (calc_trim_pos test_read_52 33 ⟨39, 39, 6⟩).2.pos5p ≤ a ∧
            b ≤ (calc_trim_pos test_read_52 33 ⟨39, 39, 6⟩).2.pos3p)) :=
  ⟨by decide, by decide, by decide,
   calc_trim_pos_widest_admissible test_read_52 33 ⟨39, 39, 6⟩ (by decide) (by decide)⟩

/-- C3: only bases below the threshold are trimmed.  Whenever `calc_trim_pos`
returns an interval: if `min5pQual > 0` the base at `pos5p` reaches `min5pQual`
and every index before `pos5p` is below it; if `min3pQual > 0` the base at
`pos3p` reaches `min3pQual` and every index after `pos3p` is below it. -/
theorem calc_trim_pos_trims_only_below (seq : kseq_t) (off : Int) (args : trim_args_t)
    (h : (calc_trim_pos seq off args).1 = 0) :
    (args.min5pqual > 0 →
      decoded_qual seq off (calc_trim_pos seq off args).2.pos5p.toNat ≥ args.min5pqual ∧
      ∀ i : Nat, (i : Int) < (calc_trim_pos seq off args).2.pos5p →
        decoded_qual seq off i < args.min5pqual) ∧
    (args.min3pqual > 0 →
      decoded_qual seq off (calc_trim_pos seq off args).2.pos3p.toNat ≥ args.min3pqual ∧
      ∀ i : Nat, (calc_trim_pos seq off args).2.pos3p < (i : Int) → i < seq.qual.l →
        decoded_qual seq off i < args.min3pqual) := by
  obtain ⟨a, b, e, _, _, _, k5, _, k3, _⟩ := calc_trim_pos_keep seq off args h
  rw [e]
  simp only [Int.toNat_ofNat]
  refine ⟨fun hpos => ⟨(k5 hpos).1, fun i hi => (k5 hpos).2 i (by omega)⟩,
    fun hpos => ⟨(k3 hpos).1, fun i hi hil => (k3 hpos).2 i (by omega) hil⟩⟩

theorem calc_trim_pos_trims_only_below_witness :
    (calc_trim_pos test_read_acgt 33 ⟨23, 23, 1⟩).1 = 0 ∧
    (calc_trim_pos test_read_acgt 33 ⟨23, 23, 1⟩).2 = ⟨3, 3⟩ ∧
    (((23 : Int) > 0 →
      decoded_qual test_read_acgt 33
        (calc_trim_pos test_read_acgt 33 ⟨23, 23, 1⟩).2.pos5p.toNat ≥ 23 ∧
      ∀ i : Nat, (i : Int) < (calc_trim_pos test_read_acgt 33 ⟨23, 23, 1⟩).2.pos5p →
        decoded_qual test_read_acgt 33 i < 23) ∧
     ((23 : Int) > 0 →
      decoded_qual test_read_acgt 33
        (calc_trim_pos test_read_acgt 33 ⟨23, 23, 1⟩).2.pos3p.toNat ≥ 23 ∧
      ∀ i : Nat, (calc_trim_pos test_read_acgt 33 ⟨23, 23, 1⟩).2.pos3p < (i : Int) →
        i < test_read_acgt.qual.l → decoded_qual test_read_acgt 33 i < 23)) :=
  ⟨by decide, by decide,
   calc_trim_pos_trims_only_below test_read_acgt 33 ⟨23, 23, 1⟩ (by decide)⟩

/-- C4: with `minReadLen > len(quality)` the read is discarded, whatever the
thresholds and the offset are. -/
theorem calc_trim_pos_discards_short (seq : kseq_t) (off : Int) (args : trim_args_t)
    (h : args.minreadlen > (seq.qual.l : Int)) :
    (calc_trim_pos seq off args).1 = -1 := by
  unfold calc_trim_pos
  have h1 : args.minreadlen ≥ 1 := by omega
  simp only [h1, if_true, h]

theorem calc_trim_pos_discards_short_witness :
    (100 : Int) > (test_read_52.qual.l : Int) ∧
    (calc_trim_pos test_read_52 33 ⟨0, 0, 100⟩).1 = -1 :=
  ⟨by decide, calc_trim_pos_discards_short test_read_52 33 ⟨0, 0, 100⟩ (by decide)⟩

/-- C5 as stated fails: a record without quality bytes and `minReadLen = 0`
satisfy `minReadLen <= len(quality)` with both thresholds 0, and the read is
discarded. -/
theorem calc_trim_pos_no_trim_counterexample :
    (0 : Int) ≤ (read_no_qual.qual.l : Int) ∧
    (calc_trim_pos read_no_qual 33 ⟨0, 0, 0⟩).1 = -1 := by
  decide

/-- C5 (amended): when `max(minReadLen, 1) <= len(quality)` and both
thresholds are 0, `calc_trim_pos` keeps the read and returns the full record,
`pos5p = 0` and `pos3p = len(quality) - 1`. -/
theorem calc_trim_pos_no_trim_full (seq : kseq_t) (off : Int) (args : trim_args_t)
    (hlen : max args.minreadlen 1 ≤ (seq.qual.l : Int))
    (h5 : args.min5pqual = 0) (h3 : args.min3pqual = 0) :
    calc_trim_pos seq off args = (0, ⟨0, (seq.qual.l : Int) - 1⟩) := by
  unfold calc_trim_pos
  simp only [calc_trim_pos_clamp]
  have hl : ¬ (max args.minreadlen 1 > (seq.qual.l : Int)) := by omega
  have hg : ¬ ((seq.qual.l : Int) - 1 - 0 + 1 < max args.minreadlen 1) := by omega
  simp only [hl, h5, h3, hg, if_false, lt_irrefl, gt_iff_lt, false_and]

theorem calc_trim_pos_no_trim_full_witness :
    max (1 : Int) 1 ≤ (test_read_52.qual.l : Int) ∧
    calc_trim_pos test_read_52 33 ⟨0, 0, 1⟩ = (0, ⟨0, (test_read_52.qual.l : Int) - 1⟩) :=
  ⟨by decide, calc_trim_pos_no_trim_full test_read_52 33 ⟨0, 0, 1⟩ (by decide) rfl rfl⟩

/-- C6: a threshold of 0 leaves that end untrimmed, independently of the other
end and of the quality bytes: whenever `calc_trim_pos` returns an interval,
`min5pQual = 0` gives `pos5p = 0` and `min3pQual = 0` gives
`pos3p = len(quality) - 1`. -/
theorem calc_trim_pos_zero_threshold (seq : kseq_t) (off : Int) (args : trim_args_t)
    (h : (calc_trim_pos seq off args).1 = 0) :
    (args.min5pqual = 0 → (calc_trim_pos seq off args).2.pos5p = 0) ∧
    (args.min3pqual = 0 → (calc_trim_pos seq off args).2.pos3p = (seq.qual.l : Int) - 1) := by
  obtain ⟨a, b, e, _, _, _, _, z5, _, z3⟩ := calc_trim_pos_keep seq off args h
  rw [e]
  refine ⟨fun h0 => ?_, fun h0 => ?_⟩
  · have := z5 (le_of_eq h0)
    simp [this]
  · have := z3 (le_of_eq h0)
    simp only
    omega

theorem calc_trim_pos_zero_threshold_witness :
    (calc_trim_pos test_read_acgt 33 ⟨0, 23, 1⟩).1 = 0 ∧
    (calc_trim_pos test_read_acgt 33 ⟨0, 23, 1⟩).2 = ⟨0, 3⟩ ∧
    (((0 : Int) = 0 → (calc_trim_pos test_read_acgt 33 ⟨0, 23, 1⟩).2.pos5p = 0) ∧
     ((23 : Int) = 0 → (calc_trim_pos test_read_acgt 33 ⟨0, 23, 1⟩).2.pos3p
        = (test_read_acgt.qual.l : Int) - 1)) :=
  ⟨by decide, by decide,
   calc_trim_pos_zero_threshold test_read_acgt 33 ⟨0, 23, 1⟩ (by decide)⟩

/-- C7: `minReadLen` is clamped to a floor of 1: with any `minReadLen <= 1`
(zero and negative included) `calc_trim_pos` returns exactly what it returns
with `minReadLen = 1`, the return code and both positions. -/
theorem calc_trim_pos_minreadlen_floor (seq : kseq_t) (off : Int) (args : trim_args_t)
    (h : args.minreadlen ≤ 1) :
    calc_trim_pos seq off args =
      calc_trim_pos seq off ⟨args.min5pqual, args.min3pqual, 1⟩ := by
  unfold calc_trim_pos
  simp only [calc_trim_pos_clamp]
  have e : max args.minreadlen 1 = max (1 : Int) 1 := by
    rw [max_eq_right h, max_self]
  rw [e]

theorem calc_trim_pos_minreadlen_floor_witness :
    (-1 : Int) ≤ 1 ∧
    calc_trim_pos test_read_acgt 33 ⟨23, 23, -1⟩ = (0, ⟨3, 3⟩) ∧
    calc_trim_pos test_read_acgt 33 ⟨23, 23, -1⟩ =
      calc_trim_pos test_read_acgt 33 ⟨23, 23, 1⟩ :=
  ⟨by decide, by decide,
   calc_trim_pos_minreadlen_floor test_read_acgt 33 ⟨23, 23, -1⟩ (by decide)⟩

/-- C8: a positive threshold that no base reaches discards the read: if
`min5pQual > 0` and no index decodes to `>= min5pQual` the read is discarded,
and likewise for `min3pQual`, whatever the other threshold and `minReadLen`
are. -/
theorem calc_trim_pos_unreached_threshold (seq : kseq_t) (off : Int) (args : trim_args_t) :
    (args.min5pqual > 0 →
      (∀ i : Nat, i < seq.qual.l → decoded_qual seq off i < args.min5pqual) →
      (calc_trim_pos seq off args).1 = -1) ∧
    (args.min3pqual > 0 →
      (∀ i : Nat, i < seq.qual.l → decoded_qual seq off i < args.min3pqual) →
      (calc_trim_pos seq off args).1 = -1) := by
  refine ⟨fun hpos hall => ?_, fun hpos hall => ?_⟩
  · rcases calc_trim_pos_rc seq off args with h0 | h1
    · obtain ⟨a, b, _, hab, hb, _, k5, _⟩ := calc_trim_pos_keep seq off args h0
      have h1 := (k5 hpos).1
      have h2 := hall a (by omega)
      omega
    · exact h1
  · rcases calc_trim_pos_rc seq off args with h0 | h1
    · obtain ⟨a, b, _, hab, hb, _, _, _, k3, _⟩ := calc_trim_pos_keep seq off args h0
      have h1 := (k3 hpos).1
      have h2 := hall b hb
      omega
    · exact h1

theorem calc_trim_pos_unreached_threshold_witness :
    ((calc_trim_pos test_read_52 33 ⟨40, 0, 1⟩).1 = -1 ∧
     (calc_trim_pos test_read_52 33 ⟨0, 40, 1⟩).1 = -1) ∧
    ((calc_trim_pos test_read_acgt 33 ⟨24, 0, -1⟩).1 = -1 ∧
     (calc_trim_pos test_read_acgt 33 ⟨0, 24, -1⟩).1 = -1) :=
  ⟨⟨(calc_trim_pos_unreached_threshold test_read_52 33 ⟨40, 0, 1⟩).1 (by decide) (by decide),
    (calc_trim_pos_unreached_threshold test_read_52 33 ⟨0, 40, 1⟩).2 (by decide) (by decide)⟩,
   ⟨(calc_trim_pos_unreached_threshold test_read_acgt 33 ⟨24, 0, -1⟩).1 (by decide)
      (by decide),
    (calc_trim_pos_unreached_threshold test_read_acgt 33 ⟨0, 24, -1⟩).2 (by decide)
      (by decide)⟩⟩

/-! ## Theorems on qual_range_is_valid -/

theorem qual_range_is_valid_loop_spec (seq : kseq_t) (off : Int) (fuel : Nat) :
    ∀ i : Nat, i ≤ seq.qual.l → seq.qual.l + 1 ≤ fuel + i →
    (qual_range_is_valid_loop seq off fuel i = none ∧
        ∃ j : Nat, i ≤ j ∧ j < seq.qual.l ∧
          ¬ (0 ≤ decoded_qual seq off j ∧ decoded_qual seq off j ≤ 93)) ∨
    (qual_range_is_valid_loop seq off fuel i = some seq.qual.l ∧
        ∀ j : Nat, i ≤ j → j < seq.qual.l →
          0 ≤ decoded_qual seq off j ∧ decoded_qual seq off j ≤ 93) := by
  induction fuel with
  | zero => intro i h1 h2; omega
  | succ f ih =>
    intro i h1 h2
    unfold qual_range_is_valid_loop
    by_cases hc : i < seq.qual.l
    · by_cases hq : seq.qual.s.getD i 0 - off < 0 ∨ seq.qual.s.getD i 0 - off > 93
      · left
        refine ⟨by simp only [hc, hq, if_true], i, le_refl i, hc, ?_⟩
        unfold decoded_qual
        omega
      · simp only [hc, hq, if_true, if_false]
        have hq2 : 0 ≤ decoded_qual seq off i ∧ decoded_qual seq off i ≤ 93 := by
          unfold decoded_qual; omega
        rcases ih (i + 1) (by omega) (by omega) with ⟨e, j, hj1, hj2, hj3⟩ | ⟨e, hall⟩
        · left; exact ⟨e, j, by omega, hj2, hj3⟩
        · right
          refine ⟨e, fun j hj1 hj2 => ?_⟩
          rcases Nat.eq_or_lt_of_le hj1 with heq | hlt
          · rw [← heq]; exact hq2
          · exact hall j hlt hj2
    · right
      have hil : i = seq.qual.l := by omega
      refine ⟨by rw [if_neg hc, hil], fun j hj1 hj2 => ?_⟩
      omega

/-- The fuel `qual_range_is_valid` passes to its loop is never used up: more
fuel gives the same value. -/
theorem qual_range_is_valid_loop_fuel (seq : kseq_t) (off : Int) (fuel : Nat) :
    ∀ (i extra : Nat), seq.qual.l + 1 ≤ fuel + i →
    qual_range_is_valid_loop seq off (fuel + extra) i =
      qual_range_is_valid_loop seq off fuel i := by
  induction fuel with
  | zero =>
    intro i extra hi
    cases extra with
    | zero => rfl
    | succ e =>
      have hc : ¬ (i < seq.qual.l) := by omega
      show qual_range_is_valid_loop seq off (0 + e + 1) i = _
      unfold qual_range_is_valid_loop
      simp only [hc, if_false]
  | succ f ih =>
    intro i extra hi
    have h1 : f + 1 + extra = (f + extra) + 1 := by omega
    rw [h1]
    unfold qual_range_is_valid_loop
    rw [ih (i + 1) extra (by omega)]

/-- C10: `qual_range_is_valid(record, offset)` returns valid (1) if and only
if the quality string is non-empty and every quality byte `b` satisfies
`0 <= b - offset <= 93`; otherwise it returns 0, in particular for a record
with zero quality bytes, for every offset. -/
theorem qual_range_is_valid_iff (seq : kseq_t) (off : Int) :
    (qual_range_is_valid seq off = 1 ↔
      (seq.qual.l ≠ 0 ∧ ∀ i : Nat, i < seq.qual.l →
        0 ≤ seq.qual.s.getD i 0 - off ∧ seq.qual.s.getD i 0 - off ≤ 93)) ∧
    (qual_range_is_valid seq off = 1 ∨ qual_range_is_valid seq off = 0) ∧
    (seq.qual.l = 0 → qual_range_is_valid seq off = 0) := by
  have key := qual_range_is_valid_loop_spec seq off (seq.qual.l + 1) 0 (Nat.zero_le _)
    (le_refl _)
  unfold qual_range_is_valid
  rcases key with ⟨e, j, _, hj2, hj3⟩ | ⟨e, hall⟩
  · rw [e]
    refine ⟨⟨fun h => by simp at h, fun ⟨_, h⟩ => absurd (h j hj2) hj3⟩, Or.inr rfl,
      fun _ => rfl⟩
  · rw [e]
    dsimp only
    by_cases hl : seq.qual.l = 0
    · have h0 : (0 : Nat) = seq.qual.l := hl.symm
      rw [if_pos h0]
      refine ⟨⟨fun h => by simp at h, fun ⟨h, _⟩ => absurd hl h⟩, Or.inr rfl,
        fun _ => rfl⟩
    · have h0 : ¬ ((0 : Nat) = seq.qual.l) := fun h => hl h.symm
      rw [if_neg h0]
      refine ⟨⟨fun _ => ⟨hl, fun i hi => hall i (Nat.zero_le i) hi⟩, fun _ => rfl⟩,
        Or.inl rfl, fun h => absurd h hl⟩

theorem qual_range_is_valid_iff_witness :
    read_no_qual.qual.l = 0 ∧ qual_range_is_valid read_no_qual 33 = 0 ∧
    qual_range_is_valid read_no_qual 64 = 0 ∧ qual_range_is_valid test_read_acgt 33 = 1 :=
  ⟨rfl, (qual_range_is_valid_iff read_no_qual 33).2.2 rfl,
   (qual_range_is_valid_iff read_no_qual 64).2.2 rfl,
   (qual_range_is_valid_iff test_read_acgt 33).1.2 (by decide)⟩

/-! ## Lemmas on sprintf_fastq -/

/-- Printing a buffer from `start` after a NUL is written at `e`: when no NUL
comes before `e`, the chars from `start` up to `e - 1` are printed. -/
theorem cstr_set_nul (s : List Int) (e start : Nat) (he : e < s.length)
    (hnz : ∀ i : Nat, i < e → s.getD i 0 ≠ 0) (hs : start ≤ e) :
    cstr (s.set e 0) start = (s.take e).drop start := by
  have hlen : (s.take e).length = e := by
    rw [List.length_take]; omega
  have hall : ∀ x ∈ (s.take e).drop start, (fun c : Int => decide (c ≠ 0)) x = true := by
    intro x hx
    have hx2 : x ∈ s.take e := List.mem_of_mem_drop hx
    obtain ⟨i, hi, rfl⟩ := List.mem_iff_getElem.mp hx2
    have hie : i < e := by rw [hlen] at hi; exact hi
    have h1 := hnz i hie
    rw [List.getD_eq_getElem s 0 (by omega)] at h1
    rw [List.getElem_take]
    exact decide_eq_true h1
  unfold cstr
  rw [List.set_eq_take_cons_drop 0 he, List.drop_append_of_le_length (by omega),
    List.takeWhile_append_of_pos hall, List.takeWhile_cons_of_neg (by simp), List.append_nil]

theorem kstring_slice_eq (k : kstring_t) (a b : Nat) (hb : b < k.l) :
    kstring_slice k ⟨(a : Int), (b : Int)⟩ = (k.s.take (b + 1)).drop a := by
  unfold kstring_slice
  have e1 : ((b : Int) + 1).toNat = b + 1 := by omega
  have e2 : ((a : Int)).toNat = a := by omega
  simp only [e1, e2, List.take_take]
  rw [min_eq_left (by omega)]

theorem kstring_slice_length (k : kstring_t) (a b : Nat) (hab : a ≤ b) (hb : b < k.l)
    (hk : kstring_ok k) :
    ((kstring_slice k ⟨(a : Int), (b : Int)⟩).length : Int) = (b : Int) - (a : Int) + 1 := by
  rw [kstring_slice_eq k a b hb, List.length_drop, List.length_take]
  have := hk.1
  omega

/-- The text `sprintf_fastq` writes for a well formed record and an interval
inside it: header line, the two slices and the `+` line. -/
theorem sprintf_fastq_trimmed (seq : kseq_t) (a b : Nat) (hab : a ≤ b) (hb : b < seq.qual.l)
    (hl : seq.seq.l = seq.qual.l) (hs : kstring_ok seq.seq) (hq : kstring_ok seq.qual) :
    (sprintf_fastq seq (some ⟨(a : Int), (b : Int)⟩)).buf =
      fastq_header seq ++ [10] ++ kstring_slice seq.seq ⟨(a : Int), (b : Int)⟩
        ++ [10, 43, 10] ++ kstring_slice seq.qual ⟨(a : Int), (b : Int)⟩ ++ [10] := by
  have hq0 : ¬ (seq.qual.l = 0) := by omega
  have hneg : ¬ ((a : Int) < 0 ∨ (b : Int) < 0) := by omega
  have hinv : ¬ ((b : Int) - (a : Int) + 1 < 0) := by omega
  have e1 : ((b : Int) + 1).toNat = b + 1 := by omega
  have e2 : ((a : Int)).toNat = a := by omega
  have cs : cstr (seq.seq.s.set (b + 1) 0) a = (seq.seq.s.take (b + 1)).drop a := by
    by_cases hlt : b + 1 < seq.seq.s.length
    · refine cstr_set_nul seq.seq.s (b + 1) a hlt (fun i hi => ?_) (by omega)
      by_cases hil : i < seq.seq.l
      · exact hs.2.2 i hil
      · omega
    · have := hs.1
      omega
  have cq : cstr (seq.qual.s.set (b + 1) 0) a = (seq.qual.s.take (b + 1)).drop a := by
    by_cases hlt : b + 1 < seq.qual.s.length
    · refine cstr_set_nul seq.qual.s (b + 1) a hlt (fun i hi => ?_) (by omega)
      by_cases hil : i < seq.qual.l
      · exact hq.2.2 i hil
      · omega
    · have := hq.1
      omega
  rw [kstring_slice_eq seq.seq a b (by omega), kstring_slice_eq seq.qual a b hb]
  unfold sprintf_fastq
  simp only [hq0, hneg, hinv, if_false, e1, e2]
  unfold sprintf_fastq_text fastq_header
  simp only [cs, cq]
  by_cases hc : seq.comment.l ≠ 0
  · simp only [hc, if_true, ne_eq, not_false_eq_true, List.append_assoc]
  · simp only [hc, if_false, List.append_assoc]

/-! ## Lemmas on main -/

theorem gzprintf_fastq_written (gzprintf : gzFile → List Int → Int) (fp : gzFile)
    (seq : kseq_t) (trim_pos : Option trim_pos_t) :
    ∀ t ∈ (gzprintf_fastq gzprintf fp seq trim_pos).2.written,
      t ∈ fp.written ∨ t = (sprintf_fastq seq trim_pos).buf := by
  intro t ht
  unfold gzprintf_fastq at ht
  simp only [] at ht
  split_ifs at ht with h1 h2
  · exact Or.inl ht
  · simp only [List.mem_append, List.mem_singleton] at ht
    exact ht
  · exact Or.inl ht

theorem main_emit_written (gzprintf : gzFile → List Int → Int) (seq1 : kseq_t)
    (trim_pos_1 : trim_pos_t) (out2 : Option (kseq_t × trim_pos_t)) (st : main_state) :
    (∀ t ∈ (main_emit gzprintf seq1 trim_pos_1 out2 st).state.fp_outfq1.written,
      t ∈ st.fp_outfq1.written ∨ t = (sprintf_fastq seq1 (some trim_pos_1)).buf) ∧
    (∀ t ∈ (main_emit gzprintf seq1 trim_pos_1 out2 st).state.fp_outfq2.written,
      t ∈ st.fp_outfq2.written ∨
        ∃ seq2 trim_pos_2, out2 = some (seq2, trim_pos_2) ∧
          t = (sprintf_fastq seq2 (some trim_pos_2)).buf) := by
  have w1 := gzprintf_fastq_written gzprintf st.fp_outfq1 seq1 (some trim_pos_1)
  unfold main_emit
  simp only []
  by_cases h1 : 0 ≥ (gzprintf_fastq gzprintf st.fp_outfq1 seq1 (some trim_pos_1)).1
  · simp only [h1, if_true, main_step.state]
    exact ⟨w1, fun t ht => Or.inl ht⟩
  · simp only [h1, if_false]
    cases out2 with
    | none =>
      simp only [main_step.state]
      exact ⟨w1, fun t ht => Or.inl ht⟩
    | some p =>
      obtain ⟨seq2, trim_pos_2⟩ := p
      have w2 := gzprintf_fastq_written gzprintf st.fp_outfq2 seq2 (some trim_pos_2)
      simp only []
      by_cases h2 : 0 ≥ (gzprintf_fastq gzprintf st.fp_outfq2 seq2 (some trim_pos_2)).1
      · simp only [h2, if_true, main_step.state]
        refine ⟨w1, fun t ht => ?_⟩
        rcases w2 t ht with h | h
        · exact Or.inl h
        · exact Or.inr ⟨seq2, trim_pos_2, rfl, h⟩
      · simp only [h2, if_false, main_step.state]
        refine ⟨w1, fun t ht => ?_⟩
        rcases w2 t ht with h | h
        · exact Or.inl h
        · exact Or.inr ⟨seq2, trim_pos_2, rfl, h⟩

/-- Invariant form of `main_emit_written`: a property of the texts in the two
output files is kept when it holds for the two texts to be written. -/
theorem main_emit_inv (P1 P2 : List Int → Prop) (gzprintf : gzFile → List Int → Int)
    (seq1 : kseq_t) (trim_pos_1 : trim_pos_t) (out2 : Option (kseq_t × trim_pos_t))
    (st : main_state)
    (h1 : ∀ t ∈ st.fp_outfq1.written, P1 t) (h2 : ∀ t ∈ st.fp_outfq2.written, P2 t)
    (hn1 : P1 (sprintf_fastq seq1 (some trim_pos_1)).buf)
    (hn2 : ∀ seq2 trim_pos_2, out2 = some (seq2, trim_pos_2) →
      P2 (sprintf_fastq seq2 (some trim_pos_2)).buf) :
    (∀ t ∈ (main_emit gzprintf seq1 trim_pos_1 out2 st).state.fp_outfq1.written, P1 t) ∧
    (∀ t ∈ (main_emit gzprintf seq1 trim_pos_1 out2 st).state.fp_outfq2.written, P2 t) := by
  have key := main_emit_written gzprintf seq1 trim_pos_1 out2 st
  refine ⟨fun t ht => ?_, fun t ht => ?_⟩
  · rcases key.1 t ht with h | h
    · exact h1 t h
    · rw [h]; exact hn1
  · rcases key.2 t ht with h | ⟨s2, tp2, hsome, h⟩
    · exact h2 t h
    · rw [h]; exact hn2 s2 tp2 hsome

theorem main_body_inv (P1 P2 : List Int → Prop) (rates : samplerates)
    (gzprintf : gzFile → List Int → Int) (args : args_t) (seq1 : kseq_t)
    (seq2 : Option kseq_t) (st : main_state)
    (h1 : ∀ t ∈ st.fp_outfq1.written, P1 t) (h2 : ∀ t ∈ st.fp_outfq2.written, P2 t)
    (hn1 : ∀ t, main_emits args seq1 t → P1 t)
    (hn2 : ∀ s2, seq2 = some s2 → ∀ t, main_emits args s2 t → P2 t) :
    (∀ t ∈ (main_body rates gzprintf args seq1 seq2 st).state.fp_outfq1.written, P1 t) ∧
    (∀ t ∈ (main_body rates gzprintf args seq1 seq2 st).state.fp_outfq2.written, P2 t) := by
  have e1 : ∀ s : kseq_t,
      ¬ (-1 = (calc_trim_pos s args.phredoffset (main_trim_args args)).1) →
      (calc_trim_pos s args.phredoffset (main_trim_args args)).1 ≠ -1 :=
    fun s h h2 => h h2.symm
  have same : (∀ t ∈ st.fp_outfq1.written, P1 t) ∧ (∀ t ∈ st.fp_outfq2.written, P2 t) :=
    ⟨h1, h2⟩
  unfold main_body
  cases seq2 with
  | none =>
    dsimp only
    split_ifs
    · exact same
    · exact same
    · exact main_emit_inv P1 P2 gzprintf seq1 _ none st h1 h2
        (hn1 _ ⟨e1 _ (by assumption), rfl⟩) (fun s2 tp2 hs => by simp at hs)
  | some s2 =>
    dsimp only
    split_ifs
    all_goals first
      | exact same
      | exact main_emit_inv P1 P2 gzprintf seq1 _ _ _ h1 h2
          (hn1 _ ⟨e1 _ (by assumption), rfl⟩)
          (fun s tp hs => by
            simp only [Option.some.injEq, Prod.mk.injEq] at hs
            obtain ⟨rfl, rfl⟩ := hs
            exact hn2 _ rfl _ ⟨e1 _ (by assumption), rfl⟩)

theorem main_loop_inv (P1 P2 : List Int → Prop) (rates : samplerates)
    (gzprintf : gzFile → List Int → Int) (args : args_t) (infq1 : List kseq_t) :
    ∀ (infq2 : Option (List kseq_t)) (st : main_state),
    (∀ t ∈ st.fp_outfq1.written, P1 t) → (∀ t ∈ st.fp_outfq2.written, P2 t) →
    (∀ seq ∈ infq1, ∀ t, main_emits args seq t → P1 t) →
    (∀ l2, infq2 = some l2 → ∀ seq ∈ l2, ∀ t, main_emits args seq t → P2 t) →
    (∀ t ∈ (main_loop rates gzprintf args infq1 infq2 st).2.fp_outfq1.written, P1 t) ∧
    (∀ t ∈ (main_loop rates gzprintf args infq1 infq2 st).2.fp_outfq2.written, P2 t) := by
  induction infq1 with
  | nil =>
    intro infq2 st h1 h2 _ _
    cases infq2 with
    | none => exact ⟨h1, h2⟩
    | some l2 =>
      cases l2 with
      | nil => exact ⟨h1, h2⟩
      | cons s2 r2 => exact ⟨h1, h2⟩
  | cons seq1 rest ih =>
    intro infq2 st h1 h2 hn1 hn2
    cases infq2 with
    | none =>
      have hb := main_body_inv P1 P2 rates gzprintf args seq1 none
        { st with n_reads_in := st.n_reads_in + 1 } h1 h2
        (hn1 seq1 (List.mem_cons_self _ _)) (fun s2 hs => by simp at hs)
      unfold main_loop
      cases hstep : main_body rates gzprintf args seq1 none
          { st with n_reads_in := st.n_reads_in + 1 } with
      | next st1 =>
        rw [hstep] at hb
        exact ih none st1 hb.1 hb.2 (fun seq hs => hn1 seq (List.mem_cons_of_mem _ hs))
          (fun l2 hl => by simp at hl)
      | free_and_exit st1 =>
        rw [hstep] at hb
        exact hb
    | some l2 =>
      cases l2 with
      | nil => exact ⟨h1, h2⟩
      | cons seq2 rest2 =>
        have hb := main_body_inv P1 P2 rates gzprintf args seq1 (some seq2)
          { st with n_reads_in := st.n_reads_in + 1 } h1 h2
          (hn1 seq1 (List.mem_cons_self _ _))
          (fun s2 hs => by
            simp only [Option.some.injEq] at hs
            subst hs
            exact hn2 _ rfl _ (List.mem_cons_self _ _))
        unfold main_loop
        cases hstep : main_body rates gzprintf args seq1 (some seq2)
            { st with n_reads_in := st.n_reads_in + 1 } with
        | next st1 =>
          rw [hstep] at hb
          exact ih (some rest2) st1 hb.1 hb.2
            (fun seq hs => hn1 seq (List.mem_cons_of_mem _ hs))
            (fun l2 hl seq hs => by
              simp only [Option.some.injEq] at hl
              subst hl
              exact hn2 _ rfl seq (List.mem_cons_of_mem _ hs))
        | free_and_exit st1 =>
          rw [hstep] at hb
          exact hb

/-- What `main` hands to `gzprintf` for a record: the positions of
`calc_trim_pos` are at least `max minreadlen 1` apart, and for a well formed
record the text is the record trimmed to them. -/
theorem main_emits_trimmed (args : args_t) (seq : kseq_t) (t : List Int)
    (h : main_emits args seq t) :
    ∃ trim_pos : trim_pos_t,
      calc_trim_pos seq args.phredoffset (main_trim_args args) = (0, trim_pos) ∧
      t = (sprintf_fastq seq (some trim_pos)).buf ∧
      trim_pos.pos3p - trim_pos.pos5p + 1 ≥ max args.minreadlen 1 ∧
      (kseq_ok seq → trimmed_fastq seq trim_pos t) := by
  obtain ⟨hne, ht⟩ := h
  have h0 : (calc_trim_pos seq args.phredoffset (main_trim_args args)).1 = 0 := by
    rcases calc_trim_pos_rc seq args.phredoffset (main_trim_args args) with h0 | h1
    · exact h0
    · exact absurd h1 hne
  obtain ⟨a, b, e, hab, hb, hlen, _⟩ :=
    calc_trim_pos_keep seq args.phredoffset (main_trim_args args) h0
  refine ⟨⟨(a : Int), (b : Int)⟩, Prod.ext h0 e, by rw [ht, e], hlen, ?_⟩
  intro ⟨hl, hs, hq⟩
  refine ⟨?_, ?_, ?_⟩
  · rw [ht, e]
    exact sprintf_fastq_trimmed seq a b hab hb hl hs hq
  · exact kstring_slice_length seq.seq a b hab (by omega) hs
  · exact kstring_slice_length seq.qual a b hab hb hq

/-- C9: every read written to an output has at least `max(minReadLen, 1)`
bases.  For every run, single or paired, every text in output 1 (output 2)
is what `sprintf_fastq` writes for a record of input 1 (input 2) that
`calc_trim_pos` keeps, at the positions `pos5p, pos3p` it returns, and
`pos3p - pos5p + 1 >= max(minReadLen, 1)`.  Given the record is well formed
with `len(sequence) = len(quality)`, the text is the header line, the slice
`[pos5p, pos3p]` of the sequence, the `+` line and the same slice of the
quality, and both slices have `pos3p - pos5p + 1` chars. -/
theorem main_output_min_length (rates : samplerates) (gzprintf : gzFile → List Int → Int)
    (args : args_t) (infq1 : List kseq_t) (infq2 : Option (List kseq_t)) :
    (∀ t ∈ (main rates gzprintf args infq1 infq2).2.fp_outfq1.written,
      ∃ seq ∈ infq1, ∃ trim_pos : trim_pos_t,
        calc_trim_pos seq args.phredoffset (main_trim_args args) = (0, trim_pos) ∧
        t = (sprintf_fastq seq (some trim_pos)).buf ∧
        trim_pos.pos3p - trim_pos.pos5p + 1 ≥ max args.minreadlen 1 ∧
        (kseq_ok seq → trimmed_fastq seq trim_pos t)) ∧
    (∀ t ∈ (main rates gzprintf args infq1 infq2).2.fp_outfq2.written,
      ∃ l2, infq2 = some l2 ∧ ∃ seq ∈ l2, ∃ trim_pos : trim_pos_t,
        calc_trim_pos seq args.phredoffset (main_trim_args args) = (0, trim_pos) ∧
        t = (sprintf_fastq seq (some trim_pos)).buf ∧
        trim_pos.pos3p - trim_pos.pos5p + 1 ≥ max args.minreadlen 1 ∧
        (kseq_ok seq → trimmed_fastq seq trim_pos t)) := by
  unfold main
  refine main_loop_inv _ _ rates gzprintf args infq1 infq2 _ ?_ ?_ ?_ ?_
  · intro t ht
    simp at ht
  · intro t ht
    simp at ht
  · intro seq hs t hem
    exact ⟨seq, hs, main_emits_trimmed args seq t hem⟩
  · intro l2 hl seq hs t hem
    exact ⟨l2, hl, seq, hs, main_emits_trimmed args seq t hem⟩

theorem main_output_min_length_witness :
    (∀ seq ∈ [test_read_acgt, test_read_52], kseq_ok seq) ∧
    calc_trim_pos test_read_52 33 ⟨39, 39, 6⟩ = (0, ⟨23, 28⟩) ∧
    (main default_samplerates gzprintf_ok ⟨39, 39, 33, 6, 0, 1⟩
      [test_read_acgt, test_read_52] (some [test_read_52, test_read_52])).2.fp_outfq1.written
        = [[64] ++ test_name ++ [10, 71, 71, 84, 84, 84, 65, 10, 43, 10,
            72, 63, 63, 63, 63, 72, 10]] ∧
    ((∀ t ∈ (main default_samplerates gzprintf_ok ⟨39, 39, 33, 6, 0, 1⟩
        [test_read_acgt, test_read_52]
        (some [test_read_52, test_read_52])).2.fp_outfq1.written,
      ∃ seq ∈ [test_read_acgt, test_read_52], ∃ trim_pos : trim_pos_t,
        calc_trim_pos seq 33 ⟨39, 39, 6⟩ = (0, trim_pos) ∧
        t = (sprintf_fastq seq (some trim_pos)).buf ∧
        trim_pos.pos3p - trim_pos.pos5p + 1 ≥ max 6 1 ∧
        (kseq_ok seq → trimmed_fastq seq trim_pos t)) ∧
     (∀ t ∈ (main default_samplerates gzprintf_ok ⟨39, 39, 33, 6, 0, 1⟩
        [test_read_acgt, test_read_52]
        (some [test_read_52, test_read_52])).2.fp_outfq2.written,
      ∃ l2, some [test_read_52, test_read_52] = some l2 ∧ ∃ seq ∈ l2,
        ∃ trim_pos : trim_pos_t,
          calc_trim_pos seq 33 ⟨39, 39, 6⟩ = (0, trim_pos) ∧
          t = (sprintf_fastq seq (some trim_pos)).buf ∧
          trim_pos.pos3p - trim_pos.pos5p + 1 ≥ max 6 1 ∧
          (kseq_ok seq → trimmed_fastq seq trim_pos t))) :=
  ⟨by decide, by decide, by decide,
   main_output_min_length default_samplerates gzprintf_ok ⟨39, 39, 33, 6, 0, 1⟩
     [test_read_acgt, test_read_52] (some [test_read_52, test_read_52])⟩

/-! ## Theorems on reads_are_paired -/

/-- Writing back the char that is read at an index leaves a buffer as it is. -/
theorem set_getD_self (s : List Int) : ∀ e : Nat, s.set e (s.getD e 0) = s := by
  induction s with
  | nil => intro e; rfl
  | cons c r ih =>
    intro e
    cases e with
    | zero => rfl
    | succ n =>
      show c :: r.set n (r.getD n 0) = c :: r
      rw [ih n]

/-- Printing a well formed `kstring_t` with `%s` gives its text. -/
theorem cstr_of_kstring_ok (k : kstring_t) (hk : kstring_ok k) :
    cstr k.s 0 = kstring_text k := by
  obtain ⟨h1, h2, h3⟩ := hk
  have hset : k.s.set k.l 0 = k.s := by
    have := set_getD_self k.s k.l
    rw [h2] at this
    exact this
  have key := cstr_set_nul k.s k.l 0 h1 h3 (Nat.zero_le _)
  rw [hset, List.drop_zero] at key
  exact key

theorem kstring_text_length (k : kstring_t) (hk : kstring_ok k) :
    (kstring_text k).length = k.l := by
  unfold kstring_text
  rw [List.length_take]
  have := hk.1
  omega

/-- C11: for records whose names are well formed strings, `reads_are_paired`
is fully characterised by: -1 if the two names differ in length; otherwise,
if both records have a non-empty comment, 1 when the names are equal and 0
when they are not; otherwise -1 if the name length is `< 3`, else 1 when the
names agree on all but their last two characters and 0 when they do not. -/
theorem reads_are_paired_characterised (A B : kseq_t)
    (hA : kstring_ok A.name) (hB : kstring_ok B.name) :
    reads_are_paired A B = reads_are_paired_spec A B := by
  unfold reads_are_paired reads_are_paired_spec strcmp strncmp
  rw [cstr_of_kstring_ok A.name hA, cstr_of_kstring_ok B.name hB]
  by_cases hl : A.name.l ≠ B.name.l
  · rw [if_pos hl, if_pos hl]
  · rw [if_neg hl, if_neg hl]
    have hl2 : A.name.l = B.name.l := not_not.mp hl
    rw [← hl2]
    by_cases hc : A.comment.l ≠ 0 ∧ B.comment.l ≠ 0
    · rw [if_pos hc, if_pos hc]
      by_cases he : kstring_text A.name = kstring_text B.name
      · simp [he]
      · simp [he]
    · rw [if_neg hc, if_neg hc]
      by_cases h3 : A.name.l < 3
      · rw [if_pos h3, if_pos h3]
      · rw [if_neg h3, if_neg h3]
        by_cases he : (kstring_text A.name).take (A.name.l - 2)
            = (kstring_text B.name).take (A.name.l - 2)
        · simp [he]
        · simp [he]

theorem reads_are_paired_characterised_witness :
    kstring_ok (named_read [97, 98, 99, 47, 49] []).name ∧
    kstring_ok (named_read [97, 98, 99, 47, 50] []).name ∧
    reads_are_paired (named_read [97, 98, 99, 47, 49] []) (named_read [97, 98, 99, 47, 50] [])
      = 1 ∧
    reads_are_paired (named_read [97, 98, 99, 47, 49] []) (named_read [97, 98, 99, 47, 50] [])
      = reads_are_paired_spec (named_read [97, 98, 99, 47, 49] [])
          (named_read [97, 98, 99, 47, 50] []) :=
  ⟨by decide, by decide, by decide,
   reads_are_paired_characterised (named_read [97, 98, 99, 47, 49] [])
     (named_read [97, 98, 99, 47, 50] []) (by decide) (by decide)⟩

/-- C12: `reads_are_paired` is symmetric: for every two records `A` and `B`,
`reads_are_paired(A, B) = reads_are_paired(B, A)`. -/
theorem reads_are_paired_symmetric (A B : kseq_t) :
    reads_are_paired A B = reads_are_paired B A := by
  unfold reads_are_paired strcmp strncmp
  by_cases hl : A.name.l ≠ B.name.l
  · have hl2 : B.name.l ≠ A.name.l := fun h => hl h.symm
    rw [if_pos hl, if_pos hl2]
  · have hl2 : ¬ (B.name.l ≠ A.name.l) := fun h => hl (fun e => h e.symm)
    rw [if_neg hl, if_neg hl2]
    have e : A.name.l = B.name.l := not_not.mp hl
    rw [← e]
    have hc : (A.comment.l ≠ 0 ∧ B.comment.l ≠ 0) = (B.comment.l ≠ 0 ∧ A.comment.l ≠ 0) :=
      propext and_comm
    have h1 : (cstr A.name.s 0 = cstr B.name.s 0) = (cstr B.name.s 0 = cstr A.name.s 0) :=
      propext eq_comm
    have h2 : ((cstr A.name.s 0).take (A.name.l - 2) = (cstr B.name.s 0).take (A.name.l - 2))
        = ((cstr B.name.s 0).take (A.name.l - 2) = (cstr A.name.s 0).take (A.name.l - 2)) :=
      propext eq_comm
    simp only [hc, h1, h2]

theorem reads_are_paired_symmetric_witness :
    reads_are_paired (named_read [97, 98, 99, 47, 49] [49]) (named_read [97, 98, 99, 47, 50] [50])
      = 0 ∧
    reads_are_paired (named_read [97, 98, 99, 47, 49] [49]) (named_read [97, 98, 99, 47, 50] [50])
      = reads_are_paired (named_read [97, 98, 99, 47, 50] [50])
          (named_read [97, 98, 99, 47, 49] [49]) :=
  ⟨by decide,
   reads_are_paired_symmetric (named_read [97, 98, 99, 47, 49] [49])
     (named_read [97, 98, 99, 47, 50] [50])⟩

/-! ## Theorems on sprintf_fastq -/

/-- The header `sprintf_fastq` prints for a record with well formed name and
comment. -/
theorem fastq_header_of_ok (seq : kseq_t) (hn : kstring_ok seq.name)
    (hc : seq.comment.l ≠ 0 → kstring_ok seq.comment) :
    fastq_header seq = [64] ++ kstring_text seq.name
      ++ (if kstring_text seq.comment ≠ [] then [32] ++ kstring_text seq.comment else []) := by
  unfold fastq_header
  rw [cstr_of_kstring_ok seq.name hn]
  by_cases h : seq.comment.l ≠ 0
  · have hlen := kstring_text_length seq.comment (hc h)
    have hne : kstring_text seq.comment ≠ [] := by
      intro he
      rw [he] at hlen
      exact h hlen.symm
    rw [if_pos h, if_pos hne, cstr_of_kstring_ok seq.comment (hc h), List.append_assoc]
  · have h0 : seq.comment.l = 0 := not_not.mp h
    have he : ¬ (kstring_text seq.comment ≠ []) := by
      unfold kstring_text
      rw [h0]
      simp
    rw [if_neg h, if_neg he, List.append_nil]

/-- The text `sprintf_fastq` writes without a `trim_pos`. -/
theorem sprintf_fastq_none_buf (seq : kseq_t) (hq0 : seq.qual.l ≠ 0)
    (hs : kstring_ok seq.seq) (hq : kstring_ok seq.qual) :
    (sprintf_fastq seq none).buf =
      fastq_header seq ++ [10] ++ kstring_text seq.seq ++ [10, 43, 10]
        ++ kstring_text seq.qual ++ [10] := by
  have cs := cstr_of_kstring_ok seq.seq hs
  have cq := cstr_of_kstring_ok seq.qual hq
  unfold sprintf_fastq
  simp only [hq0, if_false]
  unfold sprintf_fastq_text fastq_header
  rw [cs, cq]
  by_cases hc : seq.comment.l ≠ 0
  · simp only [hc, if_true, ne_eq, not_false_eq_true, List.append_assoc]
  · simp only [hc, if_false, List.append_assoc]

/-- The text `sprintf_fastq` writes for an interval inside sequence and
quality. -/
theorem sprintf_fastq_some_buf (seq : kseq_t) (a b : Nat) (hab : a ≤ b)
    (hbs : b < seq.seq.l) (hbq : b < seq.qual.l)
    (hs : kstring_ok seq.seq) (hq : kstring_ok seq.qual) :
    (sprintf_fastq seq (some ⟨(a : Int), (b : Int)⟩)).buf =
      fastq_header seq ++ [10] ++ kstring_slice seq.seq ⟨(a : Int), (b : Int)⟩
        ++ [10, 43, 10] ++ kstring_slice seq.qual ⟨(a : Int), (b : Int)⟩ ++ [10] := by
  have hq0 : ¬ (seq.qual.l = 0) := by omega
  have hneg : ¬ ((a : Int) < 0 ∨ (b : Int) < 0) := by omega
  have hinv : ¬ ((b : Int) - (a : Int) + 1 < 0) := by omega
  have e1 : ((b : Int) + 1).toNat = b + 1 := by omega
  have e2 : ((a : Int)).toNat = a := by omega
  have cs : cstr (seq.seq.s.set (b + 1) 0) a = (seq.seq.s.take (b + 1)).drop a := by
    have := hs.1
    exact cstr_set_nul seq.seq.s (b + 1) a (by omega)
      (fun i hi => hs.2.2 i (by omega)) (by omega)
  have cq : cstr (seq.qual.s.set (b + 1) 0) a = (seq.qual.s.take (b + 1)).drop a := by
    have := hq.1
    exact cstr_set_nul seq.qual.s (b + 1) a (by omega)
      (fun i hi => hq.2.2 i (by omega)) (by omega)
  rw [kstring_slice_eq seq.seq a b hbs, kstring_slice_eq seq.qual a b hbq]
  unfold sprintf_fastq
  simp only [hq0, hneg, hinv, if_false, e1, e2]
  unfold sprintf_fastq_text fastq_header
  simp only [cs, cq]
  by_cases hc : seq.comment.l ≠ 0
  · simp only [hc, if_true, ne_eq, not_false_eq_true, List.append_assoc]
  · simp only [hc, if_false, List.append_assoc]

/-- C13: `sprintf_fastq` renders exactly the four line FASTQ text.  For every
record of well formed strings with non-empty quality: with no interval the
output is `@` + name + (blank + comment if the comment is non-empty) + newline
+ sequence + `\n+\n` + quality + newline; with an interval
`0 <= pos5p <= pos3p < len` the sequence and quality lines are their slices
`[pos5p, pos3p]`, each of length `pos3p - pos5p + 1`, and the header line is
the same. -/
theorem sprintf_fastq_renders (seq : kseq_t) (hq0 : seq.qual.l ≠ 0)
    (hn : kstring_ok seq.name) (hc : seq.comment.l ≠ 0 → kstring_ok seq.comment)
    (hs : kstring_ok seq.seq) (hq : kstring_ok seq.qual) :
    (sprintf_fastq seq none).buf =
      fastq_text (kstring_text seq.name) (kstring_text seq.comment)
        (kstring_text seq.seq) (kstring_text seq.qual) ∧
    ∀ trim_pos : trim_pos_t, 0 ≤ trim_pos.pos5p → trim_pos.pos5p ≤ trim_pos.pos3p →
      trim_pos.pos3p < (seq.seq.l : Int) → trim_pos.pos3p < (seq.qual.l : Int) →
      (sprintf_fastq seq (some trim_pos)).buf =
        fastq_text (kstring_text seq.name) (kstring_text seq.comment)
          (kstring_slice seq.seq trim_pos) (kstring_slice seq.qual trim_pos) ∧
      ((kstring_slice seq.seq trim_pos).length : Int)
        = trim_pos.pos3p - trim_pos.pos5p + 1 ∧
      ((kstring_slice seq.qual trim_pos).length : Int)
        = trim_pos.pos3p - trim_pos.pos5p + 1 := by
  have hh := fastq_header_of_ok seq hn hc
  refine ⟨?_, ?_⟩
  · rw [sprintf_fastq_none_buf seq hq0 hs hq, hh]
    unfold fastq_text
    simp only [List.append_assoc]
  · intro trim_pos h0 h1 h2 h3
    obtain ⟨p5, p3⟩ := trim_pos
    simp only at h0 h1 h2 h3
    obtain ⟨a, rfl⟩ := Int.eq_ofNat_of_zero_le h0
    obtain ⟨b, rfl⟩ := Int.eq_ofNat_of_zero_le (le_trans h0 h1)
    refine ⟨?_, ?_, ?_⟩
    · rw [sprintf_fastq_some_buf seq a b (by omega) (by omega) (by omega) hs hq, hh]
      unfold fastq_text
      simp only [List.append_assoc]
    · exact kstring_slice_length seq.seq a b (by omega) (by omega) hs
    · exact kstring_slice_length seq.qual a b (by omega) (by omega) hq

theorem sprintf_fastq_renders_witness :
    test_read_comment.qual.l ≠ 0 ∧
    (sprintf_fastq test_read_comment none).buf =
      [64, 72, 87, 73, 32, 49, 58, 78, 10, 65, 67, 71, 84, 10, 43, 10, 53, 54, 55, 56, 10] ∧
    (sprintf_fastq test_read_comment (some ⟨1, 2⟩)).buf =
      [64, 72, 87, 73, 32, 49, 58, 78, 10, 67, 71, 10, 43, 10, 54, 55, 10] ∧
    ((sprintf_fastq test_read_comment none).buf =
      fastq_text (kstring_text test_read_comment.name) (kstring_text test_read_comment.comment)
        (kstring_text test_read_comment.seq) (kstring_text test_read_comment.qual) ∧
    ∀ trim_pos : trim_pos_t, 0 ≤ trim_pos.pos5p → trim_pos.pos5p ≤ trim_pos.pos3p →
      trim_pos.pos3p < (test_read_comment.seq.l : Int) →
      trim_pos.pos3p < (test_read_comment.qual.l : Int) →
      (sprintf_fastq test_read_comment (some trim_pos)).buf =
        fastq_text (kstring_text test_read_comment.name)
          (kstring_text test_read_comment.comment)
          (kstring_slice test_read_comment.seq trim_pos)
          (kstring_slice test_read_comment.qual trim_pos) ∧
      ((kstring_slice test_read_comment.seq trim_pos).length : Int)
        = trim_pos.pos3p - trim_pos.pos5p + 1 ∧
      ((kstring_slice test_read_comment.qual trim_pos).length : Int)
        = trim_pos.pos3p - trim_pos.pos5p + 1) :=
  ⟨by decide, by decide, by decide,
   sprintf_fastq_renders test_read_comment (by decide) (by decide) (fun _ => by decide)
     (by decide) (by decide)⟩

/-- Setting a char to NUL and writing the remembered char back restores the
buffer. -/
theorem set_nul_revert (s : List Int) (e : Nat) : (s.set e 0).set e (s.getD e 0) = s := by
  rw [List.set_set, set_getD_self]

/-- C14: formatting does not change the record: for every record and every
interval argument (absent, accepted or rejected), the record after
`sprintf_fastq` returns is the record before the call, in name, comment,
sequence and quality, contents and lengths, whether the call succeeded or
failed. -/
theorem sprintf_fastq_leaves_record (seq : kseq_t) (trim_pos : Option trim_pos_t) :
    (sprintf_fastq seq trim_pos).seq = seq := by
  unfold sprintf_fastq
  by_cases hq0 : seq.qual.l = 0
  · rw [if_pos hq0]
  · rw [if_neg hq0]
    cases trim_pos with
    | none => rfl
    | some tp =>
      dsimp only
      by_cases hneg : tp.pos5p < 0 ∨ tp.pos3p < 0
      · rw [if_pos hneg]
      · rw [if_neg hneg]
        by_cases hinv : tp.pos3p - tp.pos5p + 1 < 0
        · rw [if_pos hinv]
        · rw [if_neg hinv]
          simp only [set_nul_revert]

theorem sprintf_fastq_leaves_record_witness :
    (sprintf_fastq test_read_acgt (some ⟨1, 2⟩)).ret = 62 ∧
    (sprintf_fastq test_read_acgt (some ⟨1, 2⟩)).seq = test_read_acgt ∧
    (sprintf_fastq test_read_acgt none).seq = test_read_acgt ∧
    (sprintf_fastq test_read_acgt (some ⟨-1, 2⟩)).seq = test_read_acgt :=
  ⟨by decide, sprintf_fastq_leaves_record test_read_acgt (some ⟨1, 2⟩),
   sprintf_fastq_leaves_record test_read_acgt none,
   sprintf_fastq_leaves_record test_read_acgt (some ⟨-1, 2⟩)⟩

/-- The text of `sprintf_fastq_text` is never empty. -/
theorem sprintf_fastq_text_length_pos (seq : kseq_t) (start : Nat) :
    0 < (sprintf_fastq_text seq start).length := by
  unfold sprintf_fastq_text
  split_ifs <;> simp

theorem calc_trim_pos_ne_iff (seq : kseq_t) (off : Int) (ta : trim_args_t) :
    ¬ (-1 = (calc_trim_pos seq off ta).1) ↔ (calc_trim_pos seq off ta).1 = 0 := by
  rcases calc_trim_pos_rc seq off ta with h | h
  · rw [h]; decide
  · rw [h]; decide

theorem main_keeps_iff (args : args_t) (seq : kseq_t) :
    main_keeps args seq = true ↔
      (calc_trim_pos seq args.phredoffset (main_trim_args args)).1 = 0 := by
  unfold main_keeps
  exact decide_eq_true_iff

/-- For a read that `calc_trim_pos` keeps, `sprintf_fastq` returns the
positive length of a text that is not empty. -/
theorem sprintf_fastq_of_keep (seq : kseq_t) (off : Int) (ta : trim_args_t)
    (h : (calc_trim_pos seq off ta).1 = 0) :
    0 < (sprintf_fastq seq (some (calc_trim_pos seq off ta).2)).ret ∧
    (sprintf_fastq seq (some (calc_trim_pos seq off ta).2)).buf ≠ [] ∧
    (sprintf_fastq seq (some (calc_trim_pos seq off ta).2)).ret
      = ((sprintf_fastq seq (some (calc_trim_pos seq off ta).2)).buf.length : Int) := by
  obtain ⟨a, b, e, hab, hb, _⟩ := calc_trim_pos_keep seq off ta h
  rw [e]
  have hq0 : ¬ (seq.qual.l = 0) := by omega
  have hneg : ¬ ((a : Int) < 0 ∨ (b : Int) < 0) := by omega
  have hinv : ¬ ((b : Int) - (a : Int) + 1 < 0) := by omega
  have key := sprintf_fastq_text_length_pos
    { seq with seq := ⟨seq.seq.l, seq.seq.s.set ((b : Int) + 1).toNat 0⟩,
               qual := ⟨seq.qual.l, seq.qual.s.set ((b : Int) + 1).toNat 0⟩ }
    ((a : Int)).toNat
  unfold sprintf_fastq
  rw [if_neg hq0]
  dsimp only
  rw [if_neg hneg, if_neg hinv]
  dsimp only
  refine ⟨by omega, fun he => ?_, rfl⟩
  rw [he] at key
  exact absurd key (by decide)

/-- The two ways `gzprintf_fastq` returns: with a value `<= 0` and the file as
it was, or with a positive value and the text appended. -/
theorem gzprintf_fastq_cases (gzprintf : gzFile → List Int → Int) (fp : gzFile)
    (seq : kseq_t) (trim_pos : Option trim_pos_t) :
    ((gzprintf_fastq gzprintf fp seq trim_pos).1 ≤ 0 ∧
      (gzprintf_fastq gzprintf fp seq trim_pos).2 = fp) ∨
    (0 < (gzprintf_fastq gzprintf fp seq trim_pos).1 ∧
      (gzprintf_fastq gzprintf fp seq trim_pos).2 =
        { fp with written := fp.written ++ [(sprintf_fastq seq trim_pos).buf] }) := by
  unfold gzprintf_fastq
  dsimp only
  by_cases h1 : (sprintf_fastq seq trim_pos).ret < 0
  · rw [if_pos h1]
    exact Or.inl ⟨le_of_lt h1, rfl⟩
  · rw [if_neg h1]
    by_cases h2 : 0 < gzprintf fp (sprintf_fastq seq trim_pos).buf
    · exact Or.inr ⟨h2, by rw [if_pos h2]⟩
    · exact Or.inl ⟨by dsimp only; omega, by dsimp only; rw [if_neg h2]⟩

/-- With a sink that never fails `gzprintf_fastq` appends the text of a kept
read. -/
theorem gzprintf_fastq_of_keep (gzprintf : gzFile → List Int → Int)
    (hsink : gzprintf_never_fails gzprintf) (fp : gzFile) (seq : kseq_t) (off : Int)
    (ta : trim_args_t) (h : (calc_trim_pos seq off ta).1 = 0) :
    0 < (gzprintf_fastq gzprintf fp seq (some (calc_trim_pos seq off ta).2)).1 ∧
    (gzprintf_fastq gzprintf fp seq (some (calc_trim_pos seq off ta).2)).2 =
      { fp with written := fp.written ++
          [(sprintf_fastq seq (some (calc_trim_pos seq off ta).2)).buf] } := by
  obtain ⟨hpos, hne, _⟩ := sprintf_fastq_of_keep seq off ta h
  have hg := hsink fp _ hne
  unfold gzprintf_fastq
  dsimp only
  rw [if_neg (by omega), if_pos hg]
  exact ⟨hg, rfl⟩

/-- The ways the two writes at the end of the loop body come out. -/
theorem main_emit_cases (gzprintf : gzFile → List Int → Int) (seq1 : kseq_t)
    (trim_pos_1 : trim_pos_t) (out2 : Option (kseq_t × trim_pos_t)) (st : main_state) :
    main_emit gzprintf seq1 trim_pos_1 out2 st = main_step.free_and_exit st ∨
    (out2 = none ∧ main_emit gzprintf seq1 trim_pos_1 out2 st =
      main_step.next (st.write1 (sprintf_fastq seq1 (some trim_pos_1)).buf).count_out) ∨
    (∃ seq2 trim_pos_2, out2 = some (seq2, trim_pos_2) ∧
      (main_emit gzprintf seq1 trim_pos_1 out2 st =
          main_step.free_and_exit (st.write1 (sprintf_fastq seq1 (some trim_pos_1)).buf) ∨
       main_emit gzprintf seq1 trim_pos_1 out2 st =
          main_step.next (((st.write1 (sprintf_fastq seq1 (some trim_pos_1)).buf).write2
            (sprintf_fastq seq2 (some trim_pos_2)).buf).count_out))) := by
  unfold main_emit
  dsimp only
  rcases gzprintf_fastq_cases gzprintf st.fp_outfq1 seq1 (some trim_pos_1) with
    ⟨h1, e1⟩ | ⟨h1, e1⟩
  · left
    rw [if_pos (by omega), e1]
  · right
    rw [if_neg (by omega), e1]
    cases out2 with
    | none => exact Or.inl ⟨rfl, rfl⟩
    | some p =>
      obtain ⟨seq2, trim_pos_2⟩ := p
      right
      refine ⟨seq2, trim_pos_2, rfl, ?_⟩
      dsimp only
      rcases gzprintf_fastq_cases gzprintf st.fp_outfq2 seq2 (some trim_pos_2) with
        ⟨h2, e2⟩ | ⟨h2, e2⟩
      · left
        rw [if_pos (by omega), e2]
        rfl
      · right
        rw [if_neg (by omega), e2]
        rfl

/-- With a sink that never fails the texts of kept reads are written and
`n_reads_out` is incremented. -/
theorem main_emit_of_keep (gzprintf : gzFile → List Int → Int)
    (hsink : gzprintf_never_fails gzprintf) (args : args_t) (seq1 : kseq_t)
    (seq2 : Option kseq_t) (st : main_state)
    (h1 : (calc_trim_pos seq1 args.phredoffset (main_trim_args args)).1 = 0)
    (h2 : ∀ s2, seq2 = some s2 →
      (calc_trim_pos s2 args.phredoffset (main_trim_args args)).1 = 0) :
    main_emit gzprintf seq1 (calc_trim_pos seq1 args.phredoffset (main_trim_args args)).2
        (seq2.map (fun s2 =>
          (s2, (calc_trim_pos s2 args.phredoffset (main_trim_args args)).2))) st =
      match seq2 with
      | none => main_step.next (st.write1 (main_text args seq1)).count_out
      | some s2 =>
        main_step.next
          (((st.write1 (main_text args seq1)).write2 (main_text args s2)).count_out) := by
  have w1 := gzprintf_fastq_of_keep gzprintf hsink st.fp_outfq1 seq1 args.phredoffset
    (main_trim_args args) h1
  unfold main_emit
  dsimp only
  rw [if_neg (by omega), w1.2]
  cases seq2 with
  | none => rfl
  | some s2 =>
    have w2 := gzprintf_fastq_of_keep gzprintf hsink st.fp_outfq2 s2 args.phredoffset
      (main_trim_args args) (h2 s2 rfl)
    dsimp only [Option.map_some']
    rw [if_neg (by omega), w2.2]
    rfl

/-- The loop body of `main` in a normal form: the repeated quality check of
paired end mode never fires, and the order check is spelled out by the value
of `reads_are_paired`. -/
theorem main_body_eq (rates : samplerates) (gzprintf : gzFile → List Int → Int)
    (args : args_t) (seq1 : kseq_t) (seq2 : Option kseq_t) (st : main_state) :
    main_body rates gzprintf args seq1 seq2 st =
      if main_qual_abort rates args seq1 st.n_reads_in then main_step.free_and_exit st
      else if main_keeps args seq1 = false then main_step.next st
      else
        match seq2 with
        | none =>
          main_emit gzprintf seq1
            (calc_trim_pos seq1 args.phredoffset (main_trim_args args)).2 none st
        | some s2 =>
          if main_keeps args s2 = false then main_step.next st
          else if args.no_order_check = 0 ∧ st.read_order_warning_issued = 0 ∧
              1 = st.n_reads_in % rates.PAIRED_ORDER_SAMPLERATE then
            if reads_are_paired seq1 s2 = 0 then main_step.free_and_exit st
            else if reads_are_paired seq1 s2 = -1 then
              main_emit gzprintf seq1
                (calc_trim_pos seq1 args.phredoffset (main_trim_args args)).2
                (some (s2, (calc_trim_pos s2 args.phredoffset (main_trim_args args)).2))
                { st with read_order_warning_issued := 1 }
            else
              main_emit gzprintf seq1
                (calc_trim_pos seq1 args.phredoffset (main_trim_args args)).2
                (some (s2, (calc_trim_pos s2 args.phredoffset (main_trim_args args)).2)) st
          else
            main_emit gzprintf seq1
              (calc_trim_pos seq1 args.phredoffset (main_trim_args args)).2
              (some (s2, (calc_trim_pos s2 args.phredoffset (main_trim_args args)).2)) st := by
  have kf : ∀ s : kseq_t, main_keeps args s = false ↔
      -1 = (calc_trim_pos s args.phredoffset (main_trim_args args)).1 := by
    intro s
    rw [← Bool.not_eq_true, main_keeps_iff, ← calc_trim_pos_ne_iff, not_not]
  unfold main_body main_qual_abort
  by_cases hq : (args.no_qual_check = 0 ∧ 1 = st.n_reads_in % rates.QUAL_CHECK_SAMPLERATE) ∧
      qual_range_is_valid seq1 args.phredoffset = 0
  · rw [if_pos hq, if_pos hq]
  · rw [if_neg hq, if_neg hq]
    dsimp only
    by_cases h1 : -1 = (calc_trim_pos seq1 args.phredoffset (main_trim_args args)).1
    · rw [if_pos h1, if_pos ((kf seq1).mpr h1)]
    · rw [if_neg h1, if_neg (fun h => h1 ((kf seq1).mp h))]
      cases seq2 with
      | none => rfl
      | some s2 =>
        dsimp only
        rw [if_neg hq]
        by_cases h2 : -1 = (calc_trim_pos s2 args.phredoffset (main_trim_args args)).1
        · rw [if_pos h2, if_pos ((kf s2).mpr h2)]
        · rw [if_neg h2, if_neg (fun h => h2 ((kf s2).mp h))]
          by_cases ho : args.no_order_check = 0 ∧ st.read_order_warning_issued = 0 ∧
              1 = st.n_reads_in % rates.PAIRED_ORDER_SAMPLERATE
          · rw [if_pos ho, if_pos ho]
            by_cases r0 : reads_are_paired seq1 s2 = 0
            · rw [if_pos r0]
              have c1 : (1 : Int) ≠ reads_are_paired seq1 s2 := by rw [r0]; decide
              rw [if_pos c1, if_pos r0.symm]
            · rw [if_neg r0]
              by_cases r1 : reads_are_paired seq1 s2 = -1
              · have c1 : (1 : Int) ≠ reads_are_paired seq1 s2 := by rw [r1]; decide
                rw [if_pos r1, if_pos c1, if_neg (fun h => r0 h.symm), if_pos r1.symm]
              · rw [if_neg r1]
                by_cases c1 : (1 : Int) ≠ reads_are_paired seq1 s2
                · rw [if_pos c1, if_neg (fun h => r0 h.symm), if_neg (fun h => r1 h.symm)]
                · rw [if_neg c1]
          · rw [if_neg ho, if_neg ho]

/-! ## Lemmas on the loop of main -/

theorem main_loop_cons_none (rates : samplerates) (gzprintf : gzFile → List Int → Int)
    (args : args_t) (seq1 : kseq_t) (infq1 : List kseq_t) (st : main_state) :
    main_loop rates gzprintf args (seq1 :: infq1) none st =
      match main_body rates gzprintf args seq1 none st.count_in with
      | main_step.next st1 => main_loop rates gzprintf args infq1 none st1
      | main_step.free_and_exit st1 => (EXIT_FAILURE, st1) := by
  rw [main_loop]
  rfl

theorem main_loop_cons_cons (rates : samplerates) (gzprintf : gzFile → List Int → Int)
    (args : args_t) (seq1 : kseq_t) (infq1 : List kseq_t) (seq2 : kseq_t)
    (infq2 : List kseq_t) (st : main_state) :
    main_loop rates gzprintf args (seq1 :: infq1) (some (seq2 :: infq2)) st =
      match main_body rates gzprintf args seq1 (some seq2) st.count_in with
      | main_step.next st1 => main_loop rates gzprintf args infq1 (some infq2) st1
      | main_step.free_and_exit st1 => (EXIT_FAILURE, st1) := by
  rw [main_loop]
  rfl

theorem main_loop_cons_nil (rates : samplerates) (gzprintf : gzFile → List Int → Int)
    (args : args_t) (seq1 : kseq_t) (infq1 : List kseq_t) (st : main_state) :
    main_loop rates gzprintf args (seq1 :: infq1) (some []) st =
      (EXIT_FAILURE, st.count_in) := by
  rw [main_loop]
  rfl

theorem main_loop_nil_cons (rates : samplerates) (gzprintf : gzFile → List Int → Int)
    (args : args_t) (seq2 : kseq_t) (infq2 : List kseq_t) (st : main_state) :
    main_loop rates gzprintf args [] (some (seq2 :: infq2)) st = (EXIT_FAILURE, st) := by
  rw [main_loop]

theorem main_loop_nil_nil (rates : samplerates) (gzprintf : gzFile → List Int → Int)
    (args : args_t) (st : main_state) :
    main_loop rates gzprintf args [] (some []) st = (EXIT_SUCCESS, st) := by
  rw [main_loop]
  intro a b h
  cases h

theorem main_loop_nil_none (rates : samplerates) (gzprintf : gzFile → List Int → Int)
    (args : args_t) (st : main_state) :
    main_loop rates gzprintf args [] none st = (EXIT_SUCCESS, st) := by
  rw [main_loop]
  intro a b h
  cases h

/-- Single end mode with a sink that never fails and no sampled record that
fails the quality check: the loop runs to its end, counts every record in and
writes the texts of the kept records in input order. -/
theorem main_loop_single (rates : samplerates) (gzprintf : gzFile → List Int → Int)
    (args : args_t) (hsink : gzprintf_never_fails gzprintf) (infq1 : List kseq_t) :
    ∀ st : main_state,
    (∀ (i : Nat) (seq : kseq_t), infq1[i]? = some seq →
      ¬ main_qual_abort rates args seq (st.n_reads_in + i + 1)) →
    main_loop rates gzprintf args infq1 none st =
      (EXIT_SUCCESS,
        { n_reads_in := st.n_reads_in + infq1.length,
          n_reads_out := st.n_reads_out + (infq1.filter (main_keeps args)).length,
          read_order_warning_issued := st.read_order_warning_issued,
          fp_outfq1 := ⟨st.fp_outfq1.fileno, st.fp_outfq1.written ++
            (infq1.filter (main_keeps args)).map (main_text args)⟩,
          fp_outfq2 := st.fp_outfq2 }) := by
  induction infq1 with
  | nil =>
    intro st _
    rw [main_loop_nil_none]
    simp
  | cons seq1 rest ih =>
    intro st hq
    have hq0 : ¬ main_qual_abort rates args seq1 (st.count_in).n_reads_in := by
      have := hq 0 seq1 (by simp)
      exact this
    have hqr : ∀ (i : Nat) (seq : kseq_t), rest[i]? = some seq →
        ¬ main_qual_abort rates args seq ((st.count_in).n_reads_in + i + 1) := by
      intro i seq hi
      have := hq (i + 1) seq (by simpa using hi)
      have e : st.count_in.n_reads_in + i + 1 = st.n_reads_in + (i + 1) + 1 := by
        show st.n_reads_in + 1 + i + 1 = _
        omega
      rw [e]
      exact this
    rw [main_loop_cons_none, main_body_eq, if_neg hq0]
    by_cases hk : main_keeps args seq1 = false
    · rw [if_pos hk]
      dsimp only
      rw [ih st.count_in hqr, List.filter_cons_of_neg (by simp [hk])]
      simp only [main_state.count_in, List.length_cons, Prod.mk.injEq, main_state.mk.injEq,
        true_and, and_true]
      omega
    · have hk1 : main_keeps args seq1 = true := by simpa using hk
      rw [if_neg hk]
      dsimp only
      have he := main_emit_of_keep gzprintf hsink args seq1 none st.count_in
        ((main_keeps_iff args seq1).mp hk1) (fun s2 hs => by simp at hs)
      simp only [Option.map_none'] at he
      rw [he]
      dsimp only
      have hqr2 : ∀ (i : Nat) (seq : kseq_t), rest[i]? = some seq →
          ¬ main_qual_abort rates args seq
            (((st.count_in.write1 (main_text args seq1)).count_out).n_reads_in + i + 1) :=
        hqr
      rw [ih _ hqr2, List.filter_cons_of_pos hk1]
      simp only [main_state.count_in, main_state.count_out, main_state.write1,
        List.length_cons, List.map_cons, List.append_assoc, List.singleton_append,
        Prod.mk.injEq, main_state.mk.injEq, true_and, and_true]
      omega

theorem gzprintf_ok_never_fails : gzprintf_never_fails gzprintf_ok := by
  intro fp buf hne
  unfold gzprintf_ok
  have := List.length_pos.mpr hne
  omega

/-- The records a test keeps and those it does not keep add up to all
records. -/
theorem filter_length_add_filter_not (p : kseq_t → Bool) (l : List kseq_t) :
    (l.filter p).length + (l.filter (fun seq => ! p seq)).length = l.length := by
  induction l with
  | nil => rfl
  | cons a r ih =>
    by_cases hk : p a = true
    · rw [List.filter_cons_of_pos hk, List.filter_cons_of_neg (by simp [hk])]
      simp only [List.length_cons]
      omega
    · rw [List.filter_cons_of_neg hk, List.filter_cons_of_pos (by simp [hk])]
      simp only [List.length_cons]
      omega

/-- C16: single end run, functional result.  For every input of `N` records,
with a sink that never fails and the quality check disabled or no sampled
record rejected by it, the run ends with status Success, `n_reads_in = N`,
`n_reads_out` is the number of records for which `calc_trim_pos` returns an
interval, and output 1 holds, in input order, the texts
`sprintf_fastq(record, interval)` of exactly those records (nothing goes to
output 2); so every discarded record counts in `n_reads_in` and not in
`n_reads_out`. -/
theorem main_single_end_result (rates : samplerates) (gzprintf : gzFile → List Int → Int)
    (args : args_t) (infq1 : List kseq_t) (hsink : gzprintf_never_fails gzprintf)
    (hqual : args.no_qual_check ≠ 0 ∨
      ∀ (i : Nat) (seq : kseq_t), infq1[i]? = some seq →
        1 = (i + 1) % rates.QUAL_CHECK_SAMPLERATE →
        qual_range_is_valid seq args.phredoffset ≠ 0) :
    (main rates gzprintf args infq1 none).1 = EXIT_SUCCESS ∧
    (main rates gzprintf args infq1 none).2.n_reads_in = infq1.length ∧
    (main rates gzprintf args infq1 none).2.n_reads_out
      = (infq1.filter (main_keeps args)).length ∧
    (main rates gzprintf args infq1 none).2.fp_outfq1.written
      = (infq1.filter (main_keeps args)).map (main_text args) ∧
    (main rates gzprintf args infq1 none).2.fp_outfq2.written = [] ∧
    (main rates gzprintf args infq1 none).2.n_reads_in
      = (main rates gzprintf args infq1 none).2.n_reads_out
        + (infq1.filter (fun seq => ! main_keeps args seq)).length := by
  have hq : ∀ (i : Nat) (seq : kseq_t), infq1[i]? = some seq →
      ¬ main_qual_abort rates args seq (0 + i + 1) := by
    intro i seq hi hab
    obtain ⟨⟨h1, h2⟩, h3⟩ := hab
    rcases hqual with h | h
    · exact h h1
    · exact h i seq hi (by rw [Nat.zero_add] at h2; exact h2) h3
  have key := main_loop_single rates gzprintf args hsink infq1 ⟨0, 0, 0, ⟨1, []⟩, ⟨2, []⟩⟩ hq
  have hcount := filter_length_add_filter_not (main_keeps args) infq1
  unfold main
  rw [key]
  simp only [Nat.zero_add, List.nil_append, true_and]
  omega

theorem main_single_end_result_witness :
    (main default_samplerates gzprintf_ok ⟨39, 39, 33, 6, 0, 0⟩
      [test_read_acgt, test_read_52, test_read_52] none).2.n_reads_out = 2 ∧
    ((main default_samplerates gzprintf_ok ⟨39, 39, 33, 6, 0, 0⟩
      [test_read_acgt, test_read_52, test_read_52] none).1 = EXIT_SUCCESS ∧
    (main default_samplerates gzprintf_ok ⟨39, 39, 33, 6, 0, 0⟩
      [test_read_acgt, test_read_52, test_read_52] none).2.n_reads_in
      = [test_read_acgt, test_read_52, test_read_52].length ∧
    (main default_samplerates gzprintf_ok ⟨39, 39, 33, 6, 0, 0⟩
      [test_read_acgt, test_read_52, test_read_52] none).2.n_reads_out
      = ([test_read_acgt, test_read_52, test_read_52].filter
          (main_keeps ⟨39, 39, 33, 6, 0, 0⟩)).length ∧
    (main default_samplerates gzprintf_ok ⟨39, 39, 33, 6, 0, 0⟩
      [test_read_acgt, test_read_52, test_read_52] none).2.fp_outfq1.written
      = ([test_read_acgt, test_read_52, test_read_52].filter
          (main_keeps ⟨39, 39, 33, 6, 0, 0⟩)).map (main_text ⟨39, 39, 33, 6, 0, 0⟩) ∧
    (main default_samplerates gzprintf_ok ⟨39, 39, 33, 6, 0, 0⟩
      [test_read_acgt, test_read_52, test_read_52] none).2.fp_outfq2.written = [] ∧
    (main default_samplerates gzprintf_ok ⟨39, 39, 33, 6, 0, 0⟩
      [test_read_acgt, test_read_52, test_read_52] none).2.n_reads_in
      = (main default_samplerates gzprintf_ok ⟨39, 39, 33, 6, 0, 0⟩
          [test_read_acgt, test_read_52, test_read_52] none).2.n_reads_out
        + ([test_read_acgt, test_read_52, test_read_52].filter
          (fun seq => ! main_keeps ⟨39, 39, 33, 6, 0, 0⟩ seq)).length) :=
  ⟨by decide,
   main_single_end_result default_samplerates gzprintf_ok ⟨39, 39, 33, 6, 0, 0⟩
     [test_read_acgt, test_read_52, test_read_52] gzprintf_ok_never_fails
     (Or.inr (fun i seq hi _ => by
        match i, hi with
        | 0, hi =>
          simp only [List.getElem?_cons_zero, Option.some.injEq] at hi
          subst hi
          decide
        | 1, hi =>
          simp only [List.getElem?_cons_succ, List.getElem?_cons_zero,
            Option.some.injEq] at hi
          subst hi
          decide
        | 2, hi =>
          simp only [List.getElem?_cons_succ, List.getElem?_cons_zero,
            Option.some.injEq] at hi
          subst hi
          decide
        | n + 3, hi => simp at hi))⟩

/-- Paired end mode: input files of different length end the loop with
`EXIT_FAILURE`. -/
theorem main_loop_unequal (rates : samplerates) (gzprintf : gzFile → List Int → Int)
    (args : args_t) (infq1 : List kseq_t) :
    ∀ (infq2 : List kseq_t) (st : main_state), infq1.length ≠ infq2.length →
    (main_loop rates gzprintf args infq1 (some infq2) st).1 = EXIT_FAILURE := by
  induction infq1 with
  | nil =>
    intro infq2 st hne
    cases infq2 with
    | nil => exact absurd rfl hne
    | cons b r2 => rw [main_loop_nil_cons]
  | cons a r1 ih =>
    intro infq2 st hne
    cases infq2 with
    | nil => rw [main_loop_cons_nil]
    | cons b r2 =>
      rw [main_loop_cons_cons]
      cases main_body rates gzprintf args a (some b) st.count_in with
      | next st1 =>
        exact ih r2 st1 (fun h => hne (by simp only [List.length_cons, h]))
      | free_and_exit st1 => rfl

/-- Paired end mode with a shorter second file: the run writes what the run
on the first file cut to the length of the second one writes. -/
theorem main_loop_truncate (rates : samplerates) (gzprintf : gzFile → List Int → Int)
    (args : args_t) (infq1 : List kseq_t) :
    ∀ (infq2 : List kseq_t) (st : main_state), infq2.length < infq1.length →
    (main_loop rates gzprintf args infq1 (some infq2) st).2.fp_outfq1 =
      (main_loop rates gzprintf args (infq1.take infq2.length) (some infq2) st).2.fp_outfq1 ∧
    (main_loop rates gzprintf args infq1 (some infq2) st).2.fp_outfq2 =
      (main_loop rates gzprintf args (infq1.take infq2.length) (some infq2) st).2.fp_outfq2 ∧
    (main_loop rates gzprintf args infq1 (some infq2) st).2.n_reads_out =
      (main_loop rates gzprintf args (infq1.take infq2.length) (some infq2) st).2.n_reads_out := by
  induction infq1 with
  | nil =>
    intro infq2 st hlt
    exact absurd hlt (Nat.not_lt_zero _)
  | cons a r1 ih =>
    intro infq2 st hlt
    cases infq2 with
    | nil =>
      rw [main_loop_cons_nil, List.length_nil, List.take_zero, main_loop_nil_nil]
      exact ⟨rfl, rfl, rfl⟩
    | cons b r2 =>
      rw [List.length_cons, List.take_succ_cons, main_loop_cons_cons, main_loop_cons_cons]
      cases main_body rates gzprintf args a (some b) st.count_in with
      | next st1 =>
        exact ih r2 st1 (by simpa using hlt)
      | free_and_exit st1 => exact ⟨rfl, rfl, rfl⟩

/-- C17: paired streams must have equal length.  In paired mode, if stream B
holds fewer or more records than stream A the run ends with status Failure,
so a run that reports Success has streams of equal length.  When B is
exhausted at pair index `k` (its length) while A still yields a record, the
outputs and `n_reads_out` are those of the run on the first `k` records of A:
every text written comes from a record of A at an index below `k`, or from a
record of B. -/
theorem main_paired_equal_length (rates : samplerates) (gzprintf : gzFile → List Int → Int)
    (args : args_t) (infq1 infq2 : List kseq_t) :
    (infq2.length < infq1.length ∨ infq1.length < infq2.length →
      (main rates gzprintf args infq1 (some infq2)).1 = EXIT_FAILURE) ∧
    ((main rates gzprintf args infq1 (some infq2)).1 = EXIT_SUCCESS →
      infq1.length = infq2.length) ∧
    (infq2.length < infq1.length →
      (main rates gzprintf args infq1 (some infq2)).2.fp_outfq1 =
        (main rates gzprintf args (infq1.take infq2.length) (some infq2)).2.fp_outfq1 ∧
      (main rates gzprintf args infq1 (some infq2)).2.fp_outfq2 =
        (main rates gzprintf args (infq1.take infq2.length) (some infq2)).2.fp_outfq2 ∧
      (main rates gzprintf args infq1 (some infq2)).2.n_reads_out =
        (main rates gzprintf args (infq1.take infq2.length) (some infq2)).2.n_reads_out ∧
      (∀ t ∈ (main rates gzprintf args infq1 (some infq2)).2.fp_outfq1.written,
        ∃ seq ∈ infq1.take infq2.length, main_emits args seq t) ∧
      (∀ t ∈ (main rates gzprintf args infq1 (some infq2)).2.fp_outfq2.written,
        ∃ seq ∈ infq2, main_emits args seq t)) := by
  have hfail : infq1.length ≠ infq2.length →
      (main rates gzprintf args infq1 (some infq2)).1 = EXIT_FAILURE := fun hne =>
    main_loop_unequal rates gzprintf args infq1 infq2 _ hne
  refine ⟨fun h => hfail (by omega), fun hs => ?_, fun hlt => ?_⟩
  · by_contra hne
    rw [hfail hne] at hs
    exact absurd hs (by decide)
  · have tr := main_loop_truncate rates gzprintf args infq1 infq2
      ⟨0, 0, 0, ⟨1, []⟩, ⟨2, []⟩⟩ hlt
    have inv := main_loop_inv
      (fun t => ∃ seq ∈ infq1.take infq2.length, main_emits args seq t)
      (fun t => ∃ seq ∈ infq2, main_emits args seq t)
      rates gzprintf args (infq1.take infq2.length) (some infq2)
      ⟨0, 0, 0, ⟨1, []⟩, ⟨2, []⟩⟩
      (fun t ht => by simp at ht) (fun t ht => by simp at ht)
      (fun seq hs t hem => ⟨seq, hs, hem⟩)
      (fun l2 hl seq hs t hem => by
        simp only [Option.some.injEq] at hl
        subst hl
        exact ⟨seq, hs, hem⟩)
    unfold main
    refine ⟨tr.1, tr.2.1, tr.2.2, ?_, ?_⟩
    · rw [tr.1]
      exact inv.1
    · rw [tr.2.1]
      exact inv.2

theorem main_paired_equal_length_witness :
    (main default_samplerates gzprintf_ok ⟨0, 0, 33, 1, 0, 0⟩
      [test_read_acgt, test_read_52] (some [test_read_acgt])).1 = EXIT_FAILURE ∧
    (main default_samplerates gzprintf_ok ⟨0, 0, 33, 1, 0, 0⟩
      [test_read_acgt] (some [test_read_acgt, test_read_52])).1 = EXIT_FAILURE ∧
    (main default_samplerates gzprintf_ok ⟨0, 0, 33, 1, 0, 0⟩
      [test_read_acgt, test_read_52] (some [test_read_acgt])).2.fp_outfq1.written
      = [main_text ⟨0, 0, 33, 1, 0, 0⟩ test_read_acgt] :=
  ⟨(main_paired_equal_length default_samplerates gzprintf_ok ⟨0, 0, 33, 1, 0, 0⟩
      [test_read_acgt, test_read_52] [test_read_acgt]).1 (Or.inl (by decide)),
   (main_paired_equal_length default_samplerates gzprintf_ok ⟨0, 0, 33, 1, 0, 0⟩
      [test_read_acgt] [test_read_acgt, test_read_52]).1 (Or.inr (by decide)),
   by decide⟩

/-- What one iteration of the loop does to the outputs in paired end mode: a
pair with a discarded mate is skipped or the run is left with nothing written;
a pair with both mates kept is written to both outputs and counted, or the run
is left with nothing or only the first mate written. -/
theorem main_body_paired_effect (rates : samplerates) (gzprintf : gzFile → List Int → Int)
    (args : args_t) (seq1 seq2 : kseq_t) (st : main_state) :
    (∃ st1, main_body rates gzprintf args seq1 (some seq2) st = main_step.next st1 ∧
      (main_keeps args seq1 && main_keeps args seq2) = false ∧
      st1.fp_outfq1.written = st.fp_outfq1.written ∧
      st1.fp_outfq2.written = st.fp_outfq2.written ∧ st1.n_reads_out = st.n_reads_out) ∨
    (∃ st1, main_body rates gzprintf args seq1 (some seq2) st = main_step.next st1 ∧
      (main_keeps args seq1 && main_keeps args seq2) = true ∧
      st1.fp_outfq1.written = st.fp_outfq1.written ++ [main_text args seq1] ∧
      st1.fp_outfq2.written = st.fp_outfq2.written ++ [main_text args seq2] ∧
      st1.n_reads_out = st.n_reads_out + 1) ∨
    (∃ st1, main_body rates gzprintf args seq1 (some seq2) st = main_step.free_and_exit st1 ∧
      st1.fp_outfq2.written = st.fp_outfq2.written ∧ st1.n_reads_out = st.n_reads_out ∧
      (st1.fp_outfq1.written = st.fp_outfq1.written ∨
        ((main_keeps args seq1 && main_keeps args seq2) = true ∧
          st1.fp_outfq1.written = st.fp_outfq1.written ++ [main_text args seq1]))) := by
  have emit : ∀ st2 : main_state, st2.fp_outfq1 = st.fp_outfq1 → st2.fp_outfq2 = st.fp_outfq2 →
      st2.n_reads_out = st.n_reads_out →
      (main_keeps args seq1 && main_keeps args seq2) = true →
      (∃ st1, main_emit gzprintf seq1
          (calc_trim_pos seq1 args.phredoffset (main_trim_args args)).2
          (some (seq2, (calc_trim_pos seq2 args.phredoffset (main_trim_args args)).2)) st2
            = main_step.next st1 ∧
        (main_keeps args seq1 && main_keeps args seq2) = true ∧
        st1.fp_outfq1.written = st.fp_outfq1.written ++ [main_text args seq1] ∧
        st1.fp_outfq2.written = st.fp_outfq2.written ++ [main_text args seq2] ∧
        st1.n_reads_out = st.n_reads_out + 1) ∨
      (∃ st1, main_emit gzprintf seq1
          (calc_trim_pos seq1 args.phredoffset (main_trim_args args)).2
          (some (seq2, (calc_trim_pos seq2 args.phredoffset (main_trim_args args)).2)) st2
            = main_step.free_and_exit st1 ∧
        st1.fp_outfq2.written = st.fp_outfq2.written ∧ st1.n_reads_out = st.n_reads_out ∧
        (st1.fp_outfq1.written = st.fp_outfq1.written ∨
          ((main_keeps args seq1 && main_keeps args seq2) = true ∧
            st1.fp_outfq1.written = st.fp_outfq1.written ++ [main_text args seq1]))) := by
    intro st2 e1 e2 e3 hK
    rcases main_emit_cases gzprintf seq1
        (calc_trim_pos seq1 args.phredoffset (main_trim_args args)).2
        (some (seq2, (calc_trim_pos seq2 args.phredoffset (main_trim_args args)).2)) st2 with
      h | ⟨h, _⟩ | ⟨s2, tp2, hs, h | h⟩
    · right
      exact ⟨st2, h, by rw [e2], e3, Or.inl (by rw [e1])⟩
    · simp at h
    · simp only [Option.some.injEq, Prod.mk.injEq] at hs
      obtain ⟨rfl, rfl⟩ := hs
      right
      refine ⟨_, h, ?_, ?_, Or.inr ⟨hK, ?_⟩⟩
      · show st2.fp_outfq2.written = _
        rw [e2]
      · exact e3
      · show st2.fp_outfq1.written ++ _ = _
        rw [e1]
        rfl
    · simp only [Option.some.injEq, Prod.mk.injEq] at hs
      obtain ⟨rfl, rfl⟩ := hs
      left
      refine ⟨_, h, hK, ?_, ?_, ?_⟩
      · show st2.fp_outfq1.written ++ _ = _
        rw [e1]
        rfl
      · show st2.fp_outfq2.written ++ _ = _
        rw [e2]
        rfl
      · show st2.n_reads_out + 1 = _
        rw [e3]
  rw [main_body_eq]
  by_cases hq : main_qual_abort rates args seq1 st.n_reads_in
  · rw [if_pos hq]
    exact Or.inr (Or.inr ⟨st, rfl, rfl, rfl, Or.inl rfl⟩)
  · rw [if_neg hq]
    by_cases h1 : main_keeps args seq1 = false
    · rw [if_pos h1]
      exact Or.inl ⟨st, rfl, by rw [h1]; rfl, rfl, rfl, rfl⟩
    · rw [if_neg h1]
      dsimp only
      by_cases h2 : main_keeps args seq2 = false
      · rw [if_pos h2]
        exact Or.inl ⟨st, rfl, by rw [h2, Bool.and_false], rfl, rfl, rfl⟩
      · rw [if_neg h2]
        have hK : (main_keeps args seq1 && main_keeps args seq2) = true := by
          simp only [Bool.not_eq_false] at h1 h2
          rw [h1, h2]
          rfl
        split_ifs
        · exact Or.inr (Or.inr ⟨st, rfl, rfl, rfl, Or.inl rfl⟩)
        · exact Or.inr (emit _ rfl rfl rfl hK)
        · exact Or.inr (emit _ rfl rfl rfl hK)
        · exact Or.inr (emit _ rfl rfl rfl hK)

theorem main_kept_pairs_cons (args : args_t) (a b : kseq_t) (r1 r2 : List kseq_t) :
    main_kept_pairs args (a :: r1) (b :: r2) =
      if (main_keeps args a && main_keeps args b) = true then
        (a, b) :: main_kept_pairs args r1 r2
      else main_kept_pairs args r1 r2 := by
  unfold main_kept_pairs
  rw [List.zip_cons_cons, List.filter_cons]

/-- Paired end mode: at the end of the loop output 1 holds the first mates of
the first `n` kept pairs and output 2 the second mates of the first `m` kept
pairs, `m` is `n` or `n - 1`, `n_reads_out` grew by `m`, and after
`EXIT_SUCCESS` both are the number of all kept pairs. -/
theorem main_loop_paired_outputs (rates : samplerates) (gzprintf : gzFile → List Int → Int)
    (args : args_t) (infq1 : List kseq_t) :
    ∀ (infq2 : List kseq_t) (st : main_state), ∃ n m : Nat,
      m ≤ n ∧ n ≤ m + 1 ∧ n ≤ (main_kept_pairs args infq1 infq2).length ∧
      (main_loop rates gzprintf args infq1 (some infq2) st).2.fp_outfq1.written =
        st.fp_outfq1.written ++
          ((main_kept_pairs args infq1 infq2).take n).map (fun p => main_text args p.1) ∧
      (main_loop rates gzprintf args infq1 (some infq2) st).2.fp_outfq2.written =
        st.fp_outfq2.written ++
          ((main_kept_pairs args infq1 infq2).take m).map (fun p => main_text args p.2) ∧
      (main_loop rates gzprintf args infq1 (some infq2) st).2.n_reads_out
        = st.n_reads_out + m ∧
      ((main_loop rates gzprintf args infq1 (some infq2) st).1 = EXIT_SUCCESS →
        n = (main_kept_pairs args infq1 infq2).length ∧
        m = (main_kept_pairs args infq1 infq2).length) := by
  have hfs : ¬ (EXIT_FAILURE = EXIT_SUCCESS) := by decide
  induction infq1 with
  | nil =>
    intro infq2 st
    have hk : main_kept_pairs args [] infq2 = [] := by
      unfold main_kept_pairs
      rw [List.zip_nil_left, List.filter_nil]
    rw [hk]
    refine ⟨0, 0, le_refl _, Nat.zero_le _, le_refl _, ?_, ?_, ?_, fun _ => ⟨rfl, rfl⟩⟩
    all_goals cases infq2 with
      | nil => rw [main_loop_nil_nil]; simp
      | cons b r2 => rw [main_loop_nil_cons]; simp
  | cons a r1 ih =>
    intro infq2 st
    cases infq2 with
    | nil =>
      have hk : main_kept_pairs args (a :: r1) [] = [] := by
        unfold main_kept_pairs
        rw [List.zip_nil_right, List.filter_nil]
      rw [hk, main_loop_cons_nil]
      exact ⟨0, 0, le_refl _, Nat.zero_le _, le_refl _, by simp [main_state.count_in],
        by simp [main_state.count_in], by simp [main_state.count_in],
        fun h => absurd h hfs⟩
    | cons b r2 =>
      rw [main_loop_cons_cons, main_kept_pairs_cons]
      rcases main_body_paired_effect rates gzprintf args a b st.count_in with
        ⟨st1, hb, hK, e1, e2, e3⟩ | ⟨st1, hb, hK, e1, e2, e3⟩ | ⟨st1, hb, e2, e3, e1⟩
      · rw [hb, if_neg (by rw [hK]; decide)]
        dsimp only
        obtain ⟨n, m, h1, h2, h3, h4, h5, h6, h7⟩ := ih r2 st1
        refine ⟨n, m, h1, h2, h3, ?_, ?_, ?_, h7⟩
        · rw [h4, e1]; rfl
        · rw [h5, e2]; rfl
        · rw [h6, e3]; rfl
      · rw [hb, if_pos hK]
        dsimp only
        obtain ⟨n, m, h1, h2, h3, h4, h5, h6, h7⟩ := ih r2 st1
        refine ⟨n + 1, m + 1, by omega, by omega, by simp only [List.length_cons]; omega,
          ?_, ?_, ?_, fun hs => ?_⟩
        · rw [h4, e1, List.take_succ_cons, List.map_cons, List.append_assoc]
          rfl
        · rw [h5, e2, List.take_succ_cons, List.map_cons, List.append_assoc]
          rfl
        · rw [h6, e3]
          show st.n_reads_out + 1 + m = st.n_reads_out + (m + 1)
          omega
        · have := h7 hs
          simp only [List.length_cons]
          omega
      · rw [hb]
        dsimp only
        rcases e1 with e1 | ⟨hK, e1⟩
        · refine ⟨0, 0, le_refl _, Nat.zero_le _, Nat.zero_le _, ?_, ?_, ?_,
            fun h => absurd h hfs⟩
          · rw [e1]; simp [main_state.count_in]
          · rw [e2]; simp [main_state.count_in]
          · rw [e3]; rfl
        · rw [if_pos hK]
          refine ⟨1, 0, Nat.zero_le _, le_refl _, by simp, ?_, ?_, ?_,
            fun h => absurd h hfs⟩
          · rw [e1]; simp [main_state.count_in]
          · rw [e2]; simp [main_state.count_in]
          · rw [e3]; rfl

/-- C18: mates are kept or discarded as a unit and the two outputs stay in
step.  In every paired run the outputs hold, in input order, only mates of
pairs for which `calc_trim_pos` returns an interval for both mates: output 1
the first mates of the first `n` such pairs, output 2 the second mates of the
first `m` of them, with `m = n` or `m = n - 1` and `n_reads_out = m`.  On every
run that ends with Success both outputs hold all those pairs, so they contain
the same number of records, that number is `n_reads_out`, and the `k`-th
records of the two outputs are the trimmed mates of the same input pair. -/
theorem main_paired_mates_in_step (rates : samplerates) (gzprintf : gzFile → List Int → Int)
    (args : args_t) (infq1 infq2 : List kseq_t) :
    (∃ n m : Nat, m ≤ n ∧ n ≤ m + 1 ∧
      (main rates gzprintf args infq1 (some infq2)).2.fp_outfq1.written =
        ((main_kept_pairs args infq1 infq2).take n).map (fun p => main_text args p.1) ∧
      (main rates gzprintf args infq1 (some infq2)).2.fp_outfq2.written =
        ((main_kept_pairs args infq1 infq2).take m).map (fun p => main_text args p.2) ∧
      (main rates gzprintf args infq1 (some infq2)).2.n_reads_out = m) ∧
    ((main rates gzprintf args infq1 (some infq2)).1 = EXIT_SUCCESS →
      (main rates gzprintf args infq1 (some infq2)).2.fp_outfq1.written =
        (main_kept_pairs args infq1 infq2).map (fun p => main_text args p.1) ∧
      (main rates gzprintf args infq1 (some infq2)).2.fp_outfq2.written =
        (main_kept_pairs args infq1 infq2).map (fun p => main_text args p.2) ∧
      (main rates gzprintf args infq1 (some infq2)).2.fp_outfq1.written.length =
        (main rates gzprintf args infq1 (some infq2)).2.fp_outfq2.written.length ∧
      (main rates gzprintf args infq1 (some infq2)).2.fp_outfq1.written.length =
        (main rates gzprintf args infq1 (some infq2)).2.n_reads_out) := by
  obtain ⟨n, m, h1, h2, h3, h4, h5, h6, h7⟩ :=
    main_loop_paired_outputs rates gzprintf args infq1 infq2 ⟨0, 0, 0, ⟨1, []⟩, ⟨2, []⟩⟩
  unfold main
  simp only [List.nil_append, Nat.zero_add] at h4 h5 h6
  refine ⟨⟨n, m, h1, h2, h4, h5, h6⟩, fun hs => ?_⟩
  obtain ⟨hn, hm⟩ := h7 hs
  rw [h4, h5, h6, hn, hm, List.take_length]
  simp only [List.length_map, and_self]

theorem main_paired_mates_in_step_witness :
    (main default_samplerates gzprintf_ok ⟨39, 39, 33, 6, 1, 1⟩
      [test_read_52, test_read_acgt, test_read_52]
      (some [test_read_52, test_read_52, test_read_acgt])).1 = EXIT_SUCCESS ∧
    (main default_samplerates gzprintf_ok ⟨39, 39, 33, 6, 1, 1⟩
      [test_read_52, test_read_acgt, test_read_52]
      (some [test_read_52, test_read_52, test_read_acgt])).2.n_reads_out = 1 ∧
    (main default_samplerates gzprintf_ok ⟨39, 39, 33, 6, 1, 1⟩
      [test_read_52, test_read_acgt, test_read_52]
      (some [test_read_52, test_read_52, test_read_acgt])).2.fp_outfq1.written =
        (main_kept_pairs ⟨39, 39, 33, 6, 1, 1⟩ [test_read_52, test_read_acgt, test_read_52]
          [test_read_52, test_read_52, test_read_acgt]).map
          (fun p => main_text ⟨39, 39, 33, 6, 1, 1⟩ p.1) :=
  ⟨by decide, by decide,
   ((main_paired_mates_in_step default_samplerates gzprintf_ok ⟨39, 39, 33, 6, 1, 1⟩
      [test_read_52, test_read_acgt, test_read_52]
      [test_read_52, test_read_52, test_read_acgt]).2 (by decide)).1⟩

/-! ## Lemmas on the order check of main -/

theorem main_loop_rc (rates : samplerates) (gzprintf : gzFile → List Int → Int)
    (args : args_t) (infq1 : List kseq_t) :
    ∀ (infq2 : Option (List kseq_t)) (st : main_state),
    (main_loop rates gzprintf args infq1 infq2 st).1 = EXIT_SUCCESS ∨
    (main_loop rates gzprintf args infq1 infq2 st).1 = EXIT_FAILURE := by
  induction infq1 with
  | nil =>
    intro infq2 st
    cases infq2 with
    | none => rw [main_loop_nil_none]; exact Or.inl rfl
    | some l2 =>
      cases l2 with
      | nil => rw [main_loop_nil_nil]; exact Or.inl rfl
      | cons b r2 => rw [main_loop_nil_cons]; exact Or.inr rfl
  | cons a r1 ih =>
    intro infq2 st
    cases infq2 with
    | none =>
      rw [main_loop_cons_none]
      cases main_body rates gzprintf args a none st.count_in with
      | next st1 => exact ih none st1
      | free_and_exit st1 => exact Or.inr rfl
    | some l2 =>
      cases l2 with
      | nil => rw [main_loop_cons_nil]; exact Or.inr rfl
      | cons b r2 =>
        rw [main_loop_cons_cons]
        cases main_body rates gzprintf args a (some b) st.count_in with
        | next st1 => exact ih (some r2) st1
        | free_and_exit st1 => exact Or.inr rfl

/-- The writes at the end of the loop body leave `n_reads_in` and
`read_order_warning_issued` as they are. -/
theorem main_emit_frame (gzprintf : gzFile → List Int → Int) (seq1 : kseq_t)
    (trim_pos_1 : trim_pos_t) (out2 : Option (kseq_t × trim_pos_t)) (st : main_state) :
    (main_emit gzprintf seq1 trim_pos_1 out2 st).state.n_reads_in = st.n_reads_in ∧
    (main_emit gzprintf seq1 trim_pos_1 out2 st).state.read_order_warning_issued
      = st.read_order_warning_issued := by
  rcases main_emit_cases gzprintf seq1 trim_pos_1 out2 st with
    h | ⟨_, h⟩ | ⟨s2, tp2, _, h | h⟩
  all_goals rw [h]; exact ⟨rfl, rfl⟩

/-- The loop body leaves `n_reads_in` as it is, and a raised
`read_order_warning_issued` stays raised. -/
theorem main_body_frame (rates : samplerates) (gzprintf : gzFile → List Int → Int)
    (args : args_t) (seq1 : kseq_t) (seq2 : Option kseq_t) (st : main_state) :
    (main_body rates gzprintf args seq1 seq2 st).state.n_reads_in = st.n_reads_in ∧
    (st.read_order_warning_issued ≠ 0 →
      (main_body rates gzprintf args seq1 seq2 st).state.read_order_warning_issued
        = st.read_order_warning_issued) := by
  have same : (main_step.next st).state.n_reads_in = st.n_reads_in ∧
      (st.read_order_warning_issued ≠ 0 →
        (main_step.next st).state.read_order_warning_issued
          = st.read_order_warning_issued) := ⟨rfl, fun _ => rfl⟩
  have same2 : (main_step.free_and_exit st).state.n_reads_in = st.n_reads_in ∧
      (st.read_order_warning_issued ≠ 0 →
        (main_step.free_and_exit st).state.read_order_warning_issued
          = st.read_order_warning_issued) := ⟨rfl, fun _ => rfl⟩
  have em : ∀ (tp1 : trim_pos_t) (o : Option (kseq_t × trim_pos_t)),
      (main_emit gzprintf seq1 tp1 o st).state.n_reads_in = st.n_reads_in ∧
      (st.read_order_warning_issued ≠ 0 →
        (main_emit gzprintf seq1 tp1 o st).state.read_order_warning_issued
          = st.read_order_warning_issued) := fun tp1 o =>
    ⟨(main_emit_frame gzprintf seq1 tp1 o st).1, fun _ => (main_emit_frame gzprintf seq1 tp1 o st).2⟩
  rw [main_body_eq]
  cases seq2 with
  | none =>
    dsimp only
    split_ifs
    · exact same2
    · exact same
    · exact em _ _
  | some s2 =>
    dsimp only
    split_ifs with c1 c2 c3 c4 c5 c6
    · exact same2
    · exact same
    · exact same
    · exact same2
    · refine ⟨(main_emit_frame gzprintf seq1 _ _ _).1, fun hw => absurd c4.2.1 hw⟩
    · exact em _ _
    · exact em _ _

/-- Once `read_order_warning_issued` is raised the loop body is the one of a
run without order check: `reads_are_paired` is not called. -/
theorem main_body_latched (rates : samplerates) (gzprintf : gzFile → List Int → Int)
    (args : args_t) (seq1 : kseq_t) (seq2 : Option kseq_t) (st : main_state)
    (hw : st.read_order_warning_issued ≠ 0) :
    main_body rates gzprintf args seq1 seq2 st =
      main_body rates gzprintf args.without_order_check seq1 seq2 st := by
  have ho1 : ¬ (args.no_order_check = 0 ∧ st.read_order_warning_issued = 0 ∧
      1 = st.n_reads_in % rates.PAIRED_ORDER_SAMPLERATE) := fun h => hw h.2.1
  have ho2 : ¬ (args.without_order_check.no_order_check = 0 ∧
      st.read_order_warning_issued = 0 ∧
      1 = st.n_reads_in % rates.PAIRED_ORDER_SAMPLERATE) := fun h => hw h.2.1
  rw [main_body_eq, main_body_eq]
  cases seq2 with
  | none => rfl
  | some s2 =>
    dsimp only
    rw [if_neg ho1, if_neg ho2]
    rfl

theorem main_loop_latched (rates : samplerates) (gzprintf : gzFile → List Int → Int)
    (args : args_t) (infq1 : List kseq_t) :
    ∀ (infq2 : Option (List kseq_t)) (st : main_state),
    st.read_order_warning_issued ≠ 0 →
    main_loop rates gzprintf args infq1 infq2 st =
      main_loop rates gzprintf args.without_order_check infq1 infq2 st := by
  induction infq1 with
  | nil =>
    intro infq2 st _
    cases infq2 with
    | none => rw [main_loop_nil_none, main_loop_nil_none]
    | some l2 =>
      cases l2 with
      | nil => rw [main_loop_nil_nil, main_loop_nil_nil]
      | cons b r2 => rw [main_loop_nil_cons, main_loop_nil_cons]
  | cons a r1 ih =>
    intro infq2 st hw
    cases infq2 with
    | none =>
      have hf := (main_body_frame rates gzprintf args a none st.count_in).2 hw
      rw [main_loop_cons_none, main_loop_cons_none,
        ← main_body_latched rates gzprintf args a none st.count_in hw]
      cases hb : main_body rates gzprintf args a none st.count_in with
      | next st1 =>
        rw [hb] at hf
        exact ih none st1 (by rw [show st1.read_order_warning_issued = _ from hf]; exact hw)
      | free_and_exit st1 => rfl
    | some l2 =>
      cases l2 with
      | nil => rw [main_loop_cons_nil, main_loop_cons_nil]
      | cons b r2 =>
        have hf := (main_body_frame rates gzprintf args a (some b) st.count_in).2 hw
        rw [main_loop_cons_cons, main_loop_cons_cons,
          ← main_body_latched rates gzprintf args a (some b) st.count_in hw]
        cases hb : main_body rates gzprintf args a (some b) st.count_in with
        | next st1 =>
          rw [hb] at hf
          exact ih (some r2) st1
            (by rw [show st1.read_order_warning_issued = _ from hf]; exact hw)
        | free_and_exit st1 => rfl

/-- A paired run over `p1 ++ r1` and `p2 ++ r2`, with `p1` and `p2` of the same
length: when the loop gets through the pairs of `p1, p2` it goes on with
`r1, r2` from the variables it has then, and otherwise it ends where the run
on `p1, p2` ends. -/
theorem main_loop_append (rates : samplerates) (gzprintf : gzFile → List Int → Int)
    (args : args_t) (p1 : List kseq_t) :
    ∀ (p2 r1 r2 : List kseq_t) (st : main_state), p1.length = p2.length →
    main_loop rates gzprintf args (p1 ++ r1) (some (p2 ++ r2)) st =
      if (main_loop rates gzprintf args p1 (some p2) st).1 = EXIT_SUCCESS then
        main_loop rates gzprintf args r1 (some r2)
          (main_loop rates gzprintf args p1 (some p2) st).2
      else main_loop rates gzprintf args p1 (some p2) st := by
  induction p1 with
  | nil =>
    intro p2 r1 r2 st hlen
    cases p2 with
    | nil =>
      rw [main_loop_nil_nil, if_pos rfl]
      rfl
    | cons b q2 => simp at hlen
  | cons a q1 ih =>
    intro p2 r1 r2 st hlen
    cases p2 with
    | nil => simp at hlen
    | cons b q2 =>
      rw [List.cons_append, List.cons_append, main_loop_cons_cons, main_loop_cons_cons]
      cases main_body rates gzprintf args a (some b) st.count_in with
      | next st1 =>
        exact ih q2 r1 r2 st1 (by simpa using hlen)
      | free_and_exit st1 =>
        dsimp only
        rw [if_neg (by decide)]

/-- A paired run that gets through all its pairs has counted each of them in
`n_reads_in`. -/
theorem main_loop_n_reads_in (rates : samplerates) (gzprintf : gzFile → List Int → Int)
    (args : args_t) (p1 : List kseq_t) :
    ∀ (p2 : List kseq_t) (st : main_state),
    (main_loop rates gzprintf args p1 (some p2) st).1 = EXIT_SUCCESS →
    (main_loop rates gzprintf args p1 (some p2) st).2.n_reads_in
      = st.n_reads_in + p1.length := by
  have hfs : ¬ (EXIT_FAILURE = EXIT_SUCCESS) := by decide
  induction p1 with
  | nil =>
    intro p2 st hs
    cases p2 with
    | nil => rw [main_loop_nil_nil]; rfl
    | cons b q2 =>
      rw [main_loop_nil_cons] at hs
      exact absurd hs hfs
  | cons a q1 ih =>
    intro p2 st hs
    cases p2 with
    | nil =>
      rw [main_loop_cons_nil] at hs
      exact absurd hs hfs
    | cons b q2 =>
      have hf := (main_body_frame rates gzprintf args a (some b) st.count_in).1
      rw [main_loop_cons_cons] at hs ⊢
      cases hb : main_body rates gzprintf args a (some b) st.count_in with
      | next st1 =>
        rw [hb] at hs hf
        dsimp only at hs ⊢
        rw [ih q2 st1 hs, show st1.n_reads_in = _ from hf]
        show st.n_reads_in + 1 + q1.length = st.n_reads_in + (q1.length + 1)
        omega
      | free_and_exit st1 =>
        rw [hb] at hs
        exact absurd hs hfs

/-! ## Theorems on the order check of main -/

/-- C19 as stated fails: with order checking enabled and no warning issued,
the first pair (a sampled position) is NotPaired, but its first mate is
discarded by `calc_trim_pos`; the order check is not reached and the run ends
with status Success. -/
theorem main_order_check_counterexample :
    (⟨24, 0, 33, 1, 0, 0⟩ : args_t).no_order_check = 0 ∧
    1 % default_samplerates.PAIRED_ORDER_SAMPLERATE = 1 ∧
    reads_are_paired mismatched_mate_1 mismatched_mate_2 = 0 ∧
    (main default_samplerates gzprintf_ok ⟨24, 0, 33, 1, 0, 0⟩
      [mismatched_mate_1] (some [mismatched_mate_2])).1 = EXIT_SUCCESS ∧
    (main default_samplerates gzprintf_ok ⟨24, 0, 33, 1, 0, 0⟩
      [mismatched_mate_1] (some [mismatched_mate_2])).1 ≠ EXIT_FAILURE := by
  decide

/-- C19 (amended): order sampling is fatal on a mismatch of a pair that
survives trimming.  In paired mode with order checking enabled, take the pair
after the pairs `p1, p2`, at the sampled position `i = len(p1) + 1` with
`i mod PAIRED_ORDER_SAMPLERATE = 1`, with no order warning issued so far (by
the run on `p1, p2`).  If `calc_trim_pos` returns an interval for both mates
and `reads_are_paired` returns NotPaired (0), the run ends with status Failure
and neither mate is written: the outputs and `n_reads_out` are those of the
run on `p1, p2`. -/
theorem main_order_mismatch_fatal (rates : samplerates) (gzprintf : gzFile → List Int → Int)
    (args : args_t) (p1 p2 r1 r2 : List kseq_t) (seq1 seq2 : kseq_t)
    (hlen : p1.length = p2.length)
    (hen : args.no_order_check = 0)
    (hwarn : (main rates gzprintf args p1 (some p2)).2.read_order_warning_issued = 0)
    (hsample : (p1.length + 1) % rates.PAIRED_ORDER_SAMPLERATE = 1)
    (hk1 : main_keeps args seq1 = true) (hk2 : main_keeps args seq2 = true)
    (hnp : reads_are_paired seq1 seq2 = 0) :
    (main rates gzprintf args (p1 ++ seq1 :: r1) (some (p2 ++ seq2 :: r2))).1
      = EXIT_FAILURE ∧
    (main rates gzprintf args (p1 ++ seq1 :: r1) (some (p2 ++ seq2 :: r2))).2.fp_outfq1
      = (main rates gzprintf args p1 (some p2)).2.fp_outfq1 ∧
    (main rates gzprintf args (p1 ++ seq1 :: r1) (some (p2 ++ seq2 :: r2))).2.fp_outfq2
      = (main rates gzprintf args p1 (some p2)).2.fp_outfq2 ∧
    (main rates gzprintf args (p1 ++ seq1 :: r1) (some (p2 ++ seq2 :: r2))).2.n_reads_out
      = (main rates gzprintf args p1 (some p2)).2.n_reads_out := by
  unfold main at hwarn ⊢
  rw [main_loop_append rates gzprintf args p1 p2 (seq1 :: r1) (seq2 :: r2) _ hlen]
  by_cases hs : (main_loop rates gzprintf args p1 (some p2)
      ⟨0, 0, 0, ⟨1, []⟩, ⟨2, []⟩⟩).1 = EXIT_SUCCESS
  · have hn := main_loop_n_reads_in rates gzprintf args p1 p2 _ hs
    rw [if_pos hs, main_loop_cons_cons, main_body_eq]
    by_cases hq : main_qual_abort rates args seq1
        (main_loop rates gzprintf args p1 (some p2)
          ⟨0, 0, 0, ⟨1, []⟩, ⟨2, []⟩⟩).2.count_in.n_reads_in
    · rw [if_pos hq]
      exact ⟨rfl, rfl, rfl, rfl⟩
    · have ho : args.no_order_check = 0 ∧
          (main_loop rates gzprintf args p1 (some p2)
            ⟨0, 0, 0, ⟨1, []⟩, ⟨2, []⟩⟩).2.count_in.read_order_warning_issued = 0 ∧
          1 = (main_loop rates gzprintf args p1 (some p2)
            ⟨0, 0, 0, ⟨1, []⟩, ⟨2, []⟩⟩).2.count_in.n_reads_in
              % rates.PAIRED_ORDER_SAMPLERATE := by
        refine ⟨hen, hwarn, ?_⟩
        show 1 = ((main_loop rates gzprintf args p1 (some p2)
          ⟨0, 0, 0, ⟨1, []⟩, ⟨2, []⟩⟩).2.n_reads_in + 1) % rates.PAIRED_ORDER_SAMPLERATE
        rw [hn, Nat.zero_add, hsample]
      rw [if_neg hq, if_neg (by rw [hk1]; decide)]
      dsimp only
      rw [if_neg (by rw [hk2]; decide), if_pos ho, if_pos hnp]
      exact ⟨rfl, rfl, rfl, rfl⟩
  · rw [if_neg hs]
    rcases main_loop_rc rates gzprintf args p1 (some p2) ⟨0, 0, 0, ⟨1, []⟩, ⟨2, []⟩⟩ with
      h | h
    · exact absurd h hs
    · exact ⟨h, rfl, rfl, rfl⟩

theorem main_order_mismatch_fatal_witness :
    (main default_samplerates gzprintf_ok ⟨0, 0, 33, 1, 0, 0⟩
      [mismatched_mate_1, test_read_acgt]
      (some [mismatched_mate_2, test_read_acgt])).2.fp_outfq1.written = [] ∧
    ((main default_samplerates gzprintf_ok ⟨0, 0, 33, 1, 0, 0⟩
      ([] ++ mismatched_mate_1 :: [test_read_acgt])
      (some ([] ++ mismatched_mate_2 :: [test_read_acgt]))).1 = EXIT_FAILURE ∧
    (main default_samplerates gzprintf_ok ⟨0, 0, 33, 1, 0, 0⟩
      ([] ++ mismatched_mate_1 :: [test_read_acgt])
      (some ([] ++ mismatched_mate_2 :: [test_read_acgt]))).2.fp_outfq1
      = (main default_samplerates gzprintf_ok ⟨0, 0, 33, 1, 0, 0⟩ [] (some [])).2.fp_outfq1 ∧
    (main default_samplerates gzprintf_ok ⟨0, 0, 33, 1, 0, 0⟩
      ([] ++ mismatched_mate_1 :: [test_read_acgt])
      (some ([] ++ mismatched_mate_2 :: [test_read_acgt]))).2.fp_outfq2
      = (main default_samplerates gzprintf_ok ⟨0, 0, 33, 1, 0, 0⟩ [] (some [])).2.fp_outfq2 ∧
    (main default_samplerates gzprintf_ok ⟨0, 0, 33, 1, 0, 0⟩
      ([] ++ mismatched_mate_1 :: [test_read_acgt])
      (some ([] ++ mismatched_mate_2 :: [test_read_acgt]))).2.n_reads_out
      = (main default_samplerates gzprintf_ok ⟨0, 0, 33, 1, 0, 0⟩ [] (some [])).2.n_reads_out) :=
  ⟨by decide,
   main_order_mismatch_fatal default_samplerates gzprintf_ok ⟨0, 0, 33, 1, 0, 0⟩
     [] [] [test_read_acgt] [test_read_acgt] mismatched_mate_1 mismatched_mate_2
     rfl rfl (by decide) (by decide) (by decide) (by decide) (by decide)⟩

/-- C20: the order warning latch is one shot.  In paired mode with order
checking enabled, let the pairs `p1, p2` be processed with no order warning
issued, and let the next pair, at a sampled position, be one the checker is
run on (it passes the quality sampling and `calc_trim_pos` keeps both mates)
and returns Indeterminate (-1) for.  Then the run does not abort there: the
pair goes to the two `gzprintf_fastq` calls with the warning raised, and the
rest of the run is the run with the order check switched off, so the checker
is never run again and a later sampled NotPaired pair is handled like any
other pair.  With a sink that never fails the pair is written to both outputs
and counted.  In general, from any point where the warning is raised the loop
is the loop of a run without order check. -/
theorem main_order_warning_latch (rates : samplerates) (gzprintf : gzFile → List Int → Int)
    (args : args_t) (p1 p2 r1 r2 : List kseq_t) (seq1 seq2 : kseq_t) (st : main_state)
    (hlen : p1.length = p2.length)
    (hpre : main rates gzprintf args p1 (some p2) = (EXIT_SUCCESS, st))
    (hen : args.no_order_check = 0)
    (hwarn : st.read_order_warning_issued = 0)
    (hsample : (p1.length + 1) % rates.PAIRED_ORDER_SAMPLERATE = 1)
    (hq : ¬ main_qual_abort rates args seq1 (p1.length + 1))
    (hk1 : main_keeps args seq1 = true) (hk2 : main_keeps args seq2 = true)
    (hind : reads_are_paired seq1 seq2 = -1) :
    (main rates gzprintf args (p1 ++ seq1 :: r1) (some (p2 ++ seq2 :: r2)) =
      match main_emit gzprintf seq1
          (calc_trim_pos seq1 args.phredoffset (main_trim_args args)).2
          (some (seq2, (calc_trim_pos seq2 args.phredoffset (main_trim_args args)).2))
          st.count_in.warn with
      | main_step.next st1 =>
        main_loop rates gzprintf args.without_order_check r1 (some r2) st1
      | main_step.free_and_exit st1 => (EXIT_FAILURE, st1)) ∧
    (gzprintf_never_fails gzprintf →
      main rates gzprintf args (p1 ++ seq1 :: r1) (some (p2 ++ seq2 :: r2)) =
        main_loop rates gzprintf args.without_order_check r1 (some r2)
          (((st.count_in.warn.write1 (main_text args seq1)).write2
            (main_text args seq2)).count_out)) ∧
    (∀ (l1 : List kseq_t) (l2 : Option (List kseq_t)) (st1 : main_state),
      st1.read_order_warning_issued ≠ 0 →
      main_loop rates gzprintf args l1 l2 st1 =
        main_loop rates gzprintf args.without_order_check l1 l2 st1) := by
  have hpre2 : main_loop rates gzprintf args p1 (some p2) ⟨0, 0, 0, ⟨1, []⟩, ⟨2, []⟩⟩
      = (EXIT_SUCCESS, st) := hpre
  have hn : st.n_reads_in = p1.length := by
    have := main_loop_n_reads_in rates gzprintf args p1 p2 ⟨0, 0, 0, ⟨1, []⟩, ⟨2, []⟩⟩
      (by rw [hpre2])
    rw [hpre2] at this
    simpa using this
  have hq2 : ¬ main_qual_abort rates args seq1 st.count_in.n_reads_in := by
    show ¬ main_qual_abort rates args seq1 (st.n_reads_in + 1)
    rw [hn]
    exact hq
  have ho : args.no_order_check = 0 ∧ st.count_in.read_order_warning_issued = 0 ∧
      1 = st.count_in.n_reads_in % rates.PAIRED_ORDER_SAMPLERATE := by
    refine ⟨hen, hwarn, ?_⟩
    show 1 = (st.n_reads_in + 1) % rates.PAIRED_ORDER_SAMPLERATE
    rw [hn, hsample]
  have first : main rates gzprintf args (p1 ++ seq1 :: r1) (some (p2 ++ seq2 :: r2)) =
      match main_emit gzprintf seq1
          (calc_trim_pos seq1 args.phredoffset (main_trim_args args)).2
          (some (seq2, (calc_trim_pos seq2 args.phredoffset (main_trim_args args)).2))
          st.count_in.warn with
      | main_step.next st1 =>
        main_loop rates gzprintf args.without_order_check r1 (some r2) st1
      | main_step.free_and_exit st1 => (EXIT_FAILURE, st1) := by
    have hfr := (main_emit_frame gzprintf seq1
      (calc_trim_pos seq1 args.phredoffset (main_trim_args args)).2
      (some (seq2, (calc_trim_pos seq2 args.phredoffset (main_trim_args args)).2))
      st.count_in.warn).2
    unfold main
    rw [main_loop_append rates gzprintf args p1 p2 (seq1 :: r1) (seq2 :: r2) _ hlen, hpre2]
    dsimp only
    rw [if_pos rfl, main_loop_cons_cons, main_body_eq, if_neg hq2,
      if_neg (by rw [hk1]; decide)]
    dsimp only
    rw [if_neg (by rw [hk2]; decide), if_pos ho, if_neg (by rw [hind]; decide), if_pos hind]
    show (match main_emit gzprintf seq1
          (calc_trim_pos seq1 args.phredoffset (main_trim_args args)).2
          (some (seq2, (calc_trim_pos seq2 args.phredoffset (main_trim_args args)).2))
          st.count_in.warn with
      | main_step.next st1 => main_loop rates gzprintf args r1 (some r2) st1
      | main_step.free_and_exit st1 => (EXIT_FAILURE, st1)) = _
    cases hb : main_emit gzprintf seq1
        (calc_trim_pos seq1 args.phredoffset (main_trim_args args)).2
        (some (seq2, (calc_trim_pos seq2 args.phredoffset (main_trim_args args)).2))
        st.count_in.warn with
    | next st1 =>
      rw [hb] at hfr
      dsimp only
      refine main_loop_latched rates gzprintf args r1 (some r2) st1 ?_
      rw [show st1.read_order_warning_issued = _ from hfr]
      show (1 : Int) ≠ 0
      decide
    | free_and_exit st1 => rfl
  refine ⟨first, fun hsink => ?_, fun l1 l2 st1 hw =>
    main_loop_latched rates gzprintf args l1 l2 st1 hw⟩
  have he := main_emit_of_keep gzprintf hsink args seq1 (some seq2) st.count_in.warn
    ((main_keeps_iff args seq1).mp hk1)
    (fun s2 hs => by
      simp only [Option.some.injEq] at hs
      subst hs
      exact (main_keeps_iff args seq2).mp hk2)
  simp only [Option.map_some'] at he
  rw [first, he]

theorem main_order_warning_latch_witness :
    reads_are_paired unclear_mate_1 unclear_mate_2 = -1 ∧
    reads_are_paired mismatched_mate_1 mismatched_mate_2 = 0 ∧
    3 % (⟨1000, 2⟩ : samplerates).PAIRED_ORDER_SAMPLERATE = 1 ∧
    (main ⟨1000, 2⟩ gzprintf_ok ⟨0, 0, 33, 1, 0, 0⟩
      [unclear_mate_1, test_read_acgt, mismatched_mate_1]
      (some [unclear_mate_2, test_read_acgt, mismatched_mate_2])).1 = EXIT_SUCCESS ∧
    (main ⟨1000, 2⟩ gzprintf_ok ⟨0, 0, 33, 1, 0, 0⟩
      [unclear_mate_1, test_read_acgt, mismatched_mate_1]
      (some [unclear_mate_2, test_read_acgt, mismatched_mate_2])).2.n_reads_out = 3 ∧
    (main ⟨1000, 2⟩ gzprintf_ok ⟨0, 0, 33, 1, 0, 0⟩
      [test_read_acgt, test_read_acgt, mismatched_mate_1]
      (some [test_read_acgt, test_read_acgt, mismatched_mate_2])).1 = EXIT_FAILURE ∧
    main ⟨1000, 2⟩ gzprintf_ok ⟨0, 0, 33, 1, 0, 0⟩
      ([] ++ unclear_mate_1 :: [test_read_acgt, mismatched_mate_1])
      (some ([] ++ unclear_mate_2 :: [test_read_acgt, mismatched_mate_2])) =
        main_loop ⟨1000, 2⟩ gzprintf_ok (⟨0, 0, 33, 1, 0, 0⟩ : args_t).without_order_check
          [test_read_acgt, mismatched_mate_1] (some [test_read_acgt, mismatched_mate_2])
          ((((⟨0, 0, 0, ⟨1, []⟩, ⟨2, []⟩⟩ : main_state).count_in.warn.write1
            (main_text ⟨0, 0, 33, 1, 0, 0⟩ unclear_mate_1)).write2
            (main_text ⟨0, 0, 33, 1, 0, 0⟩ unclear_mate_2)).count_out) :=
  ⟨by decide, by decide, by decide, by decide, by decide, by decide,
   (main_order_warning_latch ⟨1000, 2⟩ gzprintf_ok ⟨0, 0, 33, 1, 0, 0⟩ [] []
      [test_read_acgt, mismatched_mate_1] [test_read_acgt, mismatched_mate_2]
      unclear_mate_1 unclear_mate_2 ⟨0, 0, 0, ⟨1, []⟩, ⟨2, []⟩⟩
      rfl rfl rfl rfl (by decide) (by decide) (by decide) (by decide) (by decide)).2.1
     gzprintf_ok_never_fails⟩

/-! ## Further theorems on calc_trim_pos -/

/-- C26: `minReadLen` decides only whether a read is kept, never where it is
cut: for every record, offset and thresholds and every `m1 <= m2`, if
`calc_trim_pos` with `minReadLen = m2` returns an interval then
`calc_trim_pos` with `minReadLen = m1` returns the same interval. -/
theorem calc_trim_pos_minreadlen_mono (seq : kseq_t) (off min5 min3 m1 m2 : Int)
    (hm : m1 ≤ m2) (h : (calc_trim_pos seq off ⟨min5, min3, m2⟩).1 = 0) :
    calc_trim_pos seq off ⟨min5, min3, m1⟩ = calc_trim_pos seq off ⟨min5, min3, m2⟩ := by
  obtain ⟨a, b, e, hab, hb, hlen, k5, z5, k3, z3⟩ :=
    calc_trim_pos_keep seq off ⟨min5, min3, m2⟩ h
  have hlen1 : max m1 1 ≤ (b : Int) - (a : Int) + 1 :=
    le_trans (max_le_max hm (le_refl 1)) hlen
  obtain ⟨h1, h5, h3⟩ := calc_trim_pos_of_interval seq off ⟨min5, min3, m1⟩ a b hab hb hlen1
    (fun hpos => (k5 hpos).1) (fun hpos => (k3 hpos).1)
  obtain ⟨a1, b1, e1, _, hb1, _, k51, z51, k31, z31⟩ :=
    calc_trim_pos_keep seq off ⟨min5, min3, m1⟩ h1
  rw [e1] at h5 h3
  simp only at h5 h3 k5 z5 k3 z3 k51 z51 k31 z31
  have ha : a1 = a := by
    by_cases hpos : 0 < min5
    · by_contra hne
      have hlt : a1 < a := by omega
      have := (k5 hpos).2 a1 hlt
      have := (k51 hpos).1
      omega
    · rw [z5 (by omega), z51 (by omega)]
  have hbb : b1 = b := by
    by_cases hpos : 0 < min3
    · by_contra hne
      have hlt : b < b1 := by omega
      have := (k3 hpos).2 b1 hlt hb1
      have := (k31 hpos).1
      omega
    · have := z3 (by omega)
      have := z31 (by omega)
      omega
  refine Prod.ext (by rw [h1, h]) ?_
  rw [e1, e, ha, hbb]

theorem calc_trim_pos_minreadlen_mono_witness :
    (6 : Int) ≤ 7 ∧ (1 : Int) ≤ 6 ∧
    (calc_trim_pos test_read_52 33 ⟨39, 39, 6⟩).1 = 0 ∧
    (calc_trim_pos test_read_52 33 ⟨39, 39, 7⟩).1 = -1 ∧
    calc_trim_pos test_read_52 33 ⟨39, 39, 1⟩ = calc_trim_pos test_read_52 33 ⟨39, 39, 6⟩ :=
  ⟨by decide, by decide, by decide, by decide,
   calc_trim_pos_minreadlen_mono test_read_52 33 39 39 1 6 (by decide) (by decide)⟩

/-- A record without quality bytes is discarded by `calc_trim_pos`. -/
theorem calc_trim_pos_no_qual (seq : kseq_t) (off : Int) (ta : trim_args_t)
    (h : seq.qual.l = 0) : (calc_trim_pos seq off ta).1 = -1 := by
  rcases calc_trim_pos_rc seq off ta with h0 | h1
  · obtain ⟨a, b, _, _, hb, _⟩ := calc_trim_pos_keep seq off ta h0
    omega
  · exact h1

/-- C27: the formatter never rejects an interval produced by the trim
calculator.  For every record with `len(sequence) = len(quality)` and every
policy, if `calc_trim_pos` returns an interval then the quality string is
non-empty, both bounds are `>= 0`, `pos3p + 1 <= len(quality)` (and so
`<= len(sequence)`), and `sprintf_fastq` on that record and interval returns a
positive length, not an error.  Conversely a record with an empty quality
string is always discarded by `calc_trim_pos`, is not kept by `main` and
leaves the variables and outputs of `main` as they are. -/
theorem sprintf_fastq_accepts_calc_trim_pos (seq : kseq_t) (off : Int) (ta : trim_args_t) :
    (seq.seq.l = seq.qual.l → (calc_trim_pos seq off ta).1 = 0 →
      seq.qual.l ≠ 0 ∧
      0 ≤ (calc_trim_pos seq off ta).2.pos5p ∧ 0 ≤ (calc_trim_pos seq off ta).2.pos3p ∧
      (calc_trim_pos seq off ta).2.pos3p + 1 ≤ (seq.qual.l : Int) ∧
      (calc_trim_pos seq off ta).2.pos3p + 1 ≤ (seq.seq.l : Int) ∧
      0 < (sprintf_fastq seq (some (calc_trim_pos seq off ta).2)).ret) ∧
    (seq.qual.l = 0 → (calc_trim_pos seq off ta).1 = -1) ∧
    (seq.qual.l = 0 → ∀ (rates : samplerates) (gzprintf : gzFile → List Int → Int)
      (args : args_t) (seq2 : Option kseq_t) (st : main_state),
      main_keeps args seq = false ∧
      (main_body rates gzprintf args seq seq2 st).state = st) := by
  refine ⟨fun hl h => ?_, calc_trim_pos_no_qual seq off ta, fun h0 rates gzprintf args seq2 st => ?_⟩
  · obtain ⟨a, b, e, hab, hb, _⟩ := calc_trim_pos_keep seq off ta h
    have hret := (sprintf_fastq_of_keep seq off ta h).1
    rw [e] at hret ⊢
    refine ⟨by omega, by simp, by simp, ?_, ?_, hret⟩
    · show (b : Int) + 1 ≤ (seq.qual.l : Int)
      omega
    · show (b : Int) + 1 ≤ (seq.seq.l : Int)
      omega
  · have hk : main_keeps args seq = false := by
      rw [← Bool.not_eq_true, main_keeps_iff,
        calc_trim_pos_no_qual seq args.phredoffset (main_trim_args args) h0]
      decide
    refine ⟨hk, ?_⟩
    rw [main_body_eq]
    by_cases hq : main_qual_abort rates args seq st.n_reads_in
    · rw [if_pos hq]
      rfl
    · rw [if_neg hq, if_pos hk]
      rfl

theorem sprintf_fastq_accepts_calc_trim_pos_witness :
    (test_read_52.seq.l = test_read_52.qual.l ∧
      (calc_trim_pos test_read_52 33 ⟨39, 39, 6⟩).1 = 0) ∧
    (test_read_52.qual.l ≠ 0 ∧
      0 ≤ (calc_trim_pos test_read_52 33 ⟨39, 39, 6⟩).2.pos5p ∧
      0 ≤ (calc_trim_pos test_read_52 33 ⟨39, 39, 6⟩).2.pos3p ∧
      (calc_trim_pos test_read_52 33 ⟨39, 39, 6⟩).2.pos3p + 1 ≤ (test_read_52.qual.l : Int) ∧
      (calc_trim_pos test_read_52 33 ⟨39, 39, 6⟩).2.pos3p + 1 ≤ (test_read_52.seq.l : Int) ∧
      0 < (sprintf_fastq test_read_52
        (some (calc_trim_pos test_read_52 33 ⟨39, 39, 6⟩).2)).ret) ∧
    (calc_trim_pos read_no_qual 33 ⟨0, 0, 1⟩).1 = -1 :=
  ⟨⟨by decide, by decide⟩,
   (sprintf_fastq_accepts_calc_trim_pos test_read_52 33 ⟨39, 39, 6⟩).1 (by decide) (by decide),
   (sprintf_fastq_accepts_calc_trim_pos read_no_qual 33 ⟨0, 0, 1⟩).2.1 (by decide)⟩

/-! ## Further theorems on qual_range_is_valid -/

/-- When `qual_range_is_valid` returns 1 and that it returns 0 otherwise. -/
theorem qual_range_is_valid_eq_one (seq : kseq_t) (off : Int) :
    (qual_range_is_valid seq off = 1 ↔
      (seq.qual.l ≠ 0 ∧ ∀ i : Nat, i < seq.qual.l →
        0 ≤ seq.qual.s.getD i 0 - off ∧ seq.qual.s.getD i 0 - off ≤ 93)) ∧
    (qual_range_is_valid seq off ≠ 1 → qual_range_is_valid seq off = 0) := by
  have key := qual_range_is_valid_loop_spec seq off (seq.qual.l + 1) 0 (Nat.zero_le _)
    (le_refl _)
  unfold qual_range_is_valid
  rcases key with ⟨e, j, _, hj2, hj3⟩ | ⟨e, hall⟩
  · rw [e]
    exact ⟨⟨fun h => by simp at h, fun ⟨_, h⟩ => absurd (h j hj2) hj3⟩, fun _ => rfl⟩
  · rw [e]
    dsimp only
    by_cases hl : seq.qual.l = 0
    · have h0 : (0 : Nat) = seq.qual.l := hl.symm
      rw [if_pos h0]
      exact ⟨⟨fun h => by simp at h, fun ⟨h, _⟩ => absurd hl h⟩, fun _ => rfl⟩
    · have h0 : ¬ ((0 : Nat) = seq.qual.l) := fun h => hl h.symm
      rw [if_neg h0]
      exact ⟨⟨fun _ => ⟨hl, fun i hi => hall i (Nat.zero_le i) hi⟩, fun _ => rfl⟩,
        fun h => absurd rfl h⟩

/-- C28: the quality range check cannot detect +64 data read with offset 33
when the bytes are printable: a record whose quality bytes all lie in 33..126
and which `qual_range_is_valid` accepts under offset 64 is also accepted under
offset 33; whereas a record accepted under offset 33 that contains a byte
below 64 is rejected under offset 64. -/
theorem qual_range_is_valid_offsets (seq : kseq_t) :
    ((∀ i : Nat, i < seq.qual.l →
        33 ≤ seq.qual.s.getD i 0 ∧ seq.qual.s.getD i 0 ≤ 126) →
      qual_range_is_valid seq 64 = 1 → qual_range_is_valid seq 33 = 1) ∧
    (qual_range_is_valid seq 33 = 1 →
      (∃ i : Nat, i < seq.qual.l ∧ seq.qual.s.getD i 0 < 64) →
      qual_range_is_valid seq 64 = 0) := by
  refine ⟨fun hb h64 => ?_, fun _ ⟨i, hi, hlt⟩ => ?_⟩
  · have hne := ((qual_range_is_valid_eq_one seq 64).1.mp h64).1
    refine (qual_range_is_valid_eq_one seq 33).1.mpr ⟨hne, fun i hi => ?_⟩
    have := hb i hi
    omega
  · refine (qual_range_is_valid_eq_one seq 64).2 (fun h64 => ?_)
    have := (((qual_range_is_valid_eq_one seq 64).1.mp h64).2 i hi).1
    omega

theorem qual_range_is_valid_offsets_witness :
    (qual_range_is_valid test_read_phred64 64 = 1 ∧
      qual_range_is_valid test_read_phred64 33 = 1) ∧
    (qual_range_is_valid test_read_acgt 33 = 1 ∧ qual_range_is_valid test_read_acgt 64 = 0) :=
  ⟨⟨by decide,
    (qual_range_is_valid_offsets test_read_phred64).1 (by decide) (by decide)⟩,
   ⟨by decide,
    (qual_range_is_valid_offsets test_read_acgt).2 (by decide) ⟨0, by decide, by decide⟩⟩⟩

/-! ## The final test of calc_trim_pos -/

/-- How `calc_trim_pos` goes on from the positions of its two scans: the final
test decides between -1 and 0 and the positions stay. -/
theorem calc_trim_pos_of_scans (seq : kseq_t) (off : Int) (ta : trim_args_t) :
    (calc_trim_pos_scans seq off ta = none → (calc_trim_pos seq off ta).1 = -1) ∧
    (∀ tp : trim_pos_t, calc_trim_pos_scans seq off ta = some tp →
      calc_trim_pos seq off ta =
        (if tp.pos3p - tp.pos5p + 1 < max ta.minreadlen 1 then -1 else 0, tp)) := by
  unfold calc_trim_pos calc_trim_pos_scans
  simp only [calc_trim_pos_clamp]
  generalize (if ta.min3pqual > 0 then
      calc_trim_pos_loop3p seq off ta.min3pqual (max ta.minreadlen 1) seq.qual.l
    else (seq.qual.l : Int) - 1) = p3
  generalize (if ta.min5pqual > 0 then
      calc_trim_pos_loop5p seq off ta.min5pqual (max ta.minreadlen 1) p3 (seq.qual.l + 1) 0
    else 0) = p5
  by_cases h1 : max ta.minreadlen 1 > (seq.qual.l : Int)
  · rw [if_pos h1, if_pos h1]
    exact ⟨fun _ => rfl, fun tp h => Option.noConfusion h⟩
  · rw [if_neg h1, if_neg h1]
    by_cases h3 : ta.min3pqual > 0 ∧ p3 = -1
    · rw [if_pos h3, if_pos h3]
      exact ⟨fun _ => rfl, fun tp h => Option.noConfusion h⟩
    · rw [if_neg h3, if_neg h3]
      by_cases h5 : ta.min5pqual > 0 ∧ p5 = -1
      · rw [if_pos h5, if_pos h5]
        exact ⟨fun _ => rfl, fun tp h => Option.noConfusion h⟩
      · rw [if_neg h5, if_neg h5]
        refine ⟨fun h => Option.noConfusion h, fun tp h => ?_⟩
        have e : (⟨p5, p3⟩ : trim_pos_t) = tp := Option.some.inj h
        rw [← e]
        by_cases hg : p3 - p5 + 1 < max ta.minreadlen 1
        · rw [if_pos hg, if_pos hg]
        · rw [if_neg hg, if_neg hg]

/-- What the two scans establish: indices `a <= b` of the quality string with
`b >= max minreadlen 1 - 1`, and `a <= len - max minreadlen 1` when the 5p end
was scanned; an end that was not scanned is the end of the read. -/
theorem calc_trim_pos_scans_spec (seq : kseq_t) (off : Int) (ta : trim_args_t)
    (tp : trim_pos_t) (h : calc_trim_pos_scans seq off ta = some tp) :
    ∃ a b : Nat, tp = ⟨(a : Int), (b : Int)⟩ ∧ a ≤ b ∧ b < seq.qual.l ∧
      max ta.minreadlen 1 - 1 ≤ (b : Int) ∧
      (0 < ta.min5pqual → (a : Int) + max ta.minreadlen 1 ≤ (seq.qual.l : Int)) ∧
      (ta.min5pqual ≤ 0 → a = 0) ∧ (ta.min3pqual ≤ 0 → b + 1 = seq.qual.l) := by
  have hm1 : (1 : Int) ≤ max ta.minreadlen 1 := le_max_right _ _
  unfold calc_trim_pos_scans at h
  simp only [calc_trim_pos_clamp] at h
  generalize max ta.minreadlen 1 = m at h hm1 ⊢
  by_cases hlen : m > (seq.qual.l : Int)
  · simp [hlen] at h
  · simp only [hlen, if_false] at h
    have key3 : ∃ b : Nat, (if ta.min3pqual > 0 then
          calc_trim_pos_loop3p seq off ta.min3pqual m seq.qual.l
        else (seq.qual.l : Int) - 1) = (b : Int) ∧ b < seq.qual.l ∧ m - 1 ≤ (b : Int) ∧
        (ta.min3pqual ≤ 0 → b + 1 = seq.qual.l) := by
      by_cases c3 : ta.min3pqual > 0
      · rcases calc_trim_pos_loop3p_spec seq off ta.min3pqual m seq.qual.l with
          ⟨e3, _⟩ | ⟨b, e3, hb1, hb2, _, _⟩
        · simp [c3, e3] at h
        · rw [if_pos c3]
          exact ⟨b, e3, hb2, hb1, fun hc => by omega⟩
      · rw [if_neg c3]
        exact ⟨seq.qual.l - 1, by omega, by omega, by omega, fun _ => by omega⟩
    obtain ⟨b, e3, hb2, hb1, hb3⟩ := key3
    rw [e3] at h
    have hb0 : ¬ (ta.min3pqual > 0 ∧ (b : Int) = -1) := by
      intro hc; omega
    simp only [hb0, if_false] at h
    have key5 : ∃ a : Nat, (if ta.min5pqual > 0 then
          calc_trim_pos_loop5p seq off ta.min5pqual m (b : Int) (seq.qual.l + 1) 0
        else 0) = (a : Int) ∧ a ≤ b ∧
        (0 < ta.min5pqual → (a : Int) + m ≤ (seq.qual.l : Int)) ∧
        (ta.min5pqual ≤ 0 → a = 0) := by
      by_cases c5 : ta.min5pqual > 0
      · rcases calc_trim_pos_loop5p_spec seq off ta.min5pqual m (b : Int) hm1
            (seq.qual.l + 1) 0 (by omega) with ⟨e5, _⟩ | ⟨a, e5, _, ha2, ha3, _, _⟩
        · simp [c5, e5] at h
        · rw [if_pos c5]
          exact ⟨a, e5, by omega, fun _ => by omega, fun hc => by omega⟩
      · rw [if_neg c5]
        exact ⟨0, rfl, Nat.zero_le b, fun hc => absurd hc c5, fun _ => rfl⟩
    obtain ⟨a, e5, ha1, ha2, ha3⟩ := key5
    rw [e5] at h
    have ha0 : ¬ (ta.min5pqual > 0 ∧ (a : Int) = -1) := by
      intro hc; omega
    simp only [ha0, if_false, Option.some.injEq] at h
    exact ⟨a, b, h.symm, ha1, hb2, hb1, ha2, ha3, hb3⟩

/-- C22 as stated fails: on the 52 base read of the self test, with thresholds
39/39 and `minReadLen = 7`, the 3p step and the 5p step produce the positions
28 and 23, `pos3p - pos5p + 1 = 6 < 7`, and it is the final test that discards
the read. -/
theorem calc_trim_pos_final_test_counterexample :
    calc_trim_pos_scans test_read_52 33 ⟨39, 39, 7⟩ = some ⟨23, 28⟩ ∧
    ¬ ((28 : Int) - 23 + 1 ≥ max 7 1) ∧
    calc_trim_pos test_read_52 33 ⟨39, 39, 7⟩ = (-1, ⟨23, 28⟩) := by
  decide

/-- C22 (amended): whenever the 3p step and the 5p step of `calc_trim_pos`
have both produced a position, `0 <= pos5p <= pos3p < len(quality)` already
holds, and `pos3p - pos5p + 1 >= max(minReadLen, 1)` already holds if
`min5pQual <= 0` or `min3pQual <= 0` or `minReadLen <= 1`; in those cases the
final test never discards.  In general the final test discards exactly when
`pos3p - pos5p + 1 < max(minReadLen, 1)`. -/
theorem calc_trim_pos_final_test (seq : kseq_t) (off : Int) (ta : trim_args_t)
    (tp : trim_pos_t) (h : calc_trim_pos_scans seq off ta = some tp) :
    (0 ≤ tp.pos5p ∧ tp.pos5p ≤ tp.pos3p ∧ tp.pos3p < (seq.qual.l : Int)) ∧
    ((ta.min5pqual ≤ 0 ∨ ta.min3pqual ≤ 0 ∨ ta.minreadlen ≤ 1) →
      tp.pos3p - tp.pos5p + 1 ≥ max ta.minreadlen 1 ∧ calc_trim_pos seq off ta = (0, tp)) ∧
    ((calc_trim_pos seq off ta).1 = -1 ↔ tp.pos3p - tp.pos5p + 1 < max ta.minreadlen 1) ∧
    (calc_trim_pos seq off ta).2 = tp := by
  obtain ⟨a, b, e, hab, hb, hb1, ha2, ha3, hb3⟩ := calc_trim_pos_scans_spec seq off ta tp h
  have hc := (calc_trim_pos_of_scans seq off ta).2 tp h
  have hlen : (ta.min5pqual ≤ 0 ∨ ta.min3pqual ≤ 0 ∨ ta.minreadlen ≤ 1) →
      tp.pos3p - tp.pos5p + 1 ≥ max ta.minreadlen 1 := by
    intro hcase
    rw [e]
    show (b : Int) - (a : Int) + 1 ≥ max ta.minreadlen 1
    rcases hcase with h5 | h3 | hm
    · have := ha3 h5
      omega
    · have := hb3 h3
      by_cases h5 : 0 < ta.min5pqual
      · have := ha2 h5
        omega
      · have := ha3 (by omega)
        omega
    · rw [max_eq_right hm]
      omega
  refine ⟨?_, fun hcase => ⟨hlen hcase, ?_⟩, ?_, ?_⟩
  · rw [e]
    exact ⟨by simp, by simp [hab], by simp [hb]⟩
  · rw [hc, if_neg (by have := hlen hcase; omega)]
  · rw [hc]
    by_cases hg : tp.pos3p - tp.pos5p + 1 < max ta.minreadlen 1
    · rw [if_pos hg]
      exact ⟨fun _ => hg, fun _ => rfl⟩
    · rw [if_neg hg]
      exact ⟨fun h0 => absurd h0 (show ¬ ((0 : Int) = -1) by decide), fun h0 => absurd h0 hg⟩
  · rw [hc]

theorem calc_trim_pos_final_test_witness :
    calc_trim_pos_scans test_read_52 33 ⟨39, 0, 7⟩ = some ⟨23, 51⟩ ∧
    (((0 : Int) ≤ 23 ∧ (23 : Int) ≤ 51 ∧ (51 : Int) < (test_read_52.qual.l : Int)) ∧
    (((39 : Int) ≤ 0 ∨ (0 : Int) ≤ 0 ∨ (7 : Int) ≤ 1) →
      (51 : Int) - 23 + 1 ≥ max 7 1 ∧
      calc_trim_pos test_read_52 33 ⟨39, 0, 7⟩ = (0, ⟨23, 51⟩)) ∧
    ((calc_trim_pos test_read_52 33 ⟨39, 0, 7⟩).1 = -1 ↔ (51 : Int) - 23 + 1 < max 7 1) ∧
    (calc_trim_pos test_read_52 33 ⟨39, 0, 7⟩).2 = ⟨23, 51⟩) :=
  ⟨by decide, calc_trim_pos_final_test test_read_52 33 ⟨39, 0, 7⟩ ⟨23, 51⟩ (by decide)⟩


/-! ## The scans of calc_trim_pos and the naive definition -/

theorem first_index_spec (p : Nat → Bool) (n : Nat) :
    (first_index p n = none ∧ ∀ j : Nat, j < n → p j = false) ∨
    (∃ a : Nat, first_index p n = some a ∧ a < n ∧ p a = true ∧
      ∀ j : Nat, j < a → p j = false) := by
  induction n with
  | zero => left; exact ⟨rfl, fun j hj => absurd hj (Nat.not_lt_zero j)⟩
  | succ n ih =>
    rcases ih with ⟨h1, h2⟩ | ⟨a, h1, h2, h3, h4⟩
    · by_cases hp : p n = true
      · right
        refine ⟨n, ?_, Nat.lt_succ_self n, hp, h2⟩
        rw [first_index, h1]
        dsimp only
        rw [if_pos hp]
      · left
        refine ⟨?_, fun j hj => ?_⟩
        · rw [first_index, h1]
          dsimp only
          rw [if_neg hp]
        · rcases Nat.lt_succ_iff_lt_or_eq.mp hj with hlt | heq
          · exact h2 j hlt
          · rw [heq]
            exact Bool.eq_false_iff.mpr hp
    · right
      refine ⟨a, ?_, Nat.lt_succ_of_lt h2, h3, h4⟩
      rw [first_index, h1]

theorem last_index_spec (p : Nat → Bool) (n : Nat) :
    (last_index p n = none ∧ ∀ j : Nat, j < n → p j = false) ∨
    (∃ b : Nat, last_index p n = some b ∧ b < n ∧ p b = true ∧
      ∀ j : Nat, b < j → j < n → p j = false) := by
  induction n with
  | zero => left; exact ⟨rfl, fun j hj => absurd hj (Nat.not_lt_zero j)⟩
  | succ n ih =>
    by_cases hp : p n = true
    · right
      refine ⟨n, ?_, Nat.lt_succ_self n, hp, fun j h1 h2 => ?_⟩
      · rw [last_index, if_pos hp]
      · omega
    · have hpf : p n = false := Bool.eq_false_iff.mpr hp
      rcases ih with ⟨h1, h2⟩ | ⟨b, h1, h2, h3, h4⟩
      · left
        refine ⟨?_, fun j hj => ?_⟩
        · rw [last_index, if_neg hp, h1]
        · rcases Nat.lt_succ_iff_lt_or_eq.mp hj with hlt | heq
          · exact h2 j hlt
          · rw [heq]; exact hpf
      · right
        refine ⟨b, ?_, Nat.lt_succ_of_lt h2, h3, fun j hj1 hj2 => ?_⟩
        · rw [last_index, if_neg hp, h1]
        · rcases Nat.lt_succ_iff_lt_or_eq.mp hj2 with hlt | heq
          · exact h4 j hj1 hlt
          · rw [heq]; exact hpf

/-- The naive 5p position: `0` for threshold `0`, and otherwise the smallest
index of the quality string that reaches the threshold. -/
theorem naive_pos5p_spec (seq : kseq_t) (off : Int) (ta : trim_args_t)
    (h5 : 0 ≤ ta.min5pqual) :
    (naive_pos5p seq off ta = none ∧ 0 < ta.min5pqual ∧
      ∀ j : Nat, j < seq.qual.l → decoded_qual seq off j < ta.min5pqual) ∨
    (∃ a : Nat, naive_pos5p seq off ta = some (a : Int) ∧
      (ta.min5pqual ≤ 0 → a = 0) ∧
      (0 < ta.min5pqual → a < seq.qual.l ∧ ta.min5pqual ≤ decoded_qual seq off a ∧
        ∀ j : Nat, j < a → decoded_qual seq off j < ta.min5pqual)) := by
  unfold naive_pos5p
  by_cases h0 : ta.min5pqual = 0
  · right
    refine ⟨0, ?_, fun _ => rfl, fun hpos => ?_⟩
    · rw [if_pos h0]; rfl
    · omega
  · rw [if_neg h0]
    have hpos : 0 < ta.min5pqual := by omega
    rcases first_index_spec (fun i => decide (decoded_qual seq off i ≥ ta.min5pqual))
        seq.qual.l with ⟨e, hall⟩ | ⟨a, e, ha, hp, hall⟩
    · left
      rw [e]
      refine ⟨rfl, hpos, fun j hj => ?_⟩
      have := hall j hj
      simp only [decide_eq_false_iff_not, ge_iff_le, not_le] at this
      exact this
    · right
      rw [e]
      refine ⟨a, rfl, fun hc => by omega, fun _ => ⟨ha, ?_, fun j hj => ?_⟩⟩
      · simp only [decide_eq_true_eq, ge_iff_le] at hp
        exact hp
      · have := hall j hj
        simp only [decide_eq_false_iff_not, ge_iff_le, not_le] at this
        exact this

/-- The naive 3p position: `len - 1` for threshold `0`, and otherwise the
largest index of the quality string that reaches the threshold. -/
theorem naive_pos3p_spec (seq : kseq_t) (off : Int) (ta : trim_args_t)
    (h3 : 0 ≤ ta.min3pqual) :
    (naive_pos3p seq off ta = none ∧ 0 < ta.min3pqual ∧
      ∀ j : Nat, j < seq.qual.l → decoded_qual seq off j < ta.min3pqual) ∨
    (∃ b : Int, naive_pos3p seq off ta = some b ∧ b < (seq.qual.l : Int) ∧
      (ta.min3pqual ≤ 0 → b + 1 = (seq.qual.l : Int)) ∧
      (0 < ta.min3pqual → 0 ≤ b ∧ ta.min3pqual ≤ decoded_qual seq off b.toNat ∧
        ∀ j : Nat, b < (j : Int) → j < seq.qual.l →
          decoded_qual seq off j < ta.min3pqual)) := by
  unfold naive_pos3p
  by_cases h0 : ta.min3pqual = 0
  · right
    refine ⟨(seq.qual.l : Int) - 1, ?_, by omega, fun _ => by omega, fun hpos => ?_⟩
    · rw [if_pos h0]
    · omega
  · rw [if_neg h0]
    have hpos : 0 < ta.min3pqual := by omega
    rcases last_index_spec (fun i => decide (decoded_qual seq off i ≥ ta.min3pqual))
        seq.qual.l with ⟨e, hall⟩ | ⟨b, e, hb, hp, hall⟩
    · left
      rw [e]
      refine ⟨rfl, hpos, fun j hj => ?_⟩
      have := hall j hj
      simp only [decide_eq_false_iff_not, ge_iff_le, not_le] at this
      exact this
    · right
      rw [e]
      refine ⟨(b : Int), rfl, by omega, fun hc => by omega,
        fun _ => ⟨by omega, ?_, fun j hj1 hj2 => ?_⟩⟩
      · simp only [decide_eq_true_eq, ge_iff_le] at hp
        simpa using hp
      · have := hall j (by omega) hj2
        simp only [decide_eq_false_iff_not, ge_iff_le, not_le] at this
        exact this

/-- C25: for thresholds `>= 0` (the trim policy's type) the bounded scans of
`calc_trim_pos` agree with the naive unbounded definition.  With `L` the
smallest index whose decoded quality is `>= min5pQual` (`0` for threshold `0`)
and `R` the largest index whose decoded quality is `>= min3pQual` (`len - 1`
for threshold `0`), `calc_trim_pos` keeps the read with the interval
`{pos5p = L, pos3p = R}` if both exist and `R - L + 1 >= max(minReadLen, 1)`,
and discards it otherwise; this holds for every record, in particular for
those with `len(quality) >= 1`. -/
theorem calc_trim_pos_eq_naive (seq : kseq_t) (off : Int) (ta : trim_args_t)
    (h5 : 0 ≤ ta.min5pqual) (h3 : 0 ≤ ta.min3pqual) :
    (∀ tp : trim_pos_t, calc_trim_pos_naive seq off ta = some tp →
      calc_trim_pos seq off ta = (0, tp)) ∧
    (calc_trim_pos_naive seq off ta = none → (calc_trim_pos seq off ta).1 = -1) := by
  have h01 : ¬ ((0 : Int) = -1) := by decide
  have key : ((calc_trim_pos seq off ta).1 = 0 ∧
        calc_trim_pos_naive seq off ta = some (calc_trim_pos seq off ta).2) ∨
      ((calc_trim_pos seq off ta).1 = -1 ∧ calc_trim_pos_naive seq off ta = none) := by
    rcases calc_trim_pos_rc seq off ta with hrc | hrc
    · left
      refine ⟨hrc, ?_⟩
      obtain ⟨a, b, e, hab, hb, hlen, k5, k50, k3, k30⟩ := calc_trim_pos_keep seq off ta hrc
      have eL : naive_pos5p seq off ta = some (a : Int) := by
        rcases naive_pos5p_spec seq off ta h5 with ⟨_, hpos, hall⟩ | ⟨a2, e2, z2, p2⟩
        · have := hall a (by omega)
          have := (k5 hpos).1
          omega
        · rw [e2]
          by_cases hpos : 0 < ta.min5pqual
          · obtain ⟨q1, q2⟩ := k5 hpos
            obtain ⟨r1, r2, r3⟩ := p2 hpos
            have : a2 = a := by
              rcases Nat.lt_trichotomy a2 a with hlt | heq | hgt
              · have := q2 a2 hlt; omega
              · exact heq
              · have := r3 a hgt; omega
            rw [this]
          · have := k50 (by omega)
            have := z2 (by omega)
            subst_vars
            rfl
      have eR : naive_pos3p seq off ta = some (b : Int) := by
        rcases naive_pos3p_spec seq off ta h3 with ⟨_, hpos, hall⟩ | ⟨b2, e2, hb2, z2, p2⟩
        · have := hall b hb
          have := (k3 hpos).1
          omega
        · rw [e2]
          by_cases hpos : 0 < ta.min3pqual
          · obtain ⟨q1, q2⟩ := k3 hpos
            obtain ⟨r0, r1, r2⟩ := p2 hpos
            have : b2 = (b : Int) := by
              rcases lt_trichotomy b2 (b : Int) with hlt | heq | hgt
              · have := r2 b hlt hb; omega
              · exact heq
              · have := q2 b2.toNat (by omega) (by omega); omega
            rw [this]
          · have := k30 (by omega)
            have := z2 (by omega)
            have : b2 = (b : Int) := by omega
            rw [this]
      unfold calc_trim_pos_naive
      rw [eL, eR, e]
      dsimp only
      rw [if_pos hlen]
    · right
      refine ⟨hrc, ?_⟩
      cases hn : calc_trim_pos_naive seq off ta with
      | none => rfl
      | some tp =>
        exfalso
        unfold calc_trim_pos_naive at hn
        rcases naive_pos5p_spec seq off ta h5 with ⟨e1, _, _⟩ | ⟨a, e1, z1, p1⟩
        · rw [e1] at hn
          exact Option.noConfusion hn
        · rcases naive_pos3p_spec seq off ta h3 with ⟨e2, _, _⟩ | ⟨b, e2, hb, z2, p2⟩
          · rw [e1, e2] at hn
            exact Option.noConfusion hn
          · rw [e1, e2] at hn
            dsimp only at hn
            by_cases hlen : b - (a : Int) + 1 ≥ max ta.minreadlen 1
            · have hm1 : (1 : Int) ≤ max ta.minreadlen 1 := le_max_right _ _
              have hb0 : 0 ≤ b := by omega
              obtain ⟨bn, hbn⟩ := Int.eq_ofNat_of_zero_le hb0
              subst hbn
              have hkeep := calc_trim_pos_of_interval seq off ta a bn (by omega) (by omega)
                hlen (fun hpos => (p1 hpos).2.1)
                (fun hpos => by have := (p2 hpos).2.1; simpa using this)
              rw [hkeep.1] at hrc
              exact h01 hrc
            · rw [if_neg hlen] at hn
              exact Option.noConfusion hn
  refine ⟨fun tp hn => ?_, fun hn => ?_⟩
  · rcases key with ⟨k1, k2⟩ | ⟨_, k2⟩
    · rw [k2] at hn
      have e : (calc_trim_pos seq off ta).2 = tp := Option.some.inj hn
      rw [← e, ← k1]
    · rw [k2] at hn
      exact Option.noConfusion hn
  · rcases key with ⟨_, k2⟩ | ⟨k1, _⟩
    · rw [k2] at hn
      exact Option.noConfusion hn
    · exact k1

theorem calc_trim_pos_eq_naive_witness :
    calc_trim_pos_naive test_read_52 33 ⟨39, 39, 6⟩ = some ⟨23, 28⟩ ∧
    calc_trim_pos_naive test_read_52 33 ⟨39, 39, 7⟩ = none ∧
    ((∀ tp : trim_pos_t, calc_trim_pos_naive test_read_52 33 ⟨39, 39, 6⟩ = some tp →
      calc_trim_pos test_read_52 33 ⟨39, 39, 6⟩ = (0, tp)) ∧
    (calc_trim_pos_naive test_read_52 33 ⟨39, 39, 6⟩ = none →
      (calc_trim_pos test_read_52 33 ⟨39, 39, 6⟩).1 = -1)) :=
  ⟨by decide, by decide,
    calc_trim_pos_eq_naive test_read_52 33 ⟨39, 39, 6⟩ (by decide) (by decide)⟩

/-! ## The input counter of main -/

/-- C24 as stated fails: stream A holds one record and stream B none.  The run
aborts because stream B is exhausted, no complete pair was read, and the input
counter is 1, not the number of records in stream B. -/
theorem main_reads_in_counterexample :
    (main default_samplerates gzprintf_ok ⟨0, 0, 33, 1, 0, 0⟩ [test_read_acgt]
      (some [])).1 = EXIT_FAILURE ∧
    (main default_samplerates gzprintf_ok ⟨0, 0, 33, 1, 0, 0⟩ [test_read_acgt]
      (some [])).2.n_reads_in = 1 ∧
    ¬ ((main default_samplerates gzprintf_ok ⟨0, 0, 33, 1, 0, 0⟩ [test_read_acgt]
      (some [])).2.n_reads_in = ([] : List kseq_t).length) := by
  decide

/-- C24 (amended): in paired mode `n_reads_in` is incremented right after
record A has been read and before the mate from stream B is read.  Hence when
a run aborts because stream B is exhausted while A produced a record (the run
over the pairs before it did not abort), the status is Failure, the outputs
and the output counter are those of the run over the complete pairs, and the
input counter is the number of records in stream B plus one. -/
theorem main_reads_in_premature_end (rates : samplerates)
    (gzprintf : gzFile → List Int → Int) (args : args_t) (p1 p2 : List kseq_t)
    (x : kseq_t) (r1 : List kseq_t) (hlen : p1.length = p2.length)
    (hok : (main rates gzprintf args p1 (some p2)).1 = EXIT_SUCCESS) :
    main rates gzprintf args (p1 ++ x :: r1) (some p2) =
      (EXIT_FAILURE, (main rates gzprintf args p1 (some p2)).2.count_in) ∧
    (main rates gzprintf args (p1 ++ x :: r1) (some p2)).2.n_reads_in = p2.length + 1 := by
  unfold main at hok ⊢
  have happ := main_loop_append rates gzprintf args p1 p2 (x :: r1) []
    ⟨0, 0, 0, ⟨1, []⟩, ⟨2, []⟩⟩ hlen
  rw [List.append_nil, if_pos hok, main_loop_cons_nil] at happ
  have hn := main_loop_n_reads_in rates gzprintf args p1 p2 ⟨0, 0, 0, ⟨1, []⟩, ⟨2, []⟩⟩ hok
  refine ⟨happ, ?_⟩
  rw [happ]
  show (main_loop rates gzprintf args p1 (some p2) ⟨0, 0, 0, ⟨1, []⟩, ⟨2, []⟩⟩).2.n_reads_in + 1
    = p2.length + 1
  rw [hn, ← hlen]
  simp

theorem main_reads_in_premature_end_witness :
    (main default_samplerates gzprintf_ok ⟨0, 0, 33, 1, 0, 0⟩ [test_read_acgt]
      (some [test_read_acgt])).1 = EXIT_SUCCESS ∧
    (main default_samplerates gzprintf_ok ⟨0, 0, 33, 1, 0, 0⟩
        ([test_read_acgt] ++ test_read_acgt :: []) (some [test_read_acgt]) =
      (EXIT_FAILURE, (main default_samplerates gzprintf_ok ⟨0, 0, 33, 1, 0, 0⟩ [test_read_acgt]
        (some [test_read_acgt])).2.count_in) ∧
    (main default_samplerates gzprintf_ok ⟨0, 0, 33, 1, 0, 0⟩
        ([test_read_acgt] ++ test_read_acgt :: []) (some [test_read_acgt])).2.n_reads_in
      = [test_read_acgt].length + 1) :=
  ⟨by decide, main_reads_in_premature_end default_samplerates gzprintf_ok
    ⟨0, 0, 33, 1, 0, 0⟩ [test_read_acgt] [test_read_acgt] test_read_acgt [] rfl (by decide)⟩

/-! ## The quality check of main in paired mode -/

/-- One iteration of the loop of `main` in paired mode with sinks that never
fail: unless the quality check rejects the first mate or the order check gives
0 for the pair, the body reaches its end or a `continue`.  The second mate is
not validated. -/
theorem main_body_paired_next (rates : samplerates) (gzprintf : gzFile → List Int → Int)
    (hsink : gzprintf_never_fails gzprintf) (args : args_t) (seq1 seq2 : kseq_t)
    (st : main_state) (hq : ¬ main_qual_abort rates args seq1 st.n_reads_in)
    (ho : main_keeps args seq1 = true → main_keeps args seq2 = true →
      args.no_order_check = 0 → 1 = st.n_reads_in % rates.PAIRED_ORDER_SAMPLERATE →
      reads_are_paired seq1 seq2 ≠ 0) :
    ∃ st1, main_body rates gzprintf args seq1 (some seq2) st = main_step.next st1 ∧
      st1.n_reads_in = st.n_reads_in := by
  rw [main_body_eq, if_neg hq]
  by_cases h1 : main_keeps args seq1 = false
  · rw [if_pos h1]
    exact ⟨st, rfl, rfl⟩
  · rw [if_neg h1]
    dsimp only
    by_cases h2 : main_keeps args seq2 = false
    · rw [if_pos h2]
      exact ⟨st, rfl, rfl⟩
    · rw [if_neg h2]
      simp only [Bool.not_eq_false] at h1 h2
      have k1 := (main_keeps_iff args seq1).mp h1
      have k2 := (main_keeps_iff args seq2).mp h2
      have emit : ∀ st2 : main_state, st2.n_reads_in = st.n_reads_in →
          ∃ st1, main_emit gzprintf seq1
            (calc_trim_pos seq1 args.phredoffset (main_trim_args args)).2
            (some (seq2, (calc_trim_pos seq2 args.phredoffset (main_trim_args args)).2)) st2
              = main_step.next st1 ∧ st1.n_reads_in = st.n_reads_in := by
        intro st2 e
        have h := main_emit_of_keep gzprintf hsink args seq1 (some seq2) st2 k1
          (fun s2 hs => by rw [← Option.some.inj hs]; exact k2)
        exact ⟨_, h, e⟩
      by_cases hc : args.no_order_check = 0 ∧ st.read_order_warning_issued = 0 ∧
          1 = st.n_reads_in % rates.PAIRED_ORDER_SAMPLERATE
      · rw [if_pos hc, if_neg (ho h1 h2 hc.1 hc.2.2)]
        by_cases hw : reads_are_paired seq1 seq2 = -1
        · rw [if_pos hw]
          exact emit _ rfl
        · rw [if_neg hw]
          exact emit _ rfl
      · rw [if_neg hc]
        exact emit _ rfl

/-- A paired run over streams of equal length with sinks that never fail, from
any state of the variables of `main`: if the quality check rejects no first
mate and the order check gives 0 for no pair, the status is Success. -/
theorem main_loop_paired_success (rates : samplerates) (gzprintf : gzFile → List Int → Int)
    (hsink : gzprintf_never_fails gzprintf) (args : args_t) (infq1 : List kseq_t) :
    ∀ (infq2 : List kseq_t) (st : main_state), infq1.length = infq2.length →
    (∀ (i : Nat) (a : kseq_t), infq1[i]? = some a →
      ¬ main_qual_abort rates args a (st.n_reads_in + i + 1)) →
    (∀ (i : Nat) (a b : kseq_t), infq1[i]? = some a → infq2[i]? = some b →
      main_keeps args a = true → main_keeps args b = true → args.no_order_check = 0 →
      1 = (st.n_reads_in + i + 1) % rates.PAIRED_ORDER_SAMPLERATE →
      reads_are_paired a b ≠ 0) →
    (main_loop rates gzprintf args infq1 (some infq2) st).1 = EXIT_SUCCESS := by
  induction infq1 with
  | nil =>
    intro infq2 st hlen _ _
    cases infq2 with
    | nil => rw [main_loop_nil_nil]
    | cons b r2 => simp at hlen
  | cons a r1 ih =>
    intro infq2 st hlen hq ho
    cases infq2 with
    | nil => simp at hlen
    | cons b r2 =>
      rw [main_loop_cons_cons]
      have hn : st.count_in.n_reads_in = st.n_reads_in + 0 + 1 := rfl
      obtain ⟨st1, e, en⟩ := main_body_paired_next rates gzprintf hsink args a b st.count_in
        (by rw [hn]; exact hq 0 a (by simp))
        (by rw [hn]; exact ho 0 a b (by simp) (by simp))
      rw [e]
      dsimp only
      have en2 : st1.n_reads_in = st.n_reads_in + 1 := by rw [en]; rfl
      apply ih r2 st1 (by simpa using hlen)
      · intro i x hx
        have := hq (i + 1) x (by simpa using hx)
        rw [en2]
        rw [show st.n_reads_in + 1 + i + 1 = st.n_reads_in + (i + 1) + 1 by omega]
        exact this
      · intro i x y hx hy
        have := ho (i + 1) x y (by simpa using hx) (by simpa using hy)
        rw [en2]
        rw [show st.n_reads_in + 1 + i + 1 = st.n_reads_in + (i + 1) + 1 by omega]
        exact this

/-- C23: in paired mode the quality check of `main` is applied to the first
mate only.  For every paired run in which the streams have equal length, the
sinks never fail, every sampled record A (1-based index `i` with
`1 = i % QUAL_CHECK_SAMPLERATE`, check enabled) is valid and no sampled pair
(index `i` with `1 = i % PAIRED_ORDER_SAMPLERATE`, check enabled, both mates
kept) is NotPaired, the status is Success; nothing is asked of the quality
bytes of the records of stream B. -/
theorem main_paired_qual_first_mate_only (rates : samplerates)
    (gzprintf : gzFile → List Int → Int) (args : args_t) (infq1 infq2 : List kseq_t)
    (hsink : gzprintf_never_fails gzprintf) (hlen : infq1.length = infq2.length)
    (hq : ∀ (i : Nat) (a : kseq_t), infq1[i]? = some a → args.no_qual_check = 0 →
      1 = (i + 1) % rates.QUAL_CHECK_SAMPLERATE →
      qual_range_is_valid a args.phredoffset ≠ 0)
    (ho : ∀ (i : Nat) (a b : kseq_t), infq1[i]? = some a → infq2[i]? = some b →
      main_keeps args a = true → main_keeps args b = true → args.no_order_check = 0 →
      1 = (i + 1) % rates.PAIRED_ORDER_SAMPLERATE → reads_are_paired a b ≠ 0) :
    (main rates gzprintf args infq1 (some infq2)).1 = EXIT_SUCCESS := by
  unfold main
  apply main_loop_paired_success rates gzprintf hsink args infq1 infq2 _ hlen
  · intro i a ha hab
    unfold main_qual_abort at hab
    obtain ⟨⟨c1, c2⟩, c3⟩ := hab
    have c2b : 1 = (i + 1) % rates.QUAL_CHECK_SAMPLERATE := by
      have e : (0 : Nat) + i + 1 = i + 1 := by omega
      rw [← e]
      exact c2
    exact hq i a ha c1 c2b c3
  · intro i a b ha hb k1 k2 hno htick
    have e : (0 : Nat) + i + 1 = i + 1 := by omega
    apply ho i a b ha hb k1 k2 hno
    rw [← e]
    exact htick

theorem main_paired_qual_first_mate_only_witness :
    qual_range_is_valid test_read_bad_qual 64 = 0 ∧
    (main default_samplerates gzprintf_ok ⟨0, 0, 64, 1, 0, 0⟩ [test_read_phred64]
      (some [test_read_bad_qual])).2.n_reads_out = 1 ∧
    (main default_samplerates gzprintf_ok ⟨0, 0, 64, 1, 0, 0⟩ [test_read_phred64]
      (some [test_read_bad_qual])).1 = EXIT_SUCCESS :=
  ⟨by decide, by decide,
    main_paired_qual_first_mate_only default_samplerates gzprintf_ok ⟨0, 0, 64, 1, 0, 0⟩
      [test_read_phred64] [test_read_bad_qual] gzprintf_ok_never_fails rfl
      (fun i a ha _ _ => by
        cases i with
        | zero =>
          have e : test_read_phred64 = a := by simpa using ha
          rw [← e]
          decide
        | succ j => simp at ha)
      (fun i a b ha hb _ _ _ _ => by
        cases i with
        | zero =>
          have e1 : test_read_phred64 = a := by simpa using ha
          have e2 : test_read_bad_qual = b := by simpa using hb
          rw [← e1, ← e2]
          decide
        | succ j => simp at ha)⟩

/-! ## The sampling cadence of the quality check of main -/

/-- For a sample rate of at least 2 the quality check of `main` rejects the
record at the 1-based input index `i` exactly when the check is enabled, `i` is
the first record of a block of `QUAL_CHECK_SAMPLERATE` records
(`i = 1, 1+R, 1+2R, ...`) and `qual_range_is_valid` returns 0 for it. -/
theorem main_qual_abort_cadence (rates : samplerates)
    (hR : 2 ≤ rates.QUAL_CHECK_SAMPLERATE) (args : args_t) (seq1 : kseq_t) (i : Nat) :
    main_qual_abort rates args seq1 i ↔
      args.no_qual_check = 0 ∧ (∃ k : Nat, i = 1 + k * rates.QUAL_CHECK_SAMPLERATE) ∧
        qual_range_is_valid seq1 args.phredoffset = 0 := by
  unfold main_qual_abort
  have tick : 1 = i % rates.QUAL_CHECK_SAMPLERATE ↔
      ∃ k : Nat, i = 1 + k * rates.QUAL_CHECK_SAMPLERATE := by
    constructor
    · intro h
      refine ⟨i / rates.QUAL_CHECK_SAMPLERATE, ?_⟩
      have := Nat.div_add_mod i rates.QUAL_CHECK_SAMPLERATE
      rw [← h] at this
      rw [Nat.mul_comm] at this
      omega
    · rintro ⟨k, rfl⟩
      rw [Nat.add_mul_mod_self_right, Nat.mod_eq_of_lt (by omega)]
  constructor
  · rintro ⟨⟨h1, h2⟩, h3⟩
    exact ⟨h1, tick.mp h2, h3⟩
  · rintro ⟨h1, h2, h3⟩
    exact ⟨⟨h1, tick.mpr h2⟩, h3⟩

/-- A single end run over `p1 ++ r1` is the run over `p1` followed, if that
one gets through, by the run over `r1`. -/
theorem main_loop_append_single (rates : samplerates) (gzprintf : gzFile → List Int → Int)
    (args : args_t) (p1 : List kseq_t) :
    ∀ (r1 : List kseq_t) (st : main_state),
    main_loop rates gzprintf args (p1 ++ r1) none st =
      if (main_loop rates gzprintf args p1 none st).1 = EXIT_SUCCESS then
        main_loop rates gzprintf args r1 none (main_loop rates gzprintf args p1 none st).2
      else main_loop rates gzprintf args p1 none st := by
  induction p1 with
  | nil =>
    intro r1 st
    rw [main_loop_nil_none, if_pos rfl]
    rfl
  | cons a q1 ih =>
    intro r1 st
    rw [List.cons_append, main_loop_cons_none, main_loop_cons_none]
    cases main_body rates gzprintf args a none st.count_in with
    | next st1 => exact ih r1 st1
    | free_and_exit st1 =>
      dsimp only
      rw [if_neg (by decide)]

/-- A single end run that gets through all its records has counted each of
them in `n_reads_in`. -/
theorem main_loop_n_reads_in_single (rates : samplerates)
    (gzprintf : gzFile → List Int → Int) (args : args_t) (p1 : List kseq_t) :
    ∀ st : main_state,
    (main_loop rates gzprintf args p1 none st).1 = EXIT_SUCCESS →
    (main_loop rates gzprintf args p1 none st).2.n_reads_in = st.n_reads_in + p1.length := by
  have hfs : ¬ (EXIT_FAILURE = EXIT_SUCCESS) := by decide
  induction p1 with
  | nil =>
    intro st _
    rw [main_loop_nil_none]
    rfl
  | cons a q1 ih =>
    intro st hs
    have hf := (main_body_frame rates gzprintf args a none st.count_in).1
    rw [main_loop_cons_none] at hs ⊢
    cases hb : main_body rates gzprintf args a none st.count_in with
    | next st1 =>
      rw [hb] at hs hf
      dsimp only at hs ⊢
      rw [ih st1 hs, show st1.n_reads_in = _ from hf]
      show st.n_reads_in + 1 + q1.length = st.n_reads_in + (q1.length + 1)
      omega
    | free_and_exit st1 =>
      rw [hb] at hs
      exact absurd hs hfs

/-- Single end mode: a record that the quality check rejects ends the run with
status Failure.  If the run over the records before it gets through, the
variables are those of that run with the input counter incremented once, so
the rejected record and all later records are not written and what was written
before stays; otherwise the run has ended before the record. -/
theorem main_qual_check_abort_single (rates : samplerates)
    (gzprintf : gzFile → List Int → Int) (args : args_t) (p1 : List kseq_t) (x : kseq_t)
    (r1 : List kseq_t) (hx : main_qual_abort rates args x (p1.length + 1)) :
    main rates gzprintf args (p1 ++ x :: r1) none =
      (EXIT_FAILURE,
        if (main rates gzprintf args p1 none).1 = EXIT_SUCCESS then
          (main rates gzprintf args p1 none).2.count_in
        else (main rates gzprintf args p1 none).2) := by
  unfold main
  rw [main_loop_append_single]
  by_cases hok : (main_loop rates gzprintf args p1 none ⟨0, 0, 0, ⟨1, []⟩, ⟨2, []⟩⟩).1
      = EXIT_SUCCESS
  · rw [if_pos hok, if_pos hok, main_loop_cons_none, main_body_eq]
    have hn := main_loop_n_reads_in_single rates gzprintf args p1 _ hok
    have hx2 : main_qual_abort rates args x
        (main_loop rates gzprintf args p1 none ⟨0, 0, 0, ⟨1, []⟩, ⟨2, []⟩⟩).2.count_in.n_reads_in := by
      show main_qual_abort rates args x
        ((main_loop rates gzprintf args p1 none ⟨0, 0, 0, ⟨1, []⟩, ⟨2, []⟩⟩).2.n_reads_in + 1)
      rw [hn]
      have e : (0 : Nat) + p1.length + 1 = p1.length + 1 := by omega
      rw [e]
      exact hx
    rw [if_pos hx2]
  · rw [if_neg hok, if_neg hok]
    rcases main_loop_rc rates gzprintf args p1 none ⟨0, 0, 0, ⟨1, []⟩, ⟨2, []⟩⟩ with h | h
    · exact absurd h hok
    · exact Prod.ext h rfl

/-- Paired mode: a first mate that the quality check rejects ends the run with
status Failure, whether or not stream B still holds its mate.  If the run over
the pairs before it gets through, the variables are those of that run with the
input counter incremented once, so the pair and all later pairs are not
written and what was written before stays; otherwise the run has ended before
the pair. -/
theorem main_qual_check_abort_paired (rates : samplerates)
    (gzprintf : gzFile → List Int → Int) (args : args_t) (p1 p2 : List kseq_t) (x : kseq_t)
    (r1 r2 : List kseq_t) (hlen : p1.length = p2.length)
    (hx : main_qual_abort rates args x (p1.length + 1)) :
    main rates gzprintf args (p1 ++ x :: r1) (some (p2 ++ r2)) =
      (EXIT_FAILURE,
        if (main rates gzprintf args p1 (some p2)).1 = EXIT_SUCCESS then
          (main rates gzprintf args p1 (some p2)).2.count_in
        else (main rates gzprintf args p1 (some p2)).2) := by
  unfold main
  rw [main_loop_append rates gzprintf args p1 p2 (x :: r1) r2 _ hlen]
  by_cases hok : (main_loop rates gzprintf args p1 (some p2) ⟨0, 0, 0, ⟨1, []⟩, ⟨2, []⟩⟩).1
      = EXIT_SUCCESS
  · rw [if_pos hok, if_pos hok]
    cases r2 with
    | nil => rw [main_loop_cons_nil]
    | cons y q2 =>
      rw [main_loop_cons_cons, main_body_eq]
      have hn := main_loop_n_reads_in rates gzprintf args p1 p2 _ hok
      have hx2 : main_qual_abort rates args x
          (main_loop rates gzprintf args p1 (some p2)
            ⟨0, 0, 0, ⟨1, []⟩, ⟨2, []⟩⟩).2.count_in.n_reads_in := by
        show main_qual_abort rates args x
          ((main_loop rates gzprintf args p1 (some p2)
            ⟨0, 0, 0, ⟨1, []⟩, ⟨2, []⟩⟩).2.n_reads_in + 1)
        rw [hn]
        have e : (0 : Nat) + p1.length + 1 = p1.length + 1 := by omega
        rw [e]
        exact hx
      rw [if_pos hx2]
  · rw [if_neg hok, if_neg hok]
    rcases main_loop_rc rates gzprintf args p1 (some p2) ⟨0, 0, 0, ⟨1, []⟩, ⟨2, []⟩⟩ with h | h
    · exact absurd h hok
    · exact Prod.ext h rfl

/-- C21 fails for `QUAL_CHECK_SAMPLERATE = 1`: the test
`1 == n_reads_in % QUAL_CHECK_SAMPLERATE` never holds for rate 1, so with the
quality check enabled no record is validated, the first one included.  A
single end run with sinks that never fail then has status Success and writes
every record `calc_trim_pos` keeps, also those `qual_range_is_valid`
rejects. -/
theorem main_qual_check_rate_one (P : Nat) (gzprintf : gzFile → List Int → Int)
    (args : args_t) (hsink : gzprintf_never_fails gzprintf) (infq1 : List kseq_t) :
    (∀ (seq : kseq_t) (n : Nat), ¬ main_qual_abort ⟨1, P⟩ args seq n) ∧
    (main ⟨1, P⟩ gzprintf args infq1 none).1 = EXIT_SUCCESS ∧
    (main ⟨1, P⟩ gzprintf args infq1 none).2.fp_outfq1.written =
      (infq1.filter (main_keeps args)).map (main_text args) := by
  have hno : ∀ (seq : kseq_t) (n : Nat), ¬ main_qual_abort ⟨1, P⟩ args seq n := by
    intro seq n h
    unfold main_qual_abort at h
    have h2 : 1 = n % 1 := h.1.2
    rw [Nat.mod_one] at h2
    exact absurd h2 (by decide)
  refine ⟨hno, ?_⟩
  unfold main
  rw [main_loop_single ⟨1, P⟩ gzprintf args hsink infq1 _ (fun i seq _ => hno seq _)]
  exact ⟨rfl, by simp⟩

theorem main_qual_check_rate_one_witness :
    qual_range_is_valid test_read_bad_qual 33 = 0 ∧
    (main ⟨1, 1000⟩ gzprintf_ok ⟨0, 0, 33, 1, 0, 0⟩ [test_read_bad_qual]
      none).2.fp_outfq1.written.length = 1 ∧
    main ⟨2, 1000⟩ gzprintf_ok ⟨0, 0, 33, 1, 0, 0⟩ [test_read_bad_qual] none =
      (EXIT_FAILURE, ⟨1, 0, 0, ⟨1, []⟩, ⟨2, []⟩⟩) ∧
    ((∀ (seq : kseq_t) (n : Nat), ¬ main_qual_abort ⟨1, 1000⟩ ⟨0, 0, 33, 1, 0, 0⟩ seq n) ∧
    (main ⟨1, 1000⟩ gzprintf_ok ⟨0, 0, 33, 1, 0, 0⟩ [test_read_bad_qual] none).1
      = EXIT_SUCCESS ∧
    (main ⟨1, 1000⟩ gzprintf_ok ⟨0, 0, 33, 1, 0, 0⟩ [test_read_bad_qual]
        none).2.fp_outfq1.written =
      ([test_read_bad_qual].filter (main_keeps ⟨0, 0, 33, 1, 0, 0⟩)).map
        (main_text ⟨0, 0, 33, 1, 0, 0⟩)) :=
  ⟨by decide, by decide, by decide,
    main_qual_check_rate_one 1000 gzprintf_ok ⟨0, 0, 33, 1, 0, 0⟩ gzprintf_ok_never_fails
      [test_read_bad_qual]⟩

end Famas
